import Mathlib

/-!
Verification of the eav-to-prisma model-to-schema compilation pipeline.

This file gives a shallow embedding of the pipeline's core functions:
the naming helpers, the field translator (`mapFieldToPrisma`), the
relation/junction builder, the component table builder, the model
compiler (`buildModel`), the orchestrator's table-accumulation loop,
the definition validator, the schema serializer and the external-model
parser, together with theorems about the properties claimed of them.

Machine integers are modelled as `Int`/`Nat`; JavaScript strings as
Lean `String` (with `List Char` scanners where the source uses regex
or index loops); thrown exceptions as `Except String`.
-/

set_option maxRecDepth 8000

namespace EavToPrisma

/-! ## Naming helpers (src/utils/naming.ts) -/

/-- Split a character list at separators chosen by `p` (semantics of
JavaScript `split`: `n` separators give `n+1` pieces, empty pieces kept). -/
def splitChars (p : Char → Bool) : List Char → List (List Char)
  | [] => [[]]
  | c :: rest =>
    if p c then [] :: splitChars p rest
    else
      match splitChars p rest with
      | [] => [[c]]
      | w :: ws => (c :: w) :: ws

/-- One word of naming.ts `toPascalCase`:
`word.charAt(0).toUpperCase() + word.slice(1).toLowerCase()`. -/
def capitalizeWord (w : List Char) : List Char :=
  match w with
  | [] => []
  | c :: rest => c.toUpper :: rest.map Char.toLower

/-- naming.ts `toPascalCase`: split on `-` or `_`, uppercase each word's
first character, lowercase the rest of the word, concatenate. -/
def toPascalCase (s : String) : String :=
  String.mk (((splitChars (fun c => c == '-' || c == '_') s.data).map capitalizeWord).flatten)

/-- naming.ts `toCamelCase`:
`toPascalCase(str).charAt(0).toLowerCase() + pascal.slice(1)`. -/
def toCamelCase (s : String) : String :=
  match (toPascalCase s).data with
  | [] => ""
  | c :: rest => String.mk (c.toLower :: rest)

/-- The global replacement pass of naming.ts `toSnakeCase`:
`str.replace(/[A-Z]/g, letter => '_' + letter.toLowerCase())`. -/
def snakeChars : List Char → List Char
  | [] => []
  | c :: rest =>
    (if c.isUpper then ['_', c.toLower] else [c]) ++ snakeChars rest

/-- naming.ts `toSnakeCase`: prefix every uppercase letter with `_` and
lowercase it, then strip one leading underscore (`.replace(/^_/, '')`). -/
def toSnakeCase (s : String) : String :=
  String.mk (match snakeChars s.data with
    | '_' :: rest => rest
    | l => l)

/-- Replace every occurrence of `pat` (semantics of JavaScript
`String.replace` with a global regex of a literal pattern). -/
def replaceAllChars (pat rep : List Char) : List Char → List Char
  | [] => []
  | c :: rest =>
    if pat ≠ [] ∧ pat.isPrefixOf (c :: rest) then
      rep ++ replaceAllChars pat rep (List.drop (pat.length - 1) rest)
    else
      c :: replaceAllChars pat rep rest
  termination_by s => s.length
  decreasing_by
    · simp only [List.length_drop, List.length_cons]
      omega
    · simp [List.length_cons]

/-- Replace the first occurrence of `pat` (semantics of JavaScript
`String.replace` with a string pattern, as used on `i18nTableNaming`). -/
def replaceFirstChars (pat rep : List Char) : List Char → List Char
  | [] => []
  | c :: rest =>
    if pat ≠ [] ∧ pat.isPrefixOf (c :: rest) then
      rep ++ List.drop (pat.length - 1) rest
    else
      c :: replaceFirstChars pat rep rest

/-- JavaScript `s.replace(pat, rep)` for a string `pat` (first occurrence). -/
def replaceFirst (s pat rep : String) : String :=
  String.mk (replaceFirstChars pat.data rep.data s.data)

/-- JavaScript `s.replace(/pat/g, rep)` (every occurrence). -/
def replaceAll (s pat rep : String) : String :=
  String.mk (replaceAllChars pat.data rep.data s.data)

/-- JavaScript `s.endsWith(c)` for a one-character suffix. -/
def endsWithChar (s : String) (c : Char) : Bool :=
  match s.data.getLast? with
  | some c2 => c2 == c
  | none => false

/-! ## Prisma AST (src/utils/prisma-ast.ts interface shape, as used by
`src/utils/prisma-parser.ts` lines 3-25 and all mappers) -/

/-- A rendered/parsed `@default(...)` value (string, number or boolean);
numeric literals are modelled as `Int`. -/
inductive DefaultVal
  | str (s : String)
  | int (n : Int)
  | bool (b : Bool)
deriving DecidableEq, Repr

/-- Referential action of a relation edge. -/
inductive RefAction
  | cascade
  | setNull
  | restrict
  | noAction
deriving DecidableEq, BEq, Repr

/-- The `@relation(...)` wiring of a field (the optional relation name
exists in the AST shape and is rendered first by the serializer; the
pipeline never sets it). -/
structure RelationAttr where
  name : Option String := none
  fields : List String
  references : List String
  onDelete : Option RefAction := none
  onUpdate : Option RefAction := none
deriving DecidableEq, Repr

/-- Declarative validation metadata carried on a field, echoed into a
schema comment by the serializer (field-config-schema.ts
`FieldValidationSchema`); numeric bounds are modelled as `Int`. -/
structure FieldValidation where
  minLength : Option Int := none
  maxLength : Option Int := none
  pattern : Option String := none
  email : Option Bool := none
  url : Option Bool := none
  uuid : Option Bool := none
  cuid : Option Bool := none
  min : Option Int := none
  max : Option Int := none
  int : Option Bool := none
  positive : Option Bool := none
  negative : Option Bool := none
  minItems : Option Int := none
  maxItems : Option Int := none
  custom : Option String := none
deriving DecidableEq, Repr

/-- An output column descriptor (`PrismaField` in the source). -/
structure PrismaField where
  name : String
  type : String
  list : Bool := false
  optional : Bool := false
  attributes : List String := []
  default : Option DefaultVal := none
  map : Option String := none
  relation : Option RelationAttr := none
  validation : Option FieldValidation := none
deriving DecidableEq, Repr

/-- An output table descriptor (`PrismaModel` in the source).  `indexes`,
`unique` and `map` distinguish absent (`none`) from present, matching the
optional TS properties. -/
structure PrismaModel where
  name : String
  fields : List PrismaField
  indexes : Option (List (List String)) := none
  unique : Option (List (List String)) := none
  map : Option String := none
deriving DecidableEq, Repr

/-! ## Validated definition types (src/field-config-schema.ts inferred types) -/

/-- `relationType` of a relation config (zod enum). -/
inductive RelationType
  | oneToOne
  | oneToMany
  | manyToOne
  | manyToMany
deriving DecidableEq, BEq, Repr

/-- `cascade` of a relation config (zod enum, default restrict). -/
inductive CascadeOpt
  | restrict
  | cascade
  | setNull
deriving DecidableEq, BEq, Repr

/-- `format` of a number config (zod enum). -/
inductive NumberFormat
  | integer
  | decimal
  | currency
  | percentage
deriving DecidableEq, BEq, Repr

/-- `format` of a date config (zod enum, default `date`). -/
inductive DateFormat
  | date
  | datetime
  | time
deriving DecidableEq, BEq, Repr

/-- Relation config attached to a `relation`-typed field. -/
structure RelationConfig where
  relationType : RelationType
  targetModel : String
  displayField : String
  cascade : CascadeOpt := .restrict
deriving DecidableEq, Repr

/-- A/B-testing part of a component context. -/
structure ABTestingConfig where
  enabled : Bool := false
deriving DecidableEq, Repr

/-- Component context (`ComponentContextSchema`); only the A/B-testing
part is read by generation. -/
structure ComponentContext where
  abTesting : Option ABTestingConfig := none
deriving DecidableEq, Repr

/-- Component reference config attached to a `component`-typed field. -/
structure ComponentConfig where
  slug : String
  repeatable : Bool := false
  context : Option ComponentContext := none
deriving DecidableEq, Repr

/-- The discriminated per-type field config (`FieldConfigSchema`); the
payloads kept are the ones generation reads. -/
inductive FieldConfig
  | text
  | rich
  | number (format : Option NumberFormat) (default : Option Int)
  | boolean (default : Option Bool)
  | select (multiple : Bool) (options : List String)
  | json
  | media (multiple : Bool)
  | relation (rc : RelationConfig)
  | component (cc : ComponentConfig)
  | date (format : DateFormat) (default : Option String)
deriving DecidableEq, Repr

/-- A validated field definition (`FieldDefinitionType`).  `type` is kept
as a runtime string because the translator's behaviour on unrecognized
values is itself specified; `translatable` is `Option Bool` because the
zod schema is `.default(true).optional()`, which leaves an absent value
absent; `derived` models the passthrough metadata key read by
`Generator.generate`. -/
structure FieldDefinition where
  key : String
  label : String
  type : String
  config : Option FieldConfig := none
  required : Bool := false
  translatable : Option Bool := none
  validation : Option FieldValidation := none
  derived : Bool := false
deriving DecidableEq, Repr

/-- Model `settings` (`enableI18n`, `sortField`). -/
structure ModelSettings where
  enableI18n : Option Bool := none
  sortField : Option String := none
deriving DecidableEq, Repr

/-- A validated model definition (`ModelConfigType`). -/
structure ModelConfig where
  slug : String
  name : String
  fields : List FieldDefinition
  settings : Option ModelSettings := none
deriving DecidableEq, Repr

/-- A validated component definition (`ComponentEntityType`). -/
structure ComponentEntity where
  slug : String
  name : String
  fields : List FieldDefinition
deriving DecidableEq, Repr

/-- Naming convention of the schema-builder config. -/
inductive NamingConvention
  | snake_case
  | camelCase
  | pascalCase
deriving DecidableEq, BEq, Repr

/-- `SchemaBuilderConfig` (src/core/schema-builder.ts lines 191-197).
The source's `prefix` property is named `namePrefix` here;
`externalModelNames` is the orchestrator-supplied set of external table
names, modelled as a list. -/
structure SchemaBuilderConfig where
  convention : NamingConvention
  namePrefix : Option String := none
  i18nEnabled : Bool
  i18nTableNaming : String
  externalModelNames : List String := []
deriving DecidableEq, Repr

/-! ## Field translator (src/mappers/field-mapper.ts)

`FieldMapperConfig` is a structural subset of `SchemaBuilderConfig` in the
source; the full config is passed here as the source's callers do.
Thrown `Error`s are modelled as `Except.error`. -/

/-- `toModelName` local to field-mapper.ts (lines 255-266): resolve a slug
to a table name under the convention.  (The source's unreachable `default`
branch repeats the PascalCase case.) -/
def FieldMapper.toModelName (slug : String) (config : SchemaBuilderConfig) : String :=
  match config.convention with
  | .pascalCase => toPascalCase slug
  | .camelCase => toCamelCase slug
  | .snake_case => replaceAll slug "-" "_"

/-- field-mapper.ts `mapTextField`. -/
def mapTextField (field : FieldDefinition) : PrismaField :=
  { name := field.key, type := "String", optional := !field.required,
    validation := field.validation }

/-- field-mapper.ts `mapRichTextField`. -/
def mapRichTextField (field : FieldDefinition) : PrismaField :=
  { name := field.key, type := "String", optional := !field.required,
    validation := field.validation }

/-- field-mapper.ts `mapNumberField`: `Float` unless
`config.format == "integer"`; the default value is carried only from a
number config. -/
def mapNumberField (field : FieldDefinition) : PrismaField :=
  let t : String :=
    match field.config with
    | some (.number (some .integer) _) => "Int"
    | _ => "Float"
  let d : Option DefaultVal :=
    match field.config with
    | some (.number _ (some v)) => some (.int v)
    | _ => none
  { name := field.key, type := t, optional := !field.required,
    default := d, validation := field.validation }

/-- field-mapper.ts `mapBooleanField`. -/
def mapBooleanField (field : FieldDefinition) : PrismaField :=
  let d : Option DefaultVal :=
    match field.config with
    | some (.boolean (some v)) => some (.bool v)
    | _ => none
  { name := field.key, type := "Boolean", optional := !field.required,
    default := d, validation := field.validation }

/-- field-mapper.ts `mapDateField`. -/
def mapDateField (field : FieldDefinition) : PrismaField :=
  { name := field.key, type := "DateTime", optional := !field.required,
    validation := field.validation }

/-- field-mapper.ts `mapSelectField` (both the `multiple` and the single
branch of the source produce the same column). -/
def mapSelectField (field : FieldDefinition) : PrismaField :=
  match field.config with
  | some (.select true _) =>
    { name := field.key, type := "String", optional := !field.required,
      validation := field.validation }
  | _ =>
    { name := field.key, type := "String", optional := !field.required,
      validation := field.validation }

/-- field-mapper.ts `mapJsonField`. -/
def mapJsonField (field : FieldDefinition) : PrismaField :=
  { name := field.key, type := "String", optional := !field.required,
    validation := field.validation }

/-- field-mapper.ts `mapMediaField`: a multi-valued media field with a
known external `Media` table becomes a list-relation column, otherwise a
`<key>_id` FK column (the source's two remaining branches coincide). -/
def mapMediaField (field : FieldDefinition) (config : SchemaBuilderConfig) :
    List PrismaField :=
  let hasMediaModel := config.externalModelNames.contains "Media"
  let isMultiple : Bool :=
    match field.config with
    | some (.media true) => true
    | _ => false
  if isMultiple && hasMediaModel then
    [{ name := field.key, type := "Media", list := true, optional := true }]
  else if hasMediaModel then
    [{ name := field.key ++ "_id", type := "String", optional := !field.required }]
  else
    [{ name := field.key ++ "_id", type := "String", optional := !field.required }]

/-- field-mapper.ts `mapRelationField`: throws unless the config is a
relation config; oneToOne/manyToOne give a `<key>_id` FK column (with
`@unique` only for oneToOne); oneToMany/manyToMany give a list-relation
column of the resolved target name. -/
def mapRelationField (field : FieldDefinition) (config : SchemaBuilderConfig) :
    Except String (List PrismaField) :=
  match field.config with
  | some (.relation rc) =>
    let targetModel := FieldMapper.toModelName rc.targetModel config
    match rc.relationType with
    | .oneToOne =>
      .ok [{ name := field.key ++ "_id", type := "String",
             optional := !field.required, attributes := ["@unique"] }]
    | .manyToOne =>
      .ok [{ name := field.key ++ "_id", type := "String",
             optional := !field.required }]
    | .oneToMany =>
      .ok [{ name := field.key, type := targetModel, list := true, optional := true }]
    | .manyToMany =>
      .ok [{ name := field.key, type := targetModel, list := true, optional := true }]
  | _ => .error "Invalid relation field"

/-- field-mapper.ts `mapComponentField`: throws unless the config is a
component config; repeatable gives a list reference, otherwise an object
reference. -/
def mapComponentField (field : FieldDefinition) (config : SchemaBuilderConfig) :
    Except String (List PrismaField) :=
  match field.config with
  | some (.component cc) =>
    let componentModel := FieldMapper.toModelName cc.slug config
    if cc.repeatable then
      .ok [{ name := field.key, type := componentModel, list := true, optional := true }]
    else
      .ok [{ name := field.key, type := componentModel, optional := !field.required }]
  | _ => .error "Invalid component field"

/-- field-mapper.ts `mapFieldToPrisma` (lines 13-41): dispatch on the
field's `type` string; an unrecognized type throws naming the type. -/
def mapFieldToPrisma (field : FieldDefinition) (config : SchemaBuilderConfig) :
    Except String (List PrismaField) :=
  match field.type with
  | "text" => .ok [mapTextField field]
  | "rich" => .ok [mapRichTextField field]
  | "number" => .ok [mapNumberField field]
  | "boolean" => .ok [mapBooleanField field]
  | "date" => .ok [mapDateField field]
  | "select" => .ok [mapSelectField field]
  | "json" => .ok [mapJsonField field]
  | "media" => .ok (mapMediaField field config)
  | "relation" => mapRelationField field config
  | "component" => mapComponentField field config
  | _ => .error ("Unknown field type: " ++ field.type)

/-- Sequentially translate a list of fields and concatenate the columns
(the source's `fields.flatMap(f => mapFieldToPrisma(f, config))`; the
first thrown error propagates). -/
def mapFieldsToPrisma (fields : List FieldDefinition) (config : SchemaBuilderConfig) :
    Except String (List PrismaField) :=
  match fields with
  | [] => .ok []
  | f :: rest =>
    match mapFieldToPrisma f config with
    | .error e => .error e
    | .ok cols =>
      match mapFieldsToPrisma rest config with
      | .error e => .error e
      | .ok more => .ok (cols ++ more)

/-! ## Relation/junction builder (src/mappers/relation-mapper.ts) -/

/-- relation-mapper.ts `needsJunctionTable` (lines 11-17): true iff the
field is a relation whose relation config has `relationType manyToMany`. -/
def needsJunctionTable (field : FieldDefinition) : Bool :=
  match field.config with
  | some (.relation rc) =>
    field.type == "relation" && decide (rc.relationType = .manyToMany)
  | _ => false

/-- relation-mapper.ts `buildJunctionTableName` (lines 95-106). -/
def buildJunctionTableName (fromModel toModel : String) (config : SchemaBuilderConfig) :
    String :=
  if config.convention = .snake_case then
    toSnakeCase fromModel ++ "_" ++ toSnakeCase toModel
  else
    fromModel ++ toModel

/-- relation-mapper.ts `buildJunctionTable` (lines 27-93): junction table
with identity, both FK columns, nullable `order`, creation timestamp and
the two relation edges; unique over `(fromFk, toFk)` and an index on each
FK. -/
def buildJunctionTable (fromModel : String) (field : FieldDefinition)
    (config : SchemaBuilderConfig) : Except String PrismaModel :=
  match field.config with
  | some (.relation relationConfig) =>
    let toModel := toPascalCase relationConfig.targetModel
    let tableName := buildJunctionTableName fromModel toModel config
    let fromFk := toSnakeCase fromModel ++ "_id"
    let toFk := toSnakeCase toModel ++ "_id"
    .ok
      { name := tableName,
        fields :=
          [{ name := "id", type := "String", attributes := ["@id", "@default(cuid())"] },
           { name := fromFk, type := "String" },
           { name := toFk, type := "String" },
           { name := "order", type := "Int", optional := true },
           { name := "created_at", type := "DateTime", attributes := ["@default(now())"] },
           { name := toSnakeCase fromModel, type := fromModel,
             relation := some
               { fields := [fromFk], references := ["id"],
                 onDelete := some (if relationConfig.cascade = .cascade then .cascade else .restrict) } },
           { name := toSnakeCase toModel, type := toModel,
             relation := some
               { fields := [toFk], references := ["id"], onDelete := some .cascade } }],
        unique := some [[fromFk, toFk]],
        indexes := some [[fromFk], [toFk]] }
  | _ => .error "Field must be a relation"

/-! ## Component table builder (src/mappers/component-mapper.ts, in
src/unnamed/part_003) -/

/-- The translatable/non-translatable partition of component fields. -/
structure SeparatedComponentFields where
  translatable : List FieldDefinition
  nonTranslatable : List FieldDefinition
deriving DecidableEq, Repr

/-- component-mapper.ts `separateComponentFields`: component and relation
fields are non-translatable; otherwise a field is translatable unless its
`translatable` flag is literally `false`. -/
def separateComponentFields (fields : List FieldDefinition) : SeparatedComponentFields :=
  fields.foldl
    (fun acc field =>
      if field.type = "component" ∨ field.type = "relation" then
        { acc with nonTranslatable := acc.nonTranslatable ++ [field] }
      else if field.translatable ≠ some false then
        { acc with translatable := acc.translatable ++ [field] }
      else
        { acc with nonTranslatable := acc.nonTranslatable ++ [field] })
    ⟨[], []⟩

/-- component-mapper.ts `buildComponentTableName`: parent name plus the
singularized field key (trailing `s` stripped) under the convention. -/
def ComponentMapper.buildComponentTableName (parentModel fieldKey : String)
    (config : SchemaBuilderConfig) : String :=
  let fieldName := if endsWithChar fieldKey 's' then String.mk fieldKey.data.dropLast else fieldKey
  if config.convention = .snake_case then
    toSnakeCase parentModel ++ "_" ++ fieldName
  else
    parentModel ++ toPascalCase fieldName

/-- component-mapper.ts `buildComponentTable` (part_003 lines 235-333):
identity; parent FK (`@unique` iff not repeatable); `order` column iff
repeatable; A/B-testing columns iff `context.abTesting.enabled`; the
component's own fields (all of them when i18n is disabled, only the
non-translatable ones when enabled); timestamps; back-relation; a
`translations` list column iff i18n is enabled and there are translatable
fields; a single index on the parent FK iff repeatable. -/
def buildComponentTable (parentModel fieldKey : String) (component : ComponentEntity)
    (repeatable : Bool) (config : SchemaBuilderConfig)
    (context : Option ComponentContext) : Except String PrismaModel :=
  let tableName := ComponentMapper.buildComponentTableName parentModel fieldKey config
  let parentFk := toSnakeCase parentModel ++ "_id"
  let s := separateComponentFields component.fields
  match mapFieldsToPrisma
    (if config.i18nEnabled then s.nonTranslatable else s.nonTranslatable ++ s.translatable)
    config with
  | .error e => .error e
  | .ok own =>
  let abEnabled : Bool :=
    match context with
    | some ctx =>
      match ctx.abTesting with
      | some ab => ab.enabled
      | none => false
    | none => false
  let fields : List PrismaField :=
    [{ name := "id", type := "String", attributes := ["@id", "@default(cuid())"] },
     { name := parentFk, type := "String",
       attributes := if repeatable then [] else ["@unique"] }]
    ++ (if repeatable then [{ name := "order", type := "Int", optional := true }] else [])
    ++ (if abEnabled then
          [{ name := "variant_id", type := "String", optional := true },
           { name := "enabled", type := "Boolean", optional := true,
             default := some (.bool true) }]
        else [])
    ++ own
    ++ [{ name := "created_at", type := "DateTime", attributes := ["@default(now())"] },
        { name := "updated_at", type := "DateTime", attributes := ["@updatedAt"] },
        { name := toSnakeCase parentModel, type := parentModel,
          relation := some
            { fields := [parentFk], references := ["id"], onDelete := some .cascade } }]
  let fields :=
    if config.i18nEnabled ∧ s.translatable ≠ [] then
      fields ++ [{ name := "translations", type := tableName ++ "Translation", list := true }]
    else fields
  .ok
    { name := tableName, fields := fields,
      indexes := if repeatable then some [[parentFk]] else none }

/-- component-mapper.ts `buildComponentTranslationTable` (part_003 lines
338-384): `null` when the component has no translatable fields; otherwise
a translation table with identity, component FK, `lang`, the translatable
fields, the back-relation, a snake_cased physical name and a unique
constraint on `(componentFk, lang)`. -/
def buildComponentTranslationTable (parentModel fieldKey : String)
    (component : ComponentEntity) (config : SchemaBuilderConfig) :
    Except String (Option PrismaModel) :=
  let s := separateComponentFields component.fields
  if s.translatable = [] then
    .ok none
  else
  let baseTableName := ComponentMapper.buildComponentTableName parentModel fieldKey config
  let tableName := baseTableName ++ "Translation"
  let baseFk := toSnakeCase baseTableName ++ "_id"
  match mapFieldsToPrisma s.translatable config with
  | .error e => .error e
  | .ok own =>
  .ok <| some
    { name := tableName,
      map := some (toSnakeCase tableName),
      fields :=
        [{ name := "id", type := "String", attributes := ["@id", "@default(cuid())"] },
         { name := baseFk, type := "String" },
         { name := "lang", type := "String" }]
        ++ own
        ++ [{ name := toSnakeCase baseTableName, type := baseTableName,
              relation := some
                { fields := [baseFk], references := ["id"], onDelete := some .cascade } }],
      unique := some [[baseFk, "lang"]] }

/-! ## Model compiler (src/core/schema-builder.ts, concatenated in
src/src/mappers/relation-mapper.ts lines 183-396) -/

/-- The three field buckets of schema-builder.ts `separateFields`. -/
structure SeparatedFields where
  translatable : List FieldDefinition
  nonTranslatable : List FieldDefinition
  components : List FieldDefinition
deriving DecidableEq, Repr

/-- schema-builder.ts `separateFields` (lines 259-287): component fields
to their own bucket; relation fields are non-translatable; every other
field is translatable unless its flag is literally `false`. -/
def separateFields (fields : List FieldDefinition) : SeparatedFields :=
  fields.foldl
    (fun acc field =>
      if field.type = "component" then
        { acc with components := acc.components ++ [field] }
      else if field.type = "relation" then
        { acc with nonTranslatable := acc.nonTranslatable ++ [field] }
      else if field.translatable ≠ some false then
        { acc with translatable := acc.translatable ++ [field] }
      else
        { acc with nonTranslatable := acc.nonTranslatable ++ [field] })
    ⟨[], [], []⟩

/-- schema-builder.ts `buildComponentTableName` (lines 289-301); same
computation as the component-mapper's. -/
def SchemaBuilder.buildComponentTableName (parentModel fieldKey : String)
    (config : SchemaBuilderConfig) : String :=
  let fieldName := if endsWithChar fieldKey 's' then String.mk fieldKey.data.dropLast else fieldKey
  if config.convention = .snake_case then
    toSnakeCase parentModel ++ "_" ++ fieldName
  else
    parentModel ++ toPascalCase fieldName

/-- schema-builder.ts `buildModelName` (lines 303-306). -/
def buildModelName (slug : String) (config : SchemaBuilderConfig) : String :=
  let name := toPascalCase slug
  match config.namePrefix with
  | some p => p ++ name
  | none => name

/-- schema-builder.ts `buildIdField`. -/
def buildIdField : PrismaField :=
  { name := "id", type := "String", attributes := ["@id", "@default(cuid())"] }

/-- schema-builder.ts `buildTimestampFields`. -/
def buildTimestampFields : List PrismaField :=
  [{ name := "created_at", type := "DateTime", attributes := ["@default(now())"] },
   { name := "updated_at", type := "DateTime", attributes := ["@updatedAt"] }]

/-- schema-builder.ts `buildTranslationRelation`. -/
def buildTranslationRelation (modelName : String) : PrismaField :=
  { name := "translations", type := modelName ++ "Translation",
    list := true, optional := true }

/-- schema-builder.ts `buildIndexes` (lines 378-396): an index on
`settings.sortField` when set, plus the fixed `(status, published_at)`
composite when both keys are present. -/
def buildIndexes (fields : List FieldDefinition) (settings : Option ModelSettings) :
    List (List String) :=
  let indexes : List (List String) :=
    match settings with
    | some st =>
      match st.sortField with
      | some sf => [[sf]]
      | none => []
    | none => []
  let hasStatus := fields.any (fun f => f.key == "status")
  let hasPublishedAt := fields.any (fun f => f.key == "published_at")
  if hasStatus && hasPublishedAt then
    indexes ++ [["status", "published_at"]]
  else indexes

/-- schema-builder.ts `buildTranslationModel` (lines 340-376). -/
def buildTranslationModel (baseModelName : String)
    (translatableFields : List FieldDefinition) (config : SchemaBuilderConfig) :
    Except String PrismaModel :=
  let tableName := replaceFirst config.i18nTableNaming "$\x7bidentifier\x7d"
    (toSnakeCase baseModelName)
  match mapFieldsToPrisma translatableFields config with
  | .error e => .error e
  | .ok own =>
  .ok
    { name := baseModelName ++ "Translation",
      map := some tableName,
      fields :=
        [buildIdField,
         { name := toSnakeCase baseModelName ++ "_id", type := "String" },
         { name := "lang", type := "String" }]
        ++ own
        ++ [{ name := toSnakeCase baseModelName, type := baseModelName,
              relation := some
                { fields := [toSnakeCase baseModelName ++ "_id"], references := ["id"],
                  onDelete := some .cascade } }],
      unique := some [[toSnakeCase baseModelName ++ "_id", "lang"]] }

/-- schema-builder.ts `buildModel` (lines 199-257): the base table (and,
iff i18n is enabled and the model has translatable fields, the companion
translation table).  Base-table columns, in order: identity; the mapped
non-translatable fields (all fields when i18n is disabled); timestamps;
one reference column per component field carrying a component config; the
`translations` list column when a translation table is emitted. -/
def buildModel (model : ModelConfig) (config : SchemaBuilderConfig) :
    Except String (List PrismaModel) :=
  let modelName := buildModelName model.slug config
  let s := separateFields model.fields
  let fieldsToInclude :=
    if config.i18nEnabled then s.nonTranslatable
    else s.nonTranslatable ++ s.translatable
  match mapFieldsToPrisma fieldsToInclude config with
  | .error e => .error e
  | .ok mapped =>
  let componentCols : List PrismaField :=
    s.components.filterMap (fun field =>
      match field.config with
      | some (.component cc) =>
        some
          { name := field.key,
            type := SchemaBuilder.buildComponentTableName modelName field.key config,
            list := cc.repeatable, optional := true }
      | _ => none)
  let translationCols : List PrismaField :=
    if config.i18nEnabled ∧ s.translatable ≠ [] then [buildTranslationRelation modelName]
    else []
  let mainFields := [buildIdField] ++ mapped ++ buildTimestampFields
    ++ componentCols ++ translationCols
  let mainModel : PrismaModel :=
    { name := modelName, fields := mainFields,
      indexes := some (buildIndexes model.fields model.settings) }
  if config.i18nEnabled ∧ s.translatable ≠ [] then
    match buildTranslationModel modelName s.translatable config with
    | .error e => .error e
    | .ok translationModel => .ok [mainModel, translationModel]
  else
    .ok [mainModel]

/-! ## Orchestrator table accumulation (src/core/generator.ts,
`Generator.generate` lines 76-151)

The per-run mutable state of the loop over models: the accumulated table
list, the set of already-emitted junction-table names (`junctionTables`,
a `Set<string>` in the source, modelled as a duplicate-free list) and the
accumulated warnings. -/

/-- The orchestrator's per-run accumulator state. -/
structure GenState where
  tables : List PrismaModel
  junctionNames : List String
  warnings : List String
deriving DecidableEq, Repr

/-- Lookup in the component map (`components.get(slug)`), modelled over
an association list keyed by slug. -/
def lookupComponent (components : List (String × ComponentEntity)) (slug : String) :
    Option ComponentEntity :=
  (components.find? (fun p => p.1 == slug)).map (fun p => p.2)

/-- The component-emission half of the orchestrator's field loop body
(generator.ts lines 99-136): emit component (and, with i18n,
component-translation) tables for resolvable component fields and warn
on unresolvable ones. -/
def processFieldComponent (owner modelSlug : String)
    (components : List (String × ComponentEntity)) (config : SchemaBuilderConfig)
    (st : GenState) (field : FieldDefinition) : Except String GenState :=
  if field.type == "component" then
    match field.config with
    | some (.component componentConfig) =>
      match lookupComponent components componentConfig.slug with
      | none =>
        .ok { st with warnings := st.warnings ++
          ["Component \"" ++ componentConfig.slug ++ "\" not found for field \""
            ++ field.key ++ "\" in model \"" ++ modelSlug ++ "\""] }
      | some component =>
        match buildComponentTable owner field.key component
          componentConfig.repeatable config componentConfig.context with
        | .error e => .error e
        | .ok componentTable =>
          let st := { st with tables := st.tables ++ [componentTable] }
          if config.i18nEnabled then
            match buildComponentTranslationTable owner field.key component config with
            | .error e => .error e
            | .ok (some t) => .ok { st with tables := st.tables ++ [t] }
            | .ok none => .ok st
          else
            .ok st
    | _ => .ok st
  else
    .ok st

/-- The junction-emission half of the orchestrator's field loop body
(generator.ts lines 138-149), including the name-based deduplication. -/
def processFieldJunction (owner : String) (config : SchemaBuilderConfig)
    (st : GenState) (field : FieldDefinition) : Except String GenState :=
  if needsJunctionTable field then
    match buildJunctionTable owner field config with
    | .error e => .error e
    | .ok junctionTable =>
      if st.junctionNames.contains junctionTable.name then
        .ok st
      else
        .ok { st with tables := st.tables ++ [junctionTable],
                      junctionNames := st.junctionNames ++ [junctionTable.name] }
  else
    .ok st

def processField (owner modelSlug : String)
    (components : List (String × ComponentEntity)) (config : SchemaBuilderConfig)
    (st : GenState) (field : FieldDefinition) : Except String GenState :=
  match processFieldComponent owner modelSlug components config st field with
  | .error e => .error e
  | .ok st => processFieldJunction owner config st field

/-- A fold of a fallible step over a list, short-circuiting on the first
error (how the source's `for` loops interact with thrown exceptions). -/
def foldE {σ α : Type} (f : σ → α → Except String σ) : σ → List α → Except String σ
  | st, [] => .ok st
  | st, x :: xs =>
    match f st x with
    | .error e => .error e
    | .ok st2 => foldE f st2 xs

/-- The body of the orchestrator's outer model loop (generator.ts lines
79-151): warn about and drop `derived` fields, compile the model, then
run the field loop over the model's original field list with the base
table's name as owner (`generated[0]?.name!`; `buildModel` always puts
the base table first). -/
def processModel (components : List (String × ComponentEntity))
    (config : SchemaBuilderConfig) (st : GenState) (model : ModelConfig) :
    Except String GenState :=
  let derivedWarnings := (model.fields.filter (fun f => f.derived)).map
    (fun f => "Skipped derived field \"" ++ f.key ++ "\" in model \""
      ++ model.slug ++ "\"")
  let fieldsWithoutDerived := model.fields.filter (fun f => !f.derived)
  let st := { st with warnings := st.warnings ++ derivedWarnings }
  match buildModel { model with fields := fieldsWithoutDerived } config with
  | .error e => .error e
  | .ok generated =>
    let st := { st with tables := st.tables ++ generated }
    let owner :=
      match generated with
      | t :: _ => t.name
      | [] => ""
    foldE (processField owner model.slug components config) st model.fields

/-- The orchestrator's whole table-accumulation loop over all models,
starting from empty accumulators. -/
def runGenerate (models : List ModelConfig)
    (components : List (String × ComponentEntity)) (config : SchemaBuilderConfig) :
    Except String GenState :=
  foldE (processModel components config) ⟨[], [], []⟩ models

/-! ## Serializer (src/core/schema-writer.ts) -/

/-- schema-writer.ts `formatFieldType` (lines 164-178): a list column
renders with the `[]` suffix (and never `?`); only a non-list optional
column renders with `?`. -/
def formatFieldType (field : PrismaField) : String :=
  if field.list then field.type ++ "[]"
  else if field.optional then field.type ++ "?"
  else field.type

/-- A free-form generator config value. -/
inductive ConfigValue
  | str (s : String)
  | bool (b : Bool)
  | num (n : Int)
  | arr (vs : List ConfigValue)

/-- The datasource descriptor. -/
structure PrismaDatasource where
  provider : String
  url : String
  directUrl : Option String := none
deriving DecidableEq, Repr

/-- A generator descriptor. -/
structure PrismaGenerator where
  name : String
  provider : String
  output : Option String := none
  config : List (String × ConfigValue) := []

/-- The whole in-memory schema handed to the serializer. -/
structure PrismaSchema where
  datasource : PrismaDatasource
  generators : List PrismaGenerator
  models : List PrismaModel

/-- Join character lists with a separator (`Array.prototype.join`). -/
def intercalChars (sep : List Char) : List (List Char) → List Char
  | [] => []
  | [x] => x
  | x :: y :: xs => x ++ sep ++ intercalChars sep (y :: xs)

/-- `lines.join('\n')`. -/
def joinLines (ls : List String) : String :=
  String.mk (intercalChars ['\n'] (ls.map String.data))

/-- `parts.join('\n\n')`. -/
def joinBlocks (ls : List String) : String :=
  String.mk (intercalChars ['\n', '\n'] (ls.map String.data))

/-- `items.join(', ')`. -/
def joinComma (ls : List String) : String :=
  String.mk (intercalChars [',', ' '] (ls.map String.data))

/-- `items.join(' ')`. -/
def joinSpace (ls : List String) : String :=
  String.mk (intercalChars [' '] (ls.map String.data))

/-- The whitespace characters appearing in rendered schemas (JavaScript
`\s` restricted to ASCII). -/
def isWsChar (c : Char) : Bool := c = ' ' || c = '\t' || c = '\n' || c = '\r'

/-- JavaScript `trimEnd` on characters. -/
def trimEndChars (l : List Char) : List Char :=
  (l.reverse.dropWhile isWsChar).reverse

/-- JavaScript `trim`. -/
def trimChars (l : List Char) : List Char :=
  trimEndChars (l.dropWhile isWsChar)

/-- JavaScript `trimEnd`. -/
def trimEndStr (s : String) : String :=
  String.mk (trimEndChars s.data)

/-- JavaScript `padEnd` with spaces. -/
def padEndStr (s : String) (w : Nat) : String :=
  String.mk (s.data ++ List.replicate (w - s.data.length) ' ')

/-- JavaScript `startsWith`. -/
def startsWithStr (s pre : String) : Bool := pre.data.isPrefixOf s.data

/-- The validator list of zod-comments.ts `buildZodComment`: in fixed
order, type-class validators (email, url, uuid, cuid; truthy booleans),
then string length (`!== undefined`) and pattern (truthy, so the empty
pattern is skipped), then numeric validators, then array-length
validators (each rendered as `length(n)`), then the free-form custom
validator (truthy, so the empty string is skipped). -/
def zodParts (val : FieldValidation) : List String :=
      (match val.email with | some true => ["email()"] | _ => [])
      ++ (match val.url with | some true => ["url()"] | _ => [])
      ++ (match val.uuid with | some true => ["uuid()"] | _ => [])
      ++ (match val.cuid with | some true => ["cuid()"] | _ => [])
      ++ (match val.minLength with | some n => ["min(" ++ toString n ++ ")"] | none => [])
      ++ (match val.maxLength with | some n => ["max(" ++ toString n ++ ")"] | none => [])
      ++ (match val.pattern with
          | some p => if p = "" then [] else ["regex(/" ++ p ++ "/)"]
          | none => [])
      ++ (match val.min with | some n => ["min(" ++ toString n ++ ")"] | none => [])
      ++ (match val.max with | some n => ["max(" ++ toString n ++ ")"] | none => [])
      ++ (match val.int with | some true => ["int()"] | _ => [])
      ++ (match val.positive with | some true => ["positive()"] | _ => [])
      ++ (match val.negative with | some true => ["negative()"] | _ => [])
      ++ (match val.minItems with | some n => ["length(" ++ toString n ++ ")"] | none => [])
      ++ (match val.maxItems with | some n => ["length(" ++ toString n ++ ")"] | none => [])
      ++ (match val.custom with
          | some c => if c = "" then [] else [c]
          | none => [])

/-- zod-comments.ts `buildZodComment` (see `zodParts`): `undefined` when
no validator applies, otherwise the `/// @zod.`-prefixed dot-joined
list. -/
def buildZodComment (v : Option FieldValidation) : Option String :=
  match v with
  | none => none
  | some val =>
    let parts := zodParts val
    if parts = [] then none
    else some ("/// @zod." ++ String.mk (intercalChars ['.'] (parts.map String.data)))

/-- Render a referential action as Prisma's keyword. -/
def RefAction.render : RefAction → String
  | .cascade => "Cascade"
  | .setNull => "SetNull"
  | .restrict => "Restrict"
  | .noAction => "NoAction"

/-- schema-writer.ts `formatRelation` (lines 180-206). -/
def formatRelation (relation : RelationAttr) : String :=
  let parts : List String :=
    (match relation.name with | some n => ["\"" ++ n ++ "\""] | none => [])
    ++ ["fields: [" ++ joinComma relation.fields ++ "]"]
    ++ ["references: [" ++ joinComma relation.references ++ "]"]
    ++ (match relation.onDelete with
        | some a => ["onDelete: " ++ a.render]
        | none => [])
    ++ (match relation.onUpdate with
        | some a => ["onUpdate: " ++ a.render]
        | none => [])
  "@relation(" ++ joinComma parts ++ ")"

/-- schema-writer.ts `writeFieldAligned` (lines 143-162): two leading
spaces, the name and type padded to the table-wide widths, attributes
joined with single spaces (no space before them - the padding supplies
it), the relation and the column-map, with trailing whitespace removed. -/
def writeFieldAligned (field : PrismaField) (nameWidth typeWidth : Nat) : String :=
  let name := padEndStr field.name nameWidth
  let type := padEndStr (formatFieldType field) typeWidth
  let result := "  " ++ name ++ "  " ++ type
  let result := if field.attributes ≠ [] then result ++ joinSpace field.attributes else result
  let result :=
    match field.relation with
    | some r => result ++ " " ++ formatRelation r
    | none => result
  let result :=
    match field.map with
    | some m => if m = "" then result else result ++ " @map(\"" ++ m ++ "\")"
    | none => result
  trimEndStr result

/-- writeModel's `maxNameWidth` (the longest column name plus the fixed
padding of two). -/
def modelNameWidth (model : PrismaModel) : Nat :=
  (model.fields.foldl (fun acc f => max acc f.name.data.length) 0) + 2

/-- writeModel's `maxTypeWidth`. -/
def modelTypeWidth (model : PrismaModel) : Nat :=
  (model.fields.foldl (fun acc f => max acc (formatFieldType f).data.length) 0) + 2

/-- The rendered lines one column contributes to its model block: the
zod annotation comment when present, then the aligned field line. -/
def fieldBlockLines (f : PrismaField) (nameWidth typeWidth : Nat) : List String :=
  (match buildZodComment f.validation with
   | some z => ["  " ++ z]
   | none => [])
  ++ [writeFieldAligned f nameWidth typeWidth]

/-- The `@@index`/`@@unique`/`@@map` block of writeModel (lines 96-119),
with its single blank separator line. -/
def modelDirectiveLines (model : PrismaModel) : List String :=
  let hasIdx :=
    match model.indexes with
    | some l => decide (l.length > 0)
    | none => false
  let hasUniq :=
    match model.unique with
    | some l => decide (l.length > 0)
    | none => false
  let idxLines :=
    if hasIdx then
      [""] ++ (model.indexes.getD []).map (fun i => "  @@index([" ++ joinComma i ++ "])")
    else []
  let uniqLines :=
    if hasUniq then
      (if hasIdx then [] else [""])
      ++ (model.unique.getD []).map (fun u => "  @@unique([" ++ joinComma u ++ "])")
    else []
  let mapLines :=
    match model.map with
    | some mp =>
      if mp = "" then []
      else (if !hasIdx && !hasUniq then [""] else []) ++ ["  @@map(\"" ++ mp ++ "\")"]
    | none => []
  idxLines ++ uniqLines ++ mapLines

/-- schema-writer.ts `writeModel` (lines 69-123), interior lines: one
aligned line per column (preceded by its zod annotation comment when
present), then - after a single blank separator - `@@index`, `@@unique`
and `@@map` directives, each block present only when non-empty. -/
def writeModelLines (model : PrismaModel) : List String :=
  (model.fields.flatMap
    (fun f => fieldBlockLines f (modelNameWidth model) (modelTypeWidth model)))
  ++ modelDirectiveLines model

/-- schema-writer.ts `writeModel`: the header, the interior lines and
the closing brace, joined by newlines. -/
def writeModel (model : PrismaModel) : String :=
  joinLines (["model " ++ model.name ++ " \x7b"] ++ writeModelLines model ++ ["\x7d"])

/-- schema-writer.ts `writeDatasource` (lines 31-43): the url (and the
optional directUrl) render unquoted when they are `env(...)` references. -/
def writeDatasource (d : PrismaDatasource) : String :=
  joinLines (["datasource db \x7b",
    "provider = \"" ++ d.provider ++ "\"",
    "url = " ++ (if startsWithStr d.url "env(" then d.url else "\"" ++ d.url ++ "\"")]
    ++ (match d.directUrl with
        | some du =>
          ["directUrl = " ++ (if startsWithStr du "env(" then du else "\"" ++ du ++ "\"")]
        | none => [])
    ++ ["\x7d"])

mutual

/-- Render a config value inside a JavaScript template literal
(`String(value)` semantics, restricted to this model's value shapes). -/
def ConfigValue.rawRender : ConfigValue → String
  | .str s => s
  | .bool b => toString b
  | .num n => toString n
  | .arr vs => String.mk (intercalChars [','] (ConfigValue.rawRenderList vs))

/-- `rawRender` over a list. -/
def ConfigValue.rawRenderList : List ConfigValue → List (List Char)
  | [] => []
  | v :: vs => (ConfigValue.rawRender v).data :: ConfigValue.rawRenderList vs

end

mutual

/-- schema-writer.ts `formatConfigValue` (lines 208-219). -/
def formatConfigValue : ConfigValue → String
  | .str s => "\"" ++ s ++ "\""
  | .bool b => toString b
  | .num n => toString n
  | .arr vs => "[" ++ joinComma (formatConfigValueList vs) ++ "]"

/-- `formatConfigValue` over a list. -/
def formatConfigValueList : List ConfigValue → List String
  | [] => []
  | v :: vs => formatConfigValue v :: formatConfigValueList vs

end

/-- schema-writer.ts `writeGenerator` (lines 45-66): `previewFeatures`
arrays render as a bracketed quoted list; other entries render per
`formatConfigValue`. -/
def writeGenerator (g : PrismaGenerator) : String :=
  joinLines (["generator " ++ g.name ++ " \x7b",
    "provider = \"" ++ g.provider ++ "\""]
    ++ (match g.output with
        | some o => if o = "" then [] else ["output = \"" ++ o ++ "\""]
        | none => [])
    ++ g.config.map (fun kv =>
        if kv.1 = "previewFeatures" then
          match kv.2 with
          | .arr vs =>
            kv.1 ++ " = [" ++ joinComma (vs.map (fun v => "\"" ++ v.rawRender ++ "\"")) ++ "]"
          | v => kv.1 ++ " = " ++ formatConfigValue v
        else kv.1 ++ " = " ++ formatConfigValue kv.2)
    ++ ["\x7d"])

/-- schema-writer.ts `writeSchemaSync` (lines 15-29): datasource block,
generator blocks and model blocks joined by blank lines, plus a final
newline.  (`writeSchema` is the same computation behind a promise.) -/
def writeSchemaSync (schema : PrismaSchema) : String :=
  joinBlocks ([writeDatasource schema.datasource]
    ++ schema.generators.map writeGenerator
    ++ schema.models.map writeModel) ++ "\n"

/-! ## External-model parser (src/utils/prisma-parser.ts)

`extractModelsFromString` is regex-driven; the embedding below is the
deterministic scanner the regexes denote on this grammar: the model
regex `model\s+(\w+)\s*\x7b([^\x7d]+)\x7d` has no backtracking freedom
(each `\s+`/`\w+`/`[^\x7d]+` is a maximal munch whose follow-set is
disjoint), and the global `exec` loop restarts after each match and
advances one position after each failure.  The body regexes anchor at
the line start via the `startsWith` guards of the source. -/

/-- JavaScript `\w`. -/
def isWordChar (c : Char) : Bool := c.isAlphanum || c = '_'

/-- Attempt the model regex at the start of the input; on success return
the captured name and body and the input past the closing brace. -/
def matchModelAt (s : List Char) : Option (List Char × List Char × List Char) :=
  if ("model".data).isPrefixOf s then
    let r0 := s.drop 5
    let ws1 := r0.takeWhile isWsChar
    if ws1 = [] then none
    else
      let r1 := r0.drop ws1.length
      let name := r1.takeWhile isWordChar
      if name = [] then none
      else
        let r2 := (r1.drop name.length).dropWhile isWsChar
        match r2 with
        | '\x7b' :: r3 =>
          let body := r3.takeWhile (fun c => c ≠ '\x7d')
          if body = [] then none
          else
            match r3.drop body.length with
            | '\x7d' :: rest => some (name, body, rest)
            | _ => none
        | _ => none
  else none

/-- The `modelRegex.exec` loop: repeatedly find the leftmost match,
resuming after it (fuel bounds the recursion; one character is consumed
per step, so the input length suffices). -/
def scanModelsFuel : Nat → List Char → List (List Char × List Char)
  | 0, _ => []
  | _ + 1, [] => []
  | fuel + 1, c :: rest =>
    match matchModelAt (c :: rest) with
    | some (name, body, next) => (name, body) :: scanModelsFuel fuel next
    | none => scanModelsFuel fuel rest

/-- The `/@@index\(\[([^\]]+)\]\)/`-style extraction, anchored at the
line start as the source's `startsWith` guard arranges. -/
def parseBracketList (line : List Char) (pre : List Char) : Option (List String) :=
  if pre.isPrefixOf line then
    let r := line.drop pre.length
    let content := r.takeWhile (fun c => c ≠ ']')
    if content = [] then none
    else
      match r.drop content.length with
      | ']' :: ')' :: _ =>
        some ((splitChars (fun c => c == ',') content).map (fun w => String.mk (trimChars w)))
      | _ => none
  else none

/-- The `/@@map\("([^"]+)"\)/`-style extraction. -/
def parseQuoted (line : List Char) (pre : List Char) : Option String :=
  if pre.isPrefixOf line then
    let r := line.drop pre.length
    let content := r.takeWhile (fun c => c ≠ '"')
    if content = [] then none
    else
      match r.drop content.length with
      | '"' :: ')' :: _ => some (String.mk content)
      | _ => none
  else none

/-- prisma-parser.ts `extractAttributes` (lines 154-201): a character
scanner collecting `@...` runs, tracking parenthesis depth (a JavaScript
number, hence `Int`). -/
def extractAttributesGo : List Char → Bool → List Char → Int → List String → List String
  | [], inAttr, cur, _, acc =>
    if cur ≠ [] ∧ inAttr then acc ++ [String.mk (trimChars cur)] else acc
  | c :: rest, inAttr, cur, depth, acc =>
    if c = '@' ∧ depth = 0 ∧ ¬ inAttr then
      let acc2 := if cur ≠ [] then acc ++ [String.mk (trimChars cur)] else acc
      extractAttributesGo rest true ['@'] depth acc2
    else if inAttr then
      if c = '(' then extractAttributesGo rest inAttr (cur ++ [c]) (depth + 1) acc
      else if c = ')' then
        let depth2 := depth - 1
        if depth2 = 0 then extractAttributesGo rest false [] depth2 (acc ++ [String.mk (cur ++ [c])])
        else extractAttributesGo rest inAttr (cur ++ [c]) depth2 acc
      else if depth = 0 ∧ isWsChar c then
        if trimChars cur ≠ [] then
          extractAttributesGo rest false [] depth (acc ++ [String.mk (trimChars cur)])
        else extractAttributesGo rest false [] depth acc
      else extractAttributesGo rest inAttr (cur ++ [c]) depth acc
    else extractAttributesGo rest inAttr cur depth acc

/-- prisma-parser.ts `extractAttributes`. -/
def extractAttributes (line : List Char) : List String :=
  extractAttributesGo line false [] 0 []

/-- Digits to a natural number. -/
def digitsToNat (l : List Char) : Nat :=
  l.foldl (fun acc c => acc * 10 + (c.toNat - '0'.toNat)) 0

/-- `^-?\d+$`. -/
def isIntLiteral (l : List Char) : Bool :=
  match l with
  | '-' :: rest => rest ≠ [] && rest.all Char.isDigit
  | _ => l ≠ [] && l.all Char.isDigit

/-- `^-?\d+\.\d+$`. -/
def isFloatLiteral (l : List Char) : Bool :=
  let core := match l with
    | '-' :: rest => rest
    | _ => l
  match splitChars (fun c => c == '.') core with
  | [a, b] => a ≠ [] && a.all Char.isDigit && b ≠ [] && b.all Char.isDigit
  | _ => false

/-- Parse an integer literal. -/
def parseIntChars (l : List Char) : Int :=
  match l with
  | '-' :: rest => - (digitsToNat rest : Int)
  | _ => (digitsToNat l : Int)

/-- The input past the first occurrence of `pat` (how an unanchored
regex locates its key). -/
def afterFirst (pat : List Char) : List Char → Option (List Char)
  | [] => none
  | c :: rest =>
    if pat.isPrefixOf (c :: rest) then some ((c :: rest).drop pat.length)
    else afterFirst pat rest

/-- prisma-parser.ts `extractDefaultValue` (lines 203-227): the regex
`@default\((.+)\)$` captures everything between the first `@default(`
and the final `)` (which must close the string); a first occurrence
rejected here leaves every later one rejected too, so taking the first
is exact.  A float-shaped literal is kept as raw text (floating point is
outside this model; no claim touches parsed defaults). -/
def extractDefaultValue (attr : String) : Option DefaultVal :=
  match afterFirst "@default(".data attr.data with
  | none => none
  | some r =>
    if r.getLast? = some ')' ∧ r.length ≥ 2 then
      let value := trimChars r.dropLast
      if value = "true".data then some (.bool true)
      else if value = "false".data then some (.bool false)
      else if isIntLiteral value then some (.int (parseIntChars value))
      else if isFloatLiteral value then some (.str (String.mk value))
      else if value.head? = some '"' ∧ value.getLast? = some '"' ∧ value.length ≥ 2 then
        some (.str (String.mk ((value.drop 1).dropLast)))
      else if value.head? = some '\'' ∧ value.getLast? = some '\'' ∧ value.length ≥ 2 then
        some (.str (String.mk ((value.drop 1).dropLast)))
      else some (.str (String.mk value))
    else none

/-- `/key:\s*\[([^\]]+)\]/`-style extraction inside a relation attribute. -/
def parseKeyedBracketList (s : List Char) (keyPat : List Char) : Option (List String) :=
  match afterFirst keyPat s with
  | none => none
  | some r =>
    let r2 := r.dropWhile isWsChar
    match r2 with
    | '[' :: r3 =>
      let content := r3.takeWhile (fun c => c ≠ ']')
      if content = [] then none
      else if (r3.drop content.length).head? = some ']' then
        some ((splitChars (fun c => c == ',') content).map (fun w => String.mk (trimChars w)))
      else none
    | _ => none

/-- `/key:\s*(\w+)/`-style extraction. -/
def parseKeyedWord (s : List Char) (keyPat : List Char) : Option String :=
  match afterFirst keyPat s with
  | none => none
  | some r =>
    let w := (r.dropWhile isWsChar).takeWhile isWordChar
    if w = [] then none else some (String.mk w)

/-- prisma-parser.ts `parseRelation` (lines 229-262). -/
def parseRelationAttr (attr : String) : RelationAttr :=
  { name := none,
    fields := (parseKeyedBracketList attr.data "fields:".data).getD [],
    references := (parseKeyedBracketList attr.data "references:".data).getD [],
    onDelete :=
      match parseKeyedWord attr.data "onDelete:".data with
      | some w =>
        if w = "Cascade" then some .cascade
        else if w = "SetNull" then some .setNull
        else if w = "Restrict" then some .restrict
        else if w = "NoAction" then some .noAction
        else none
      | none => none,
    onUpdate :=
      match parseKeyedWord attr.data "onUpdate:".data with
      | some w =>
        if w = "Cascade" then some .cascade
        else if w = "SetNull" then some .setNull
        else if w = "Restrict" then some .restrict
        else if w = "NoAction" then some .noAction
        else none
      | none => none }

/-- The non-empty whitespace-separated tokens of a line (`split(/\s+/)`
on a trimmed line). -/
def wsTokens (l : List Char) : List (List Char) :=
  (splitChars isWsChar l).filter (fun w => w ≠ [])

/-- The body of parseFieldLine's `for (const attr of attributes)` loop:
defaults, column-map and relation extraction from one attribute. -/
def parseFieldAttrStep (fld : PrismaField) (attr : String) : PrismaField :=
  let fld :=
    if startsWithStr attr "@default" then
      match extractDefaultValue attr with
      | some d => { fld with default := some d }
      | none => fld
    else fld
  let fld :=
    if startsWithStr attr "@map" then
      match parseQuoted attr.data "@map(\"".data with
      | some m => { fld with map := some m }
      | none => fld
    else fld
  if startsWithStr attr "@relation" then
    { fld with relation := some (parseRelationAttr attr) }
  else fld

/-- The type-token analysis of parseFieldLine (lines 103-111): strip a
trailing `?`, then a trailing `[]`; return the base type characters, the
optional flag and the list flag. -/
def parseTypeToken (typeStr0 : List Char) : List Char × Bool × Bool :=
  let optional := decide (typeStr0.getLast? = some '?')
  let typeStr1 := if optional then typeStr0.dropLast else typeStr0
  let list := ("[]".data).isSuffixOf typeStr1
  let typeStr2 := if list then (typeStr1.dropLast).dropLast else typeStr1
  (typeStr2, optional, list)

/-- The body of parseFieldLine once a name and a type token are in hand
(lines 103-151). -/
def parseFieldCore (line name typeStr0 : List Char) : Option PrismaField :=
  let p := parseTypeToken typeStr0
  let base : PrismaField := { name := String.mk name, type := String.mk p.1 }
  let base := if p.2.2 then { base with list := true } else base
  let base := if p.2.1 && !p.2.2 then { base with optional := true } else base
  let attributes := extractAttributes line
  if attributes ≠ [] then
    some (attributes.foldl parseFieldAttrStep { base with attributes := attributes })
  else some base

/-- prisma-parser.ts `parseFieldLine` (lines 93-152), on an already
trimmed line: the first token is the name, the second the type (with
`?`/`[]` suffix handling: the optional flag is only kept for non-list
columns), and attributes contribute defaults, column-map and relation. -/
def parseFieldLine (line : List Char) : Option PrismaField :=
  match wsTokens line with
  | name :: typeStr0 :: _ => parseFieldCore line name typeStr0
  | _ => none

/-- One trimmed, non-empty line of a model body (the branch structure of
extractModelsFromString lines 50-85). -/
def processModelLine (m : PrismaModel) (line : List Char) : PrismaModel :=
  if ("//".data).isPrefixOf line then m
  else if ("@@index".data).isPrefixOf line then
    match parseBracketList line "@@index([".data with
    | some cols => { m with indexes := some ((m.indexes.getD []) ++ [cols]) }
    | none => m
  else if ("@@unique".data).isPrefixOf line then
    match parseBracketList line "@@unique([".data with
    | some cols => { m with unique := some ((m.unique.getD []) ++ [cols]) }
    | none => m
  else if ("@@map".data).isPrefixOf line then
    match parseQuoted line "@@map(\"".data with
    | some mp => { m with map := some mp }
    | none => m
  else
    match parseFieldLine line with
    | some f => { m with fields := m.fields ++ [f] }
    | none => m

/-- Parse one captured model body: split into lines, trim, drop empty
lines, and process each line. -/
def parseModelBody (name body : List Char) : PrismaModel :=
  let lines := ((splitChars (fun c => c == '\n') body).map trimChars).filter (fun l => l ≠ [])
  lines.foldl processModelLine { name := String.mk name, fields := [] }

/-- prisma-parser.ts `extractModelsFromString` (lines 32-91). -/
def extractModelsFromString (schema : String) : List PrismaModel :=
  (scanModelsFuel schema.data.length schema.data).map (fun nb => parseModelBody nb.1 nb.2)

/-! ## Round-trip well-formedness (claim C7)

The round-trip statement holds for schemas whose rendered model blocks
the model regex can re-delimit: word-token model/column names and base
types, no newline or closing-brace character inside any rendered
interior line, at least one model with at least one column each, and a
datasource/generator region in which the model regex never fires. -/

/-- A character that cannot break a rendered line or a model body:
anything but a newline and a closing brace. -/
def charOK (c : Char) : Bool := c != '\n' && c != '\x7d'

/-- Every character of the string is body-safe. -/
def strOK (s : String) : Bool := s.data.all charOK

/-- A non-empty `\w+` token. -/
def safeWord (s : String) : Bool := !s.data.isEmpty && s.data.all isWordChar

/-- Well-formedness of one output table for the round-trip: a word-token
name, at least one column, word-token column names and base types, and
body-safe rendered interior lines. -/
def modelWF (m : PrismaModel) : Bool :=
  safeWord m.name && !m.fields.isEmpty
    && m.fields.all (fun f => safeWord f.name && safeWord f.type)
    && (writeModelLines m).all strOK

/-- Well-formedness of a whole schema for the round-trip. -/
def schemaWF (s : PrismaSchema) : Bool :=
  !s.models.isEmpty && s.models.all modelWF

/-- The character region a rendered model block places between its
braces: a newline, the interior lines joined by newlines, and a final
newline (used to state what the model regex captures). -/
def bodyChars (m : PrismaModel) : List Char :=
  '\n' :: (intercalChars ['\n'] ((writeModelLines m).map String.data) ++ ['\n'])

/-- The rendered model region of a schema: the model blocks joined by
blank lines. -/
def modelsRegion (ms : List PrismaModel) : List Char :=
  intercalChars ['\n', '\n'] (ms.map (fun m => (writeModel m).data))

/-- The rendered datasource/generator region preceding the first model
block. -/
def renderedPrefix (s : PrismaSchema) : List Char :=
  (joinBlocks ([writeDatasource s.datasource] ++ s.generators.map writeGenerator)).data

/-- The model regex finds no match starting inside the rendered
datasource/generator region (or in the blank separator after it): the
scan reaches the first model block untouched. -/
def prefixCleanB (s : PrismaSchema) : Bool :=
  (List.range ((renderedPrefix s).length + 2)).all
    (fun k => (matchModelAt ((writeSchemaSync s).data.drop k)).isNone)

/-! ## Spec-side bucket predicates and concrete fixtures -/

/-- A field is translatable for the model compiler's `separateFields`. -/
def modelTranslatableP (f : FieldDefinition) : Bool :=
  decide (f.type ≠ "component" ∧ f.type ≠ "relation" ∧ f.translatable ≠ some false)

/-- A field lands in `separateFields`' non-translatable bucket. -/
def modelNonTranslatableP (f : FieldDefinition) : Bool :=
  decide (f.type ≠ "component" ∧ (f.type = "relation" ∨ f.translatable = some false))

/-- A field lands in `separateFields`' component bucket. -/
def modelComponentP (f : FieldDefinition) : Bool :=
  decide (f.type = "component")

/-- A field is translatable for the component mapper's partition. -/
def compTranslatableP (f : FieldDefinition) : Bool :=
  decide (¬ (f.type = "component" ∨ f.type = "relation") ∧ f.translatable ≠ some false)

/-- A field lands in the component mapper's non-translatable bucket. -/
def compNonTranslatableP (f : FieldDefinition) : Bool :=
  decide ((f.type = "component" ∨ f.type = "relation") ∨ f.translatable = some false)

/-! ## Shared concrete fixtures -/

/-- A PascalCase configuration with i18n disabled. -/
def pascalConfig : SchemaBuilderConfig :=
  { convention := .pascalCase, i18nEnabled := false,
    i18nTableNaming := "$\x7bidentifier\x7d_translation" }

/-- A model definition with a plain text field and a one-to-many
relation field (claim C7's fixture): the relation maps to a column with
both the list and the optional flag set. -/
def c7ModelConfig : ModelConfig :=
  { slug := "post", name := "Post",
    fields :=
      [{ key := "title", label := "Title", type := "text", required := true,
         translatable := some false },
       { key := "comments", label := "Comments", type := "relation",
         config := some (.relation
           { relationType := .oneToMany, targetModel := "comment",
             displayField := "title" }) }] }

/-- A whole in-memory schema built by the generation pipeline from
`c7ModelConfig` (claim C7's fixture). -/
def c7Schema : PrismaSchema :=
  { datasource := { provider := "sqlite", url := "env(\"DATABASE_URL\")" },
    generators := [{ name := "client", provider := "prisma-client-js" }],
    models :=
      match runGenerate [c7ModelConfig] [] pascalConfig with
      | .ok st => st.tables
      | .error _ => [] }

/-- A PascalCase configuration with i18n enabled. -/
def pascalI18nConfig : SchemaBuilderConfig :=
  { pascalConfig with i18nEnabled := true }

/-- A placeholder table for total projections out of `Except`. -/
def defaultTable : PrismaModel := { name := "", fields := [] }

/-- Fixture component: one translatable text field and one
non-translatable media field. -/
def seoComponent : ComponentEntity :=
  { slug := "seo", name := "SEO",
    fields :=
      [{ key := "meta_title", label := "Meta title", type := "text" },
       { key := "og_image", label := "OG image", type := "media",
         config := some (.media false), translatable := some false }] }

/-! ## Claim C5: translator error behaviour -/

/-- The ten field kinds recognized by the translator's dispatch. -/
def recognizedFieldTypes : List String :=
  ["text", "rich", "number", "boolean", "date", "select", "json", "media",
   "relation", "component"]

/-- A `relation`-typed field carrying no config at all (which the
definition schema accepts, since `config` is optional). -/
def relationFieldWithoutConfig : FieldDefinition :=
  { key := "author", label := "Author", type := "relation" }

/-- The parent foreign-key column of a component table, with the given
uniqueness attributes. -/
def parentFkColumn (p : String) (attrs : List String) : PrismaField :=
  { name := toSnakeCase p ++ "_id", type := "String", attributes := attrs }

/-- A component that declares its own field keyed `order`. -/
def componentWithOrderKey : ComponentEntity :=
  { slug := "stats", name := "Stats",
    fields := [{ key := "order", label := "Order", type := "text",
                 translatable := some false }] }

/-- Fixture model for the C1 witness: one non-translatable and one
translatable text field. -/
def witnessModelC1 : ModelConfig :=
  { slug := "post", name := "Blog Post",
    fields :=
      [{ key := "slug", label := "Slug", type := "text", required := true,
         translatable := some false },
       { key := "title", label := "Title", type := "text", required := true }] }

/-- Fixture model for C2: the same self-referential many-to-many
relation declared twice. -/
def doubleSelfRefModel : ModelConfig :=
  { slug := "post", name := "Post",
    fields :=
      [{ key := "related", label := "Related", type := "relation",
         translatable := some false,
         config := some (.relation
           { relationType := .manyToMany, targetModel := "post",
             displayField := "title" }) },
       { key := "linked", label := "Linked", type := "relation",
         translatable := some false,
         config := some (.relation
           { relationType := .manyToMany, targetModel := "post",
             displayField := "title", cascade := .cascade }) }] }

/-! ## Definition validator (src/field-config-schema.ts over zod v3)

The schemas are zod objects; the model below follows the zod v3 parse
semantics the source relies on:

* a check failure on a present value (regex, emptiness, non-empty-array,
  a failing `.refine`) records an issue and marks the result `dirty`;
  parsing continues;
* a structural failure (missing required property, invalid enum value,
  invalid union discriminator) records an issue and marks the result
  `aborted`; an aborted child aborts the enclosing object or array,
  though all issues collected so far are kept;
* a `.refine` runs unless the wrapped parse aborted (zod's `ZodEffects`
  skips the refinement and returns INVALID exactly when the inner status
  is aborted; it does run on a dirty inner parse).

A definition is accepted exactly when the status is `valid` (equivalently
no issue was recorded).  Raw inputs are modelled structurally: a missing
property is `none`; mistyped-but-present primitive values are outside
this model.  The all-optional `settings`/`validation`/`context`
sub-objects cannot fail and are omitted from the raw shapes. -/

/-- One step of a zod issue path (an object key or an array index). -/
inductive PathSeg
  | key (s : String)
  | idx (n : Nat)
deriving DecidableEq, Repr

/-- Render one path step as zod's `path.join(".")` does. -/
def PathSeg.render : PathSeg → String
  | .key s => s
  | .idx n => toString n

/-- A zod issue: a path and a message. -/
structure Issue where
  path : List PathSeg
  message : String
deriving DecidableEq, Repr

/-- The zod parse status. -/
inductive ZStatus
  | valid
  | dirty
  | aborted
deriving DecidableEq, Repr

/-- Combine the statuses of two sub-parses (worst wins). -/
def ZStatus.merge : ZStatus → ZStatus → ZStatus
  | .aborted, _ => .aborted
  | _, .aborted => .aborted
  | .dirty, _ => .dirty
  | _, .dirty => .dirty
  | .valid, .valid => .valid

/-- A zod parse result: status plus every collected issue. -/
abbrev ZResult := ZStatus × List Issue

/-- `field-config-schema.ts` `RESERVED_FIELD_KEYS.SYSTEM`. -/
def reservedSystemKeys : List String := ["id", "created_at", "updated_at"]

/-- `RESERVED_FIELD_KEYS.COMPONENT_AB_TESTING`. -/
def reservedABKeys : List String := ["variant_id", "enabled"]

/-- `VALIDATION_PATTERNS.SLUG`, the regex `^[a-z][a-z0-9_-]*$`. -/
def slugMatches (s : String) : Bool :=
  match s.data with
  | [] => false
  | c :: rest =>
    ('a' ≤ c && c ≤ 'z')
    && rest.all (fun d => ('a' ≤ d && d ≤ 'z') || d.isDigit || d = '_' || d = '-')

/-- Raw (unvalidated) per-type field config, keyed by the `type`
discriminator. -/
structure RawFieldConfig where
  ctype : Option String := none
  relationType : Option String := none
  targetModel : Option String := none
  displayField : Option String := none
  cascade : Option String := none
  options : Option (List String) := none
  slug : Option String := none
  repeatable : Option Bool := none
  multiple : Option Bool := none
  format : Option String := none
deriving DecidableEq, Repr

/-- Raw (unvalidated) field definition. -/
structure RawField where
  key : Option String := none
  label : Option String := none
  ftype : Option String := none
  config : Option RawFieldConfig := none
  required : Option Bool := none
  translatable : Option Bool := none
deriving DecidableEq, Repr

/-- Raw (unvalidated) model definition. -/
structure RawModel where
  slug : Option String := none
  name : Option String := none
  fields : Option (List RawField) := none
deriving DecidableEq, Repr

/-- Raw (unvalidated) component definition. -/
structure RawComponent where
  slug : Option String := none
  name : Option String := none
  fields : Option (List RawField) := none
deriving DecidableEq, Repr

/-- `z.string().min(1)` on a required property. -/
def parseRequiredMin1 (path : List PathSeg) (v : Option String) : ZResult :=
  match v with
  | none => (.aborted, [⟨path, "Required"⟩])
  | some s =>
    if s.length < 1 then (.dirty, [⟨path, "String must contain at least 1 character(s)"⟩])
    else (.valid, [])

/-- Bare `z.string()` on a required property (field-config-schema.ts
relation `targetModel`/`displayField`): any present string is valid. -/
def parseRequiredString (path : List PathSeg) (v : Option String) : ZResult :=
  match v with
  | none => (.aborted, [⟨path, "Required"⟩])
  | some _ => (.valid, [])

/-- `z.string().min(1).regex(SLUG)` on a required property. -/
def parseSlugString (path : List PathSeg) (v : Option String) : ZResult :=
  match v with
  | none => (.aborted, [⟨path, "Required"⟩])
  | some s =>
    let minIssues : List Issue :=
      if s.length < 1 then [⟨path, "String must contain at least 1 character(s)"⟩] else []
    let regexIssues : List Issue :=
      if slugMatches s then [] else [⟨path, "Invalid"⟩]
    let issues := minIssues ++ regexIssues
    (if issues = [] then .valid else .dirty, issues)

/-- The field `key` schema:
`z.string().min(1).regex(SLUG).refine(not reserved system key)`.  The
refinement runs whenever the string was present (string checks never
abort), appending the reserved-key issue. -/
def parseFieldKey (path : List PathSeg) (v : Option String) : ZResult :=
  match v with
  | none => (.aborted, [⟨path, "Required"⟩])
  | some s =>
    let base := parseSlugString path (some s)
    let reservedIssues : List Issue :=
      if s ∈ reservedSystemKeys then [⟨path, "Field key is reserved by the system"⟩] else []
    (base.1.merge (if reservedIssues = [] then .valid else .dirty),
     base.2 ++ reservedIssues)

/-- `FieldTypeEnum`: a required enum of the ten recognized kinds. -/
def parseFieldTypeEnum (path : List PathSeg) (v : Option String) : ZResult :=
  match v with
  | none => (.aborted, [⟨path, "Required"⟩])
  | some s =>
    if s ∈ recognizedFieldTypes then (.valid, [])
    else (.aborted, [⟨path, "Invalid enum value"⟩])

/-- An optional enum property (e.g. a config `format`). -/
def parseOptionalEnum (path : List PathSeg) (allowed : List String)
    (v : Option String) : ZResult :=
  match v with
  | none => (.valid, [])
  | some s =>
    if s ∈ allowed then (.valid, [])
    else (.aborted, [⟨path, "Invalid enum value"⟩])

/-- A required enum property (e.g. `relationType`). -/
def parseRequiredEnum (path : List PathSeg) (allowed : List String)
    (v : Option String) : ZResult :=
  match v with
  | none => (.aborted, [⟨path, "Required"⟩])
  | some s =>
    if s ∈ allowed then (.valid, [])
    else (.aborted, [⟨path, "Invalid enum value"⟩])

/-- Merge a list of member results as a zod object does: all issues are
collected, the worst status wins. -/
def mergeResults (rs : List ZResult) : ZResult :=
  rs.foldl (fun acc r => (acc.1.merge r.1, acc.2 ++ r.2)) (.valid, [])

/-- `FieldConfigSchema`, the discriminated union on the config `type`:
an absent or unrecognized discriminator aborts; otherwise the variant's
own properties are validated. -/
def parseFieldConfig (path : List PathSeg) (c : RawFieldConfig) : ZResult :=
  match c.ctype with
  | none => (.aborted, [⟨path ++ [.key "type"], "Invalid discriminator value"⟩])
  | some t =>
    if t = "text" ∨ t = "rich" ∨ t = "json" ∨ t = "boolean" ∨ t = "media" then
      (.valid, [])
    else if t = "number" then
      parseOptionalEnum (path ++ [.key "format"])
        ["integer", "decimal", "currency", "percentage"] c.format
    else if t = "date" then
      parseOptionalEnum (path ++ [.key "format"]) ["date", "datetime", "time"] c.format
    else if t = "select" then
      match c.options with
      | none => (.aborted, [⟨path ++ [.key "options"], "Required"⟩])
      | some opts =>
        if opts.length < 1 then
          (.dirty, [⟨path ++ [.key "options"], "Array must contain at least 1 element(s)"⟩])
        else (.valid, [])
    else if t = "relation" then
      mergeResults
        [parseRequiredEnum (path ++ [.key "relationType"])
          ["oneToOne", "oneToMany", "manyToOne", "manyToMany"] c.relationType,
         parseRequiredString (path ++ [.key "targetModel"]) c.targetModel,
         parseRequiredString (path ++ [.key "displayField"]) c.displayField,
         parseOptionalEnum (path ++ [.key "cascade"])
          ["restrict", "cascade", "setNull"] c.cascade]
    else if t = "component" then
      parseSlugString (path ++ [.key "slug"]) c.slug
    else
      (.aborted, [⟨path ++ [.key "type"], "Invalid discriminator value"⟩])

/-- `FieldDefinitionSchema`: key, label, type, optional config (the
`required`/`translatable` booleans and the all-optional `validation`
object cannot fail in this structural model). -/
def parseRawField (path : List PathSeg) (f : RawField) : ZResult :=
  mergeResults
    [parseFieldKey (path ++ [.key "key"]) f.key,
     parseRequiredMin1 (path ++ [.key "label"]) f.label,
     parseFieldTypeEnum (path ++ [.key "type"]) f.ftype,
     (match f.config with
      | none => ((.valid : ZStatus), ([] : List Issue))
      | some c => parseFieldConfig (path ++ [.key "config"]) c)]

/-- Elements of `z.array(FieldDefinitionSchema)`, with positional paths. -/
def parseRawFieldsAux (path : List PathSeg) (i : Nat) : List RawField → ZResult
  | [] => (.valid, [])
  | f :: rest =>
    let r := parseRawField (path ++ [.idx i]) f
    let rs := parseRawFieldsAux path (i + 1) rest
    (r.1.merge rs.1, r.2 ++ rs.2)

/-- `z.array(FieldDefinitionSchema).min(1)` on a required property. -/
def parseRawFields (path : List PathSeg) (v : Option (List RawField)) : ZResult :=
  match v with
  | none => (.aborted, [⟨path, "Required"⟩])
  | some fs =>
    let minRes : ZResult :=
      if fs.length < 1 then
        (.dirty, [⟨path, "Array must contain at least 1 element(s)"⟩])
      else (.valid, [])
    let elems := parseRawFieldsAux path 0 fs
    (minRes.1.merge elems.1, minRes.2 ++ elems.2)

/-- `ModelConfigSchemaBase`: slug, name, fields (passthrough `settings`
cannot fail). -/
def parseRawModelBase (m : RawModel) : ZResult :=
  mergeResults
    [parseSlugString [.key "slug"] m.slug,
     parseRequiredMin1 [.key "name"] m.name,
     parseRawFields [.key "fields"] m.fields]

/-- `ModelConfigSchema = ModelConfigSchemaBase.refine(unique field keys)`:
the refinement is skipped when the base parse aborted, runs otherwise. -/
def parseRawModel (m : RawModel) : ZResult :=
  let base := parseRawModelBase m
  if base.1 = .aborted then base
  else
    let keys := (m.fields.getD []).filterMap (fun f => f.key)
    if keys.Nodup then base
    else (base.1.merge .dirty, base.2 ++ [⟨[], "Field keys must be unique"⟩])

/-- `ComponentEntitySchema`: base object plus the reserved-A/B-key
refinement (path `['fields']`), skipped when the base parse aborted. -/
def parseRawComponent (c : RawComponent) : ZResult :=
  let base := mergeResults
    [parseSlugString [.key "slug"] c.slug,
     parseRequiredMin1 [.key "name"] c.name,
     parseRawFields [.key "fields"] c.fields]
  if base.1 = .aborted then base
  else
    let hasReservedABFields := (c.fields.getD []).any (fun f =>
      match f.key with
      | some k => k ∈ reservedABKeys
      | none => false)
    if hasReservedABFields then
      (base.1.merge .dirty,
       base.2 ++ [⟨[.key "fields"], "variant_id and enabled are reserved for A/B testing"⟩])
    else base

/-- `getValidationErrors`: render each issue as `path: message` with the
path segments joined by `.`. -/
def getValidationErrors (issues : List Issue) : List String :=
  issues.map (fun i =>
    String.intercalate "." (i.path.map PathSeg.render) ++ ": " ++ i.message)

/-- A raw model with two violations: the first field lacks the required
`label` (a structural violation) and the two fields share the key `a`
(violating the uniqueness refinement). -/
def rawModelC9 : RawModel :=
  { slug := some "post", name := some "Post",
    fields := some
      [{ key := some "a", ftype := some "text" },
       { key := some "a", label := some "A", ftype := some "text" }] }

/-! ## Lemmas and claim theorems -/

example : toPascalCase "blog-post" = "BlogPost" := by decide
example : toPascalCase "content-block" = "ContentBlock" := by decide
example : toSnakeCase "Post" = "post" := by decide
example : toSnakeCase "PostSeo" = "post_seo" := by decide
example : toSnakeCase "blog_post" = "blog_post" := by decide
example : toCamelCase "blog-post" = "blogPost" := by decide

lemma separateFields_go (fs : List FieldDefinition) (a b c : List FieldDefinition) :
    fs.foldl
      (fun (acc : SeparatedFields) field =>
        if field.type = "component" then
          { acc with components := acc.components ++ [field] }
        else if field.type = "relation" then
          { acc with nonTranslatable := acc.nonTranslatable ++ [field] }
        else if field.translatable ≠ some false then
          { acc with translatable := acc.translatable ++ [field] }
        else
          { acc with nonTranslatable := acc.nonTranslatable ++ [field] })
      (⟨a, b, c⟩ : SeparatedFields)
    = ⟨a ++ fs.filter modelTranslatableP, b ++ fs.filter modelNonTranslatableP,
       c ++ fs.filter modelComponentP⟩ := by
  induction fs generalizing a b c with
  | nil => simp
  | cons f rest ih =>
    simp only [List.foldl_cons, List.filter_cons]
    by_cases h1 : f.type = "component"
    · simp only [if_pos h1, ih, modelTranslatableP, modelNonTranslatableP, modelComponentP,
        h1, decide_eq_true_eq]
      simp [modelTranslatableP, modelNonTranslatableP, modelComponentP, h1]
    · by_cases h2 : f.type = "relation"
      · simp only [if_neg h1, if_pos h2, ih]
        simp [modelTranslatableP, modelNonTranslatableP, modelComponentP, h1, h2]
      · by_cases h3 : f.translatable ≠ some false
        · simp only [if_neg h1, if_neg h2, if_pos h3, ih]
          simp [modelTranslatableP, modelNonTranslatableP, modelComponentP, h1, h2, h3]
        · simp only [if_neg h1, if_neg h2, if_neg h3, ih]
          push_neg at h3
          simp [modelTranslatableP, modelNonTranslatableP, modelComponentP, h1, h2, h3]

/-- `separateFields` computes the three filters of its buckets. -/
lemma separateFields_spec (fs : List FieldDefinition) :
    separateFields fs
    = ⟨fs.filter modelTranslatableP, fs.filter modelNonTranslatableP,
       fs.filter modelComponentP⟩ := by
  unfold separateFields
  simpa using separateFields_go fs [] [] []

lemma separateComponentFields_go (fs : List FieldDefinition) (a b : List FieldDefinition) :
    fs.foldl
      (fun (acc : SeparatedComponentFields) field =>
        if field.type = "component" ∨ field.type = "relation" then
          { acc with nonTranslatable := acc.nonTranslatable ++ [field] }
        else if field.translatable ≠ some false then
          { acc with translatable := acc.translatable ++ [field] }
        else
          { acc with nonTranslatable := acc.nonTranslatable ++ [field] })
      (⟨a, b⟩ : SeparatedComponentFields)
    = ⟨a ++ fs.filter compTranslatableP, b ++ fs.filter compNonTranslatableP⟩ := by
  induction fs generalizing a b with
  | nil => simp
  | cons f rest ih =>
    simp only [List.foldl_cons, List.filter_cons]
    by_cases h1 : f.type = "component" ∨ f.type = "relation"
    · simp only [if_pos h1, ih]
      simp [compTranslatableP, compNonTranslatableP, h1]
    · by_cases h2 : f.translatable ≠ some false
      · simp only [if_neg h1, if_pos h2, ih]
        simp [compTranslatableP, compNonTranslatableP, h1, h2]
      · simp only [if_neg h1, if_neg h2, ih]
        push_neg at h2
        simp [compTranslatableP, compNonTranslatableP, h1, h2]

/-- `separateComponentFields` computes the two filters of its buckets. -/
lemma separateComponentFields_spec (fs : List FieldDefinition) :
    separateComponentFields fs
    = ⟨fs.filter compTranslatableP, fs.filter compNonTranslatableP⟩ := by
  unfold separateComponentFields
  simpa using separateComponentFields_go fs [] []

/-- The two source branches of `mapSelectField` coincide. -/
lemma mapSelectField_eq (f : FieldDefinition) :
    mapSelectField f
    = { name := f.key, type := "String", optional := !f.required,
        validation := f.validation } := by
  unfold mapSelectField
  split <;> rfl

lemma mapMediaField_names (f : FieldDefinition) (cfg : SchemaBuilderConfig) :
    ∀ c ∈ mapMediaField f cfg, c.name = f.key ∨ c.name = f.key ++ "_id" := by
  intro c hc
  simp only [mapMediaField] at hc
  split at hc
  · simp only [List.mem_singleton] at hc
    subst hc
    simp
  · split at hc <;>
      (simp only [List.mem_singleton] at hc; subst hc; simp)

lemma mapRelationField_names (f : FieldDefinition) (cfg : SchemaBuilderConfig)
    (cols : List PrismaField) (h : mapRelationField f cfg = .ok cols) :
    ∀ c ∈ cols, c.name = f.key ∨ c.name = f.key ++ "_id" := by
  unfold mapRelationField at h
  split at h
  · split at h <;> (simp only [Except.ok.injEq] at h; subst h; simp)
  · exact Except.noConfusion h

lemma mapComponentField_names (f : FieldDefinition) (cfg : SchemaBuilderConfig)
    (cols : List PrismaField) (h : mapComponentField f cfg = .ok cols) :
    ∀ c ∈ cols, c.name = f.key ∨ c.name = f.key ++ "_id" := by
  unfold mapComponentField at h
  split at h
  · split at h <;> (simp only [Except.ok.injEq] at h; subst h; simp)
  · exact Except.noConfusion h

/-- Every column produced by the field translator is named either by the
field's key or by the key with the `_id` suffix. -/
lemma mapFieldToPrisma_names (f : FieldDefinition) (cfg : SchemaBuilderConfig)
    (cols : List PrismaField) (h : mapFieldToPrisma f cfg = .ok cols) :
    ∀ c ∈ cols, c.name = f.key ∨ c.name = f.key ++ "_id" := by
  unfold mapFieldToPrisma at h
  split at h <;>
    first
      | (simp only [Except.ok.injEq] at h; subst h;
         simp [mapTextField, mapRichTextField, mapNumberField, mapBooleanField,
           mapDateField, mapSelectField_eq, mapJsonField]; done)
      | (simp only [Except.ok.injEq] at h; subst h; exact mapMediaField_names f cfg)
      | exact mapRelationField_names f cfg cols h
      | exact mapComponentField_names f cfg cols h
      | exact Except.noConfusion h

lemma mapRelationField_ne_nil (f : FieldDefinition) (cfg : SchemaBuilderConfig)
    (cols : List PrismaField) (h : mapRelationField f cfg = .ok cols) : cols ≠ [] := by
  unfold mapRelationField at h
  split at h
  · split at h <;> (simp only [Except.ok.injEq] at h; subst h; simp)
  · exact Except.noConfusion h

lemma mapComponentField_ne_nil (f : FieldDefinition) (cfg : SchemaBuilderConfig)
    (cols : List PrismaField) (h : mapComponentField f cfg = .ok cols) : cols ≠ [] := by
  unfold mapComponentField at h
  split at h
  · split at h <;> (simp only [Except.ok.injEq] at h; subst h; simp)
  · exact Except.noConfusion h

lemma mapMediaField_ne_nil (f : FieldDefinition) (cfg : SchemaBuilderConfig) :
    mapMediaField f cfg ≠ [] := by
  intro hc
  simp only [mapMediaField] at hc
  split at hc
  · simp at hc
  · split at hc <;> simp at hc

/-- The field translator never returns an empty column list. -/
lemma mapFieldToPrisma_ne_nil (f : FieldDefinition) (cfg : SchemaBuilderConfig)
    (cols : List PrismaField) (h : mapFieldToPrisma f cfg = .ok cols) : cols ≠ [] := by
  unfold mapFieldToPrisma at h
  split at h <;>
    first
      | (simp only [Except.ok.injEq] at h; subst h; simp; done)
      | (simp only [Except.ok.injEq] at h; subst h; exact mapMediaField_ne_nil f cfg)
      | exact mapRelationField_ne_nil f cfg cols h
      | exact mapComponentField_ne_nil f cfg cols h
      | exact Except.noConfusion h

/-- When translating a field list succeeds, every source field succeeds
and contributes its columns to the output. -/
lemma mapFieldsToPrisma_mem_src (fs : List FieldDefinition) (cfg : SchemaBuilderConfig)
    (out : List PrismaField) (h : mapFieldsToPrisma fs cfg = .ok out) :
    ∀ f ∈ fs, ∃ cols, mapFieldToPrisma f cfg = .ok cols ∧ ∀ c ∈ cols, c ∈ out := by
  induction fs generalizing out with
  | nil => simp
  | cons g rest ih =>
    intro f hf
    unfold mapFieldsToPrisma at h
    cases hg : mapFieldToPrisma g cfg with
    | error e => rw [hg] at h; exact Except.noConfusion h
    | ok cols =>
      rw [hg] at h
      cases hr : mapFieldsToPrisma rest cfg with
      | error e => rw [hr] at h; exact Except.noConfusion h
      | ok more =>
        rw [hr] at h
        simp only [Except.ok.injEq] at h
        rcases List.mem_cons.mp hf with rfl | hf2
        · exact ⟨cols, hg, fun c hc => by subst h; exact List.mem_append_left _ hc⟩
        · obtain ⟨cols2, h1, h2⟩ := ih more hr f hf2
          exact ⟨cols2, h1, fun c hc => by subst h; exact List.mem_append_right _ (h2 c hc)⟩

/-- Every column in the output of translating a field list comes from one
of the source fields. -/
lemma mapFieldsToPrisma_mem_out (fs : List FieldDefinition) (cfg : SchemaBuilderConfig)
    (out : List PrismaField) (h : mapFieldsToPrisma fs cfg = .ok out) :
    ∀ c ∈ out, ∃ f ∈ fs, ∃ cols, mapFieldToPrisma f cfg = .ok cols ∧ c ∈ cols := by
  induction fs generalizing out with
  | nil =>
    unfold mapFieldsToPrisma at h
    simp only [Except.ok.injEq] at h
    subst h
    simp
  | cons g rest ih =>
    intro c hc
    unfold mapFieldsToPrisma at h
    cases hg : mapFieldToPrisma g cfg with
    | error e => rw [hg] at h; exact Except.noConfusion h
    | ok cols =>
      rw [hg] at h
      cases hr : mapFieldsToPrisma rest cfg with
      | error e => rw [hr] at h; exact Except.noConfusion h
      | ok more =>
        rw [hr] at h
        simp only [Except.ok.injEq] at h
        subst h
        rcases List.mem_append.mp hc with hc1 | hc2
        · exact ⟨g, List.mem_cons_self _ _, cols, hg, hc1⟩
        · obtain ⟨f, hf, cols2, h1, h2⟩ := ih more hr c hc2
          exact ⟨f, List.mem_cons_of_mem _ hf, cols2, h1, h2⟩

/-- Appending a non-suffix cannot produce the given string. -/
lemma append_ne_of_not_suffix (s t u : String) (h : ¬ t.data <:+ u.data) :
    s ++ t ≠ u := by
  intro he
  apply h
  refine ⟨s.data, ?_⟩
  have hst : (s ++ t).data = s.data ++ t.data := by
    cases s; cases t; rfl
  rw [← hst, he]

lemma append_id_ne_order (s : String) : s ++ "_id" ≠ "order" :=
  append_ne_of_not_suffix s "_id" "order" (by decide)

/-! ## Claim C10: component-table index iff repeatable -/

/-- C10: a component table carries a single-column index on the parent
foreign-key column iff the component field is repeatable; a
non-repeatable component table is emitted with no index list at all. -/
theorem C10_component_index_iff_repeatable
    (parentModel fieldKey : String) (component : ComponentEntity)
    (config : SchemaBuilderConfig) (context : Option ComponentContext) :
    (∀ t, buildComponentTable parentModel fieldKey component true config context = .ok t →
        t.indexes = some [[toSnakeCase parentModel ++ "_id"]])
    ∧ (∀ t, buildComponentTable parentModel fieldKey component false config context = .ok t →
        t.indexes = none) := by
  constructor <;>
    · intro t h
      simp only [buildComponentTable] at h
      split at h
      · exact Except.noConfusion h
      · simp only [Except.ok.injEq] at h
        subst h
        simp

/-- Witness for C10 at a concrete component. -/
theorem C10_witness :
    ((buildComponentTable "Post" "blocks" seoComponent true pascalConfig none).toOption.getD
        defaultTable).indexes = some [["post_id"]]
    ∧ ((buildComponentTable "Post" "seo" seoComponent false pascalConfig none).toOption.getD
        defaultTable).indexes = none := by
  constructor
  · have h := (C10_component_index_iff_repeatable "Post" "blocks" seoComponent
      pascalConfig none).1
      ((buildComponentTable "Post" "blocks" seoComponent true pascalConfig none).toOption.getD
        defaultTable) (by rfl)
    simpa using h
  · have h := (C10_component_index_iff_repeatable "Post" "seo" seoComponent
      pascalConfig none).2
      ((buildComponentTable "Post" "seo" seoComponent false pascalConfig none).toOption.getD
        defaultTable) (by rfl)
    simpa using h

/-! ## Claim C4: component translation table nullity and unique constraint -/

/-- C4: `buildComponentTranslationTable` returns `null` exactly when the
component has zero translatable fields, and any table it returns carries
a unique constraint over the component FK and `lang`. -/
theorem C4_component_translation_table
    (p k : String) (comp : ComponentEntity) (cfg : SchemaBuilderConfig) :
    ((separateComponentFields comp.fields).translatable = [] ↔
      ∀ f ∈ comp.fields,
        f.type = "component" ∨ f.type = "relation" ∨ f.translatable = some false)
    ∧ (buildComponentTranslationTable p k comp cfg = .ok none ↔
      (separateComponentFields comp.fields).translatable = [])
    ∧ (∀ t, buildComponentTranslationTable p k comp cfg = .ok (some t) →
      t.unique = some
        [[toSnakeCase (ComponentMapper.buildComponentTableName p k cfg) ++ "_id", "lang"]]) := by
  refine ⟨?_, ⟨fun h => ?_, fun h => ?_⟩, fun t h => ?_⟩
  · rw [separateComponentFields_spec]
    simp only [List.filter_eq_nil_iff, compTranslatableP, decide_eq_true_eq]
    constructor
    · intro h f hf
      have := h f hf
      tauto
    · intro h f hf
      have := h f hf
      tauto
  · simp only [buildComponentTranslationTable] at h
    split at h
    · assumption
    · split at h
      · exact Except.noConfusion h
      · simp at h
  · simp only [buildComponentTranslationTable]
    rw [if_pos h]
  · simp only [buildComponentTranslationTable] at h
    split at h
    · simp at h
    · split at h
      · exact Except.noConfusion h
      · simp only [Except.ok.injEq, Option.some.injEq] at h
        subst h
        rfl

/-- Witness for C4 at concrete components: the SEO fixture gets a
translation table with the `(post_seo_id, lang)` unique constraint; a
component with only non-translatable fields gets none. -/
theorem C4_witness :
    ((buildComponentTranslationTable "Post" "seo" seoComponent pascalI18nConfig).toOption.getD
        none |>.getD defaultTable).unique = some [["post_seo_id", "lang"]]
    ∧ buildComponentTranslationTable "Post" "stats"
        { slug := "stats", name := "Stats",
          fields := [{ key := "views", label := "Views", type := "number",
                       translatable := some false }] } pascalI18nConfig = .ok none := by
  constructor
  · have h := (C4_component_translation_table "Post" "seo" seoComponent pascalI18nConfig).2.2
      (((buildComponentTranslationTable "Post" "seo" seoComponent
          pascalI18nConfig).toOption.getD none).getD defaultTable) (by rfl)
    simpa using h
  · exact (C4_component_translation_table "Post" "stats"
      { slug := "stats", name := "Stats",
        fields := [{ key := "views", label := "Views", type := "number",
                     translatable := some false }] } pascalI18nConfig).2.1.2 (by decide)

/-! ## Claim C8: list rendering wins over optional rendering -/

/-- C8: the rendered type token of a list column is the base type with
the `[]` suffix and never ends in `?`, even when the column is also
optional; `?` appears exactly for optional non-list columns. -/
theorem C8_formatFieldType (field : PrismaField) :
    (field.list = true →
      formatFieldType field = field.type ++ "[]"
      ∧ endsWithChar (formatFieldType field) '?' = false)
    ∧ (field.list = false → field.optional = true →
      formatFieldType field = field.type ++ "?")
    ∧ (field.list = false → field.optional = false →
      formatFieldType field = field.type) := by
  refine ⟨fun hl => ⟨?_, ?_⟩, fun hl ho => ?_, fun hl ho => ?_⟩
  · simp [formatFieldType, hl]
  · have he : formatFieldType field = field.type ++ "[]" := by simp [formatFieldType, hl]
    rw [he]
    unfold endsWithChar
    have hd : (field.type ++ "[]").data = (field.type.data ++ ['[']) ++ [']'] := by
      cases field.type
      simp [String.data]
    rw [hd, List.getLast?_concat]
    rfl
  · simp [formatFieldType, hl, ho]
  · simp [formatFieldType, hl, ho]

/-- Witness for C8: a column flagged both list and optional renders as
`String[]`, with no `?`; the `?` suffix appears for plain optional
columns. -/
theorem C8_witness :
    formatFieldType { name := "tags", type := "String", list := true, optional := true }
      = "String[]"
    ∧ endsWithChar (formatFieldType
        { name := "tags", type := "String", list := true, optional := true }) '?' = false
    ∧ formatFieldType { name := "bio", type := "String", optional := true } = "String?" := by
  refine ⟨?_, ?_, ?_⟩
  · exact ((C8_formatFieldType _).1 (by decide)).1
  · exact ((C8_formatFieldType _).1 (by decide)).2
  · exact (C8_formatFieldType _).2.1 (by decide) (by decide)

lemma mapFieldToPrisma_relation_case (field : FieldDefinition)
    (cfg : SchemaBuilderConfig) (h : field.type = "relation") :
    mapFieldToPrisma field cfg = mapRelationField field cfg := by
  unfold mapFieldToPrisma
  rw [h]
  rfl

lemma mapFieldToPrisma_component_case (field : FieldDefinition)
    (cfg : SchemaBuilderConfig) (h : field.type = "component") :
    mapFieldToPrisma field cfg = mapComponentField field cfg := by
  unfold mapFieldToPrisma
  rw [h]
  rfl

lemma mapRelationField_ok_iff (field : FieldDefinition) (cfg : SchemaBuilderConfig) :
    (∃ rc, field.config = some (.relation rc))
    ↔ ∃ cols, mapRelationField field cfg = .ok cols := by
  constructor
  · rintro ⟨rc, hrc⟩
    unfold mapRelationField
    rw [hrc]
    rcases rc with ⟨rt, tm, df, ca⟩
    cases rt <;> exact ⟨_, rfl⟩
  · rintro ⟨cols, hc⟩
    unfold mapRelationField at hc
    split at hc
    · next rc heq => exact ⟨rc, heq⟩
    · exact Except.noConfusion hc

lemma mapComponentField_ok_iff (field : FieldDefinition) (cfg : SchemaBuilderConfig) :
    (∃ cc, field.config = some (.component cc))
    ↔ ∃ cols, mapComponentField field cfg = .ok cols := by
  constructor
  · rintro ⟨cc, hcc⟩
    unfold mapComponentField
    rw [hcc]
    rcases cc with ⟨slug, rep, ctx⟩
    cases rep <;> exact ⟨_, rfl⟩
  · rintro ⟨cols, hc⟩
    unfold mapComponentField at hc
    split at hc
    · next cc heq => exact ⟨cc, heq⟩
    · exact Except.noConfusion hc

/-- C5 (amended): an unrecognized field `type` is a fatal error naming
the type and never yields a column; the eight scalar and media kinds always
return normally; a `relation` or `component` field returns normally
exactly when it carries a config of the matching kind (otherwise the
translator throws). -/
theorem C5_translator_dispatch (field : FieldDefinition) (cfg : SchemaBuilderConfig) :
    (field.type ∉ recognizedFieldTypes →
      mapFieldToPrisma field cfg = .error ("Unknown field type: " ++ field.type))
    ∧ (field.type ∈ (["text", "rich", "number", "boolean", "date", "select",
        "json", "media"] : List String) →
      ∃ cols, mapFieldToPrisma field cfg = .ok cols)
    ∧ (field.type = "relation" →
      ((∃ rc, field.config = some (.relation rc))
        ↔ ∃ cols, mapFieldToPrisma field cfg = .ok cols))
    ∧ (field.type = "component" →
      ((∃ cc, field.config = some (.component cc))
        ↔ ∃ cols, mapFieldToPrisma field cfg = .ok cols)) := by
  refine ⟨fun h => ?_, fun h => ?_, fun h => ?_, fun h => ?_⟩
  · unfold mapFieldToPrisma
    split
    all_goals first
      | rfl
      | (exfalso; apply h; simp_all [recognizedFieldTypes])
  · unfold mapFieldToPrisma
    split
    all_goals first
      | exact ⟨_, rfl⟩
      | (exfalso; simp_all)
  · rw [mapFieldToPrisma_relation_case field cfg h]
    exact mapRelationField_ok_iff field cfg
  · rw [mapFieldToPrisma_component_case field cfg h]
    exact mapComponentField_ok_iff field cfg

/-- Counterexample to C5 as stated: `relation` is a recognized kind, yet
the translator throws on a relation field without a relation config, so
"for every recognized kind it returns normally" fails. -/
theorem C5_counterexample :
    relationFieldWithoutConfig.type ∈ recognizedFieldTypes
    ∧ mapFieldToPrisma relationFieldWithoutConfig pascalConfig
        = .error "Invalid relation field" := by
  constructor
  · decide
  · rfl

/-- Witness for C5: an unknown type errors naming the type; a text field
returns normally; a relation field with a relation config returns
normally. -/
theorem C5_witness :
    mapFieldToPrisma { key := "x", label := "X", type := "geo" } pascalConfig
      = .error "Unknown field type: geo"
    ∧ (∃ cols, mapFieldToPrisma { key := "t", label := "T", type := "text" }
        pascalConfig = .ok cols)
    ∧ (∃ cols, mapFieldToPrisma
        { key := "author", label := "Author", type := "relation",
          config := some (.relation
            { relationType := .manyToOne, targetModel := "user",
              displayField := "name" }) } pascalConfig = .ok cols) := by
  refine ⟨?_, ?_, ?_⟩
  · exact (C5_translator_dispatch
      { key := "x", label := "X", type := "geo" } pascalConfig).1 (by decide)
  · exact (C5_translator_dispatch
      { key := "t", label := "T", type := "text" } pascalConfig).2.1 (by decide)
  · exact ((C5_translator_dispatch _ pascalConfig).2.2.1 rfl).mp ⟨_, rfl⟩

/-! ## Claim C3: component-table FK uniqueness and `order` column -/

/-- Every field of the bucket the component table includes comes from the
component's own field list. -/
lemma comp_included_sub (fs : List FieldDefinition) (cfg : SchemaBuilderConfig) :
    ∀ f ∈ (if cfg.i18nEnabled then (separateComponentFields fs).nonTranslatable
           else (separateComponentFields fs).nonTranslatable
                ++ (separateComponentFields fs).translatable), f ∈ fs := by
  intro f hf
  rw [separateComponentFields_spec] at hf
  split at hf
  · exact (List.mem_filter.mp hf).1
  · rcases List.mem_append.mp hf with h | h <;> exact (List.mem_filter.mp h).1

/-- C3 (amended): the parent-FK column of a component table carries
`@unique` iff the component field is non-repeatable, and the repeatable
table always contains the synthesized nullable `Int` `order` column; a
non-repeatable table contains no `order` column provided the component
itself declares no field keyed `order` and the parent's snake_case name
is not `order` (otherwise the component's own column or the
back-relation column is named `order`). -/
theorem C3_component_table_shape (p k : String) (comp : ComponentEntity)
    (cfg : SchemaBuilderConfig) (ctx : Option ComponentContext) :
    (∀ t, buildComponentTable p k comp true cfg ctx = .ok t →
      t.fields[1]? = some (parentFkColumn p [])
      ∧ ({ name := "order", type := "Int", optional := true } : PrismaField) ∈ t.fields)
    ∧ (∀ t, buildComponentTable p k comp false cfg ctx = .ok t →
      t.fields[1]? = some (parentFkColumn p ["@unique"])
      ∧ ((∀ f ∈ comp.fields, f.key ≠ "order") → toSnakeCase p ≠ "order" →
          ∀ c ∈ t.fields, c.name ≠ "order")) := by
  constructor
  · intro t h
    simp only [buildComponentTable] at h
    split at h
    · exact Except.noConfusion h
    · simp only [Except.ok.injEq] at h
      subst h
      constructor
      · split <;> simp [parentFkColumn]
      · split <;> simp
  · intro t h
    simp only [buildComponentTable] at h
    split at h
    · exact Except.noConfusion h
    · next own howk =>
      simp only [Except.ok.injEq] at h
      subst h
      constructor
      · split <;> simp [parentFkColumn]
      · intro hk hp c hc
        have hown : ∀ c2 ∈ own, c2.name ≠ "order" := by
          intro c2 hc2
          obtain ⟨f, hf, cols, hcols, hcmem⟩ :=
            mapFieldsToPrisma_mem_out _ cfg own howk c2 hc2
          have hfin : f ∈ comp.fields := comp_included_sub comp.fields cfg f hf
          rcases mapFieldToPrisma_names f cfg cols hcols c2 hcmem with hn | hn
          · rw [hn]
            exact hk f hfin
          · rw [hn]
            exact append_id_ne_order f.key
        simp at hc
        split at hc
        · rcases List.mem_cons.mp hc with rfl | hc
          · decide
          rcases List.mem_cons.mp hc with rfl | hc
          · exact append_id_ne_order (toSnakeCase p)
          rcases List.mem_append.mp hc with hab | hc
          · split at hab
            · rcases List.mem_cons.mp hab with rfl | hab
              · decide
              · rcases List.mem_cons.mp hab with rfl | hab
                · decide
                · exact absurd hab (List.not_mem_nil c)
            · exact absurd hab (List.not_mem_nil c)
          · rcases List.mem_append.mp hc with hw | hc
            · exact hown c hw
            · rcases List.mem_cons.mp hc with rfl | hc
              · decide
              rcases List.mem_cons.mp hc with rfl | hc
              · decide
              rcases List.mem_cons.mp hc with rfl | hc
              · exact hp
              rcases List.mem_cons.mp hc with rfl | hc
              · show ("translations" : String) ≠ "order"
                decide
              · exact absurd hc (List.not_mem_nil c)
        · rcases List.mem_cons.mp hc with rfl | hc
          · decide
          rcases List.mem_cons.mp hc with rfl | hc
          · exact append_id_ne_order (toSnakeCase p)
          rcases List.mem_append.mp hc with hab | hc
          · split at hab
            · rcases List.mem_cons.mp hab with rfl | hab
              · decide
              · rcases List.mem_cons.mp hab with rfl | hab
                · decide
                · exact absurd hab (List.not_mem_nil c)
            · exact absurd hab (List.not_mem_nil c)
          · rcases List.mem_append.mp hc with hw | hc
            · exact hown c hw
            · rcases List.mem_cons.mp hc with rfl | hc
              · decide
              rcases List.mem_cons.mp hc with rfl | hc
              · decide
              rcases List.mem_cons.mp hc with rfl | hc
              · exact hp
              · exact absurd hc (List.not_mem_nil c)

/-- Counterexample to C3 as stated: this non-repeatable component table
does contain an `order` column (the component's own field keyed `order`),
so "the table has no 'order' column" fails for non-repeatable tables. -/
theorem C3_counterexample :
    ((buildComponentTable "Post" "stats" componentWithOrderKey false pascalConfig
        none).toOption.getD defaultTable).fields.map PrismaField.name
    = ["id", "post_id", "order", "created_at", "updated_at", "post"] := by
  rfl

/-- Witness for C3 at a concrete component without an `order` key. -/
theorem C3_witness :
    ((buildComponentTable "Post" "blocks" seoComponent true pascalConfig
        none).toOption.getD defaultTable).fields[1]?
      = some (parentFkColumn "Post" [])
    ∧ ({ name := "order", type := "Int", optional := true } : PrismaField)
      ∈ ((buildComponentTable "Post" "blocks" seoComponent true pascalConfig
          none).toOption.getD defaultTable).fields
    ∧ ((buildComponentTable "Post" "seo" seoComponent false pascalConfig
        none).toOption.getD defaultTable).fields[1]?
      = some (parentFkColumn "Post" ["@unique"])
    ∧ (∀ c ∈ ((buildComponentTable "Post" "seo" seoComponent false pascalConfig
        none).toOption.getD defaultTable).fields, c.name ≠ "order") := by
  obtain ⟨h1, h2⟩ := (C3_component_table_shape "Post" "blocks" seoComponent
    pascalConfig none).1
    ((buildComponentTable "Post" "blocks" seoComponent true pascalConfig
      none).toOption.getD defaultTable) (by rfl)
  obtain ⟨h3, h4⟩ := (C3_component_table_shape "Post" "seo" seoComponent
    pascalConfig none).2
    ((buildComponentTable "Post" "seo" seoComponent false pascalConfig
      none).toOption.getD defaultTable) (by rfl)
  exact ⟨h1, h2, h3, h4 (by decide) (by decide)⟩

/-! ## Claim C1: translation table emission -/

/-- The model compiler's translatable bucket is non-empty exactly when
the model has a non-relation, non-component field whose `translatable`
flag is not `false`. -/
lemma translatable_bucket_iff (fs : List FieldDefinition) :
    (separateFields fs).translatable ≠ [] ↔
      ∃ f ∈ fs, f.type ≠ "component" ∧ f.type ≠ "relation"
        ∧ f.translatable ≠ some false := by
  rw [separateFields_spec]
  simp only [ne_eq, List.filter_eq_nil_iff, modelTranslatableP, decide_eq_true_eq]
  push_neg
  rfl

/-- A non-component field is always among the fields the base table
includes when i18n is disabled. -/
lemma mem_included_of_ne_component (fs : List FieldDefinition) (f : FieldDefinition)
    (hf : f ∈ fs) (hc : f.type ≠ "component") :
    f ∈ (separateFields fs).nonTranslatable ++ (separateFields fs).translatable := by
  rw [separateFields_spec]
  simp only [List.mem_append, List.mem_filter]
  by_cases hr : f.type = "relation"
  · exact Or.inl ⟨hf, by simp [modelNonTranslatableP, hc, hr]⟩
  · by_cases ht : f.translatable = some false
    · exact Or.inl ⟨hf, by simp [modelNonTranslatableP, hc, ht]⟩
    · exact Or.inr ⟨hf, by simp [modelTranslatableP, hc, hr, ht]⟩

/-- The translation table built by `buildTranslationModel` is named by
appending `Translation` to the base name. -/
lemma buildTranslationModel_name (b : String) (tf : List FieldDefinition)
    (cfg : SchemaBuilderConfig) (t : PrismaModel)
    (h : buildTranslationModel b tf cfg = .ok t) : t.name = b ++ "Translation" := by
  simp only [buildTranslationModel] at h
  split at h
  · exact Except.noConfusion h
  · simp only [Except.ok.injEq] at h
    subst h
    rfl

/-- C1: `buildModel` emits a second table, named `<Model>Translation`,
exactly when i18n is enabled and the model has at least one
non-relation, non-component field whose `translatable` flag is not
`false`; otherwise it emits exactly the base table; and with i18n
disabled every non-component field contributes its column(s) to the
base table. -/
theorem C1_buildModel_translation_iff (model : ModelConfig)
    (config : SchemaBuilderConfig) (tables : List PrismaModel)
    (h : buildModel model config = .ok tables) :
    ((config.i18nEnabled = true ∧ ∃ f ∈ model.fields,
        f.type ≠ "component" ∧ f.type ≠ "relation" ∧ f.translatable ≠ some false) →
      ∃ base tr, tables = [base, tr]
        ∧ tr.name = buildModelName model.slug config ++ "Translation")
    ∧ (¬ (config.i18nEnabled = true ∧ ∃ f ∈ model.fields,
        f.type ≠ "component" ∧ f.type ≠ "relation" ∧ f.translatable ≠ some false) →
      ∃ base, tables = [base])
    ∧ (config.i18nEnabled = false →
      ∀ base rest, tables = base :: rest →
        ∀ f ∈ model.fields, f.type ≠ "component" →
          ∃ cols, mapFieldToPrisma f config = .ok cols ∧ cols ≠ []
            ∧ ∀ c ∈ cols, c ∈ base.fields) := by
  have hbucket := translatable_bucket_iff model.fields
  simp only [buildModel] at h
  split at h
  · exact Except.noConfusion h
  · next mapped hmap =>
    split at h
    · next hcond =>
      split at h
      · exact Except.noConfusion h
      · next tm htm =>
        simp only [Except.ok.injEq] at h
        subst h
        refine ⟨fun _ => ?_, fun hneg => ?_, fun hi18n => ?_⟩
        · exact ⟨_, _, rfl, buildTranslationModel_name _ _ _ _ htm⟩
        · exact absurd ⟨hcond.1, hbucket.mp hcond.2⟩ hneg
        · rw [hi18n] at hcond
          exact absurd hcond.1 (by decide)
    · next hcond =>
      simp only [Except.ok.injEq] at h
      subst h
      refine ⟨fun hpos => ?_, fun _ => ⟨_, rfl⟩, fun hi18n base rest hbr f hf hfc => ?_⟩
      · exact absurd ⟨hpos.1, hbucket.mpr hpos.2⟩ hcond
      · have hbase : base.fields = [buildIdField] ++ mapped ++ buildTimestampFields
            ++ (separateFields model.fields).components.filterMap (fun field =>
              match field.config with
              | some (.component cc) =>
                some { name := field.key,
                       type := SchemaBuilder.buildComponentTableName
                         (buildModelName model.slug config) field.key config,
                       list := cc.repeatable, optional := true }
              | _ => none)
            ++ (if config.i18nEnabled ∧ (separateFields model.fields).translatable ≠ []
                then [buildTranslationRelation (buildModelName model.slug config)] else []) := by
          have hb : base = _ := (List.cons.injEq _ _ _ _).mp hbr.symm |>.1
          rw [hb, if_neg hcond]
        rw [hi18n] at hmap
        simp only [Bool.false_eq_true, if_false] at hmap
        obtain ⟨cols, hcols, hsub⟩ := mapFieldsToPrisma_mem_src _ config mapped hmap f
          (mem_included_of_ne_component model.fields f hf hfc)
        refine ⟨cols, hcols, mapFieldToPrisma_ne_nil f config cols hcols, fun c hc => ?_⟩
        rw [hbase]
        simp only [List.cons_append, List.nil_append, List.mem_cons, List.mem_append]
        have := hsub c hc
        tauto

/-- Witness for C1: with i18n on, the fixture model yields a base table
plus a `PostTranslation` table; with i18n off it yields one table whose
columns include each field's column. -/
theorem C1_witness :
    (∃ base tr, (buildModel witnessModelC1 pascalI18nConfig).toOption.getD [] = [base, tr]
      ∧ tr.name = "PostTranslation")
    ∧ (∃ base, (buildModel witnessModelC1 pascalConfig).toOption.getD [] = [base]) := by
  constructor
  · obtain ⟨h1, _, _⟩ := C1_buildModel_translation_iff witnessModelC1 pascalI18nConfig
      ((buildModel witnessModelC1 pascalI18nConfig).toOption.getD []) (by rfl)
    obtain ⟨base, tr, heq, hname⟩ := h1 (by refine ⟨rfl, ?_⟩; decide)
    exact ⟨base, tr, heq, hname.trans (by decide)⟩
  · obtain ⟨_, h2, _⟩ := C1_buildModel_translation_iff witnessModelC1 pascalConfig
      ((buildModel witnessModelC1 pascalConfig).toOption.getD []) (by rfl)
    exact h2 (by intro hx; exact absurd hx.1 (by decide))

/-! ## Claim C2: junction tables and their deduplication -/

lemma processFieldComponent_junctionNames (owner modelSlug : String)
    (components : List (String × ComponentEntity)) (config : SchemaBuilderConfig)
    (st st2 : GenState) (field : FieldDefinition)
    (h : processFieldComponent owner modelSlug components config st field = .ok st2) :
    st2.junctionNames = st.junctionNames := by
  unfold processFieldComponent at h
  split at h
  · split at h
    · split at h
      · simp only [Except.ok.injEq] at h
        subst h
        rfl
      · split at h
        · exact Except.noConfusion h
        · split at h
          · split at h
            · exact Except.noConfusion h
            · simp only [Except.ok.injEq] at h
              subst h
              rfl
            · simp only [Except.ok.injEq] at h
              subst h
              rfl
          · simp only [Except.ok.injEq] at h
            subst h
            rfl
    · simp only [Except.ok.injEq] at h
      subst h
      rfl
  · simp only [Except.ok.injEq] at h
    subst h
    rfl

lemma processFieldJunction_nodup (owner : String) (config : SchemaBuilderConfig)
    (st st2 : GenState) (field : FieldDefinition)
    (hn : st.junctionNames.Nodup)
    (h : processFieldJunction owner config st field = .ok st2) :
    st2.junctionNames.Nodup := by
  unfold processFieldJunction at h
  split at h
  · split at h
    · exact Except.noConfusion h
    · split at h
      · simp only [Except.ok.injEq] at h
        subst h
        exact hn
      · next hmem =>
        simp only [Except.ok.injEq] at h
        subst h
        simp only [List.nodup_append, List.nodup_cons, List.nodup_nil]
        refine ⟨hn, by simp, ?_⟩
        intro a ha hb
        simp only [List.mem_singleton] at hb
        subst hb
        exact absurd (List.elem_eq_true_of_mem ha) (by simpa using hmem)
  · simp only [Except.ok.injEq] at h
    subst h
    exact hn

lemma processField_nodup (owner modelSlug : String)
    (components : List (String × ComponentEntity)) (config : SchemaBuilderConfig)
    (st st2 : GenState) (field : FieldDefinition)
    (hn : st.junctionNames.Nodup)
    (h : processField owner modelSlug components config st field = .ok st2) :
    st2.junctionNames.Nodup := by
  unfold processField at h
  split at h
  · exact Except.noConfusion h
  · next stm hcm =>
    have := processFieldComponent_junctionNames owner modelSlug components config
      st stm field hcm
    exact processFieldJunction_nodup owner config stm st2 field (this ▸ hn) h

/-- `foldE` preserves any invariant its step preserves. -/
lemma foldE_preserves {σ α : Type} (P : σ → Prop) (f : σ → α → Except String σ)
    (hstep : ∀ s a s2, P s → f s a = .ok s2 → P s2) :
    ∀ (l : List α) (s s2 : σ), P s → foldE f s l = .ok s2 → P s2 := by
  intro l
  induction l with
  | nil =>
    intro s s2 hp h
    unfold foldE at h
    simp only [Except.ok.injEq] at h
    subst h
    exact hp
  | cons a rest ih =>
    intro s s2 hp h
    unfold foldE at h
    split at h
    · exact Except.noConfusion h
    · next smid hmid => exact ih smid s2 (hstep s a smid hp hmid) h

lemma processModel_nodup (components : List (String × ComponentEntity))
    (config : SchemaBuilderConfig) (st st2 : GenState) (model : ModelConfig)
    (hn : st.junctionNames.Nodup)
    (h : processModel components config st model = .ok st2) :
    st2.junctionNames.Nodup := by
  simp only [processModel] at h
  split at h
  · exact Except.noConfusion h
  · exact foldE_preserves (fun s => s.junctionNames.Nodup) _
      (fun s a s2 hp hs => processField_nodup _ _ _ _ s s2 a hp hs)
      model.fields _ st2 hn h

/-- C2: a field needs a junction table iff it is a many-to-many relation;
the junction table is named by concatenating the owner and target table
names under the active convention and carries a unique constraint over
the two FK columns; the orchestrator's set of emitted junction-table
names never holds duplicates; and declaring the same self-referential
many-to-many twice emits exactly one `PostPost` table. -/
theorem C2_junction_tables :
    (∀ f : FieldDefinition, needsJunctionTable f = true ↔
      (f.type = "relation"
        ∧ ∃ rc, f.config = some (.relation rc) ∧ rc.relationType = .manyToMany))
    ∧ (∀ (fromModel : String) (f : FieldDefinition) (rc : RelationConfig)
        (cfg : SchemaBuilderConfig), f.config = some (.relation rc) →
        ∃ jt, buildJunctionTable fromModel f cfg = .ok jt
          ∧ jt.name = buildJunctionTableName fromModel (toPascalCase rc.targetModel) cfg
          ∧ jt.unique = some [[toSnakeCase fromModel ++ "_id",
              toSnakeCase (toPascalCase rc.targetModel) ++ "_id"]]
          ∧ (cfg.convention = .snake_case →
              jt.name = toSnakeCase fromModel ++ "_"
                ++ toSnakeCase (toPascalCase rc.targetModel))
          ∧ (cfg.convention ≠ .snake_case →
              jt.name = fromModel ++ toPascalCase rc.targetModel))
    ∧ (∀ models comps cfg st, runGenerate models comps cfg = .ok st →
        st.junctionNames.Nodup)
    ∧ (((runGenerate [doubleSelfRefModel] [] pascalConfig).toOption.getD
        ⟨[], [], []⟩).tables.filter (fun t => t.name == "PostPost")).length = 1 := by
  refine ⟨fun f => ⟨fun hn => ?_, fun hyp => ?_⟩, fun fromModel f rc cfg hrc => ?_,
    fun models comps cfg st h => ?_, ?_⟩
  · unfold needsJunctionTable at hn
    split at hn
    · next rc heq =>
      simp only [Bool.and_eq_true, beq_iff_eq, decide_eq_true_eq] at hn
      exact ⟨hn.1, rc, heq, hn.2⟩
    · exact absurd hn (by simp)
  · obtain ⟨ht, rc, hrc, hmm⟩ := hyp
    unfold needsJunctionTable
    rw [hrc]
    simp [ht, hmm]
  · unfold buildJunctionTable
    rw [hrc]
    refine ⟨_, rfl, rfl, rfl, fun hs => ?_, fun hs => ?_⟩
    · unfold buildJunctionTableName
      rw [if_pos hs]
    · unfold buildJunctionTableName
      rw [if_neg hs]
  · exact foldE_preserves (fun s => s.junctionNames.Nodup) _
      (fun s a s2 hp hs => processModel_nodup comps cfg s s2 a hp hs)
      models _ st (by simp) h
  · rfl

/-- Witness for C2: the junction-table shape at a concrete many-to-many
field, and duplicate-freeness of the junction names of a concrete run. -/
theorem C2_witness :
    (∃ jt, buildJunctionTable "Post"
        { key := "categories", label := "Categories", type := "relation",
          config := some (.relation
            { relationType := .manyToMany, targetModel := "category",
              displayField := "name" }) } pascalConfig = .ok jt
      ∧ jt.name = "PostCategory"
      ∧ jt.unique = some [["post_id", "category_id"]])
    ∧ (((runGenerate [doubleSelfRefModel] [] pascalConfig).toOption.getD
        ⟨[], [], []⟩).junctionNames.Nodup) := by
  constructor
  · obtain ⟨jt, hok, hname, huniq, _, hpascal⟩ := C2_junction_tables.2.1 "Post"
      { key := "categories", label := "Categories", type := "relation",
        config := some (.relation
          { relationType := .manyToMany, targetModel := "category",
            displayField := "name" }) }
      { relationType := .manyToMany, targetModel := "category",
        displayField := "name" } pascalConfig rfl
    refine ⟨jt, hok, ?_, by rw [huniq]; decide⟩
    rw [hpascal (by decide)]
    decide
  · exact C2_junction_tables.2.2.1 [doubleSelfRefModel] [] pascalConfig
      ((runGenerate [doubleSelfRefModel] [] pascalConfig).toOption.getD ⟨[], [], []⟩)
      (by rfl)

/-! ## Validator lemmas -/

lemma ZStatus.merge_eq_valid (a b : ZStatus) :
    a.merge b = .valid ↔ (a = .valid ∧ b = .valid) := by
  cases a <;> cases b <;> simp [ZStatus.merge]

lemma ZStatus.merge_dirty_ne_valid (a : ZStatus) : a.merge .dirty ≠ .valid := by
  cases a <;> simp [ZStatus.merge]

lemma mergeResults_go_status (rs : List ZResult) (acc : ZResult) :
    (rs.foldl (fun acc r => (acc.1.merge r.1, acc.2 ++ r.2)) acc).1 = .valid
    ↔ (acc.1 = .valid ∧ ∀ r ∈ rs, r.1 = .valid) := by
  induction rs generalizing acc with
  | nil => simp
  | cons r rest ih =>
    simp only [List.foldl_cons, ih, ZStatus.merge_eq_valid, List.mem_cons]
    constructor
    · rintro ⟨⟨h1, h2⟩, h3⟩
      exact ⟨h1, fun r2 hr2 => by rcases hr2 with rfl | hr2; exacts [h2, h3 r2 hr2]⟩
    · rintro ⟨h1, h2⟩
      exact ⟨⟨h1, h2 r (Or.inl rfl)⟩, fun r2 hr2 => h2 r2 (Or.inr hr2)⟩

/-- A zod object parse is valid iff every member parse is. -/
lemma mergeResults_status (rs : List ZResult) :
    (mergeResults rs).1 = .valid ↔ ∀ r ∈ rs, r.1 = .valid := by
  unfold mergeResults
  rw [mergeResults_go_status]
  simp

lemma mergeResults_go_issues (rs : List ZResult) (acc : ZResult) :
    (rs.foldl (fun acc r => (acc.1.merge r.1, acc.2 ++ r.2)) acc).2
    = acc.2 ++ (rs.map Prod.snd).flatten := by
  induction rs generalizing acc with
  | nil => simp
  | cons r rest ih =>
    simp only [List.foldl_cons, ih, List.map_cons, List.flatten_cons, List.append_assoc]

/-- A zod object parse collects every member's issues, in member order. -/
lemma mergeResults_issues (rs : List ZResult) :
    (mergeResults rs).2 = (rs.map Prod.snd).flatten := by
  unfold mergeResults
  rw [mergeResults_go_issues]
  simp

lemma parseFieldKey_reserved_ne_valid (path : List PathSeg) (k : String)
    (hk : k ∈ reservedSystemKeys) : (parseFieldKey path (some k)).1 ≠ .valid := by
  intro hvalid
  simp only [parseFieldKey] at hvalid
  rw [if_pos hk] at hvalid
  simp [ZStatus.merge_eq_valid] at hvalid

lemma parseRawField_reserved_ne_valid (path : List PathSeg) (f : RawField)
    (k : String) (hk : f.key = some k) (hkr : k ∈ reservedSystemKeys) :
    (parseRawField path f).1 ≠ .valid := by
  intro hv
  simp only [parseRawField] at hv
  have hmem := (mergeResults_status _).mp hv
    (parseFieldKey (path ++ [.key "key"]) f.key) (List.mem_cons_self _ _)
  rw [hk] at hmem
  exact parseFieldKey_reserved_ne_valid _ k hkr hmem

lemma parseRawFieldsAux_ne_valid (path : List PathSeg) (fs : List RawField)
    (f : RawField) (hf : f ∈ fs)
    (hne : ∀ p, (parseRawField p f).1 ≠ .valid) :
    ∀ i, (parseRawFieldsAux path i fs).1 ≠ .valid := by
  induction fs with
  | nil => simp at hf
  | cons g rest ih =>
    intro i hv
    unfold parseRawFieldsAux at hv
    rw [ZStatus.merge_eq_valid] at hv
    rcases List.mem_cons.mp hf with rfl | hf2
    · exact hne _ hv.1
    · exact ih hf2 (i + 1) hv.2

/-- A reserved system key anywhere in a raw model's fields makes the
whole model parse non-valid. -/
lemma parseRawModel_reserved_ne_valid (m : RawModel) (fs : List RawField)
    (f : RawField) (k : String) (hfs : m.fields = some fs) (hf : f ∈ fs)
    (hk : f.key = some k) (hkr : k ∈ reservedSystemKeys) :
    (parseRawModel m).1 ≠ .valid := by
  have hfields : (parseRawFields [.key "fields"] m.fields).1 ≠ .valid := by
    rw [hfs]
    intro hv
    unfold parseRawFields at hv
    rw [ZStatus.merge_eq_valid] at hv
    exact parseRawFieldsAux_ne_valid _ fs f hf
      (fun p => parseRawField_reserved_ne_valid p f k hk hkr) 0 hv.2
  have hbase : (parseRawModelBase m).1 ≠ .valid := by
    intro hv
    simp only [parseRawModelBase] at hv
    exact hfields ((mergeResults_status _).mp hv _ (by simp))
  intro hv
  simp only [parseRawModel] at hv
  split at hv
  · next habort => rw [hv] at habort; exact absurd habort (by decide)
  · split at hv
    · exact hbase hv
    · exact absurd hv (ZStatus.merge_dirty_ne_valid _)

/-! ## Claim C6: reserved-key rejection -/

/-- C6: a raw model definition containing a field keyed `id`,
`created_at` or `updated_at` never validates; a raw component definition
containing a field keyed `variant_id` or `enabled` never validates. -/
theorem C6_reserved_keys_rejected :
    (∀ (m : RawModel) (fs : List RawField) (f : RawField) (k : String),
      m.fields = some fs → f ∈ fs → f.key = some k → k ∈ reservedSystemKeys →
      (parseRawModel m).1 ≠ .valid)
    ∧ (∀ (c : RawComponent) (fs : List RawField) (f : RawField) (k : String),
      c.fields = some fs → f ∈ fs → f.key = some k → k ∈ reservedABKeys →
      (parseRawComponent c).1 ≠ .valid) := by
  constructor
  · exact parseRawModel_reserved_ne_valid
  · intro c fs f k hfs hf hk hkr hv
    simp only [parseRawComponent] at hv
    split at hv
    · next habort => rw [hv] at habort; exact absurd habort (by decide)
    · have hab : (c.fields.getD []).any (fun f =>
          match f.key with
          | some k => k ∈ reservedABKeys
          | none => false) = true := by
        rw [hfs]
        simp only [Option.getD_some, List.any_eq_true]
        exact ⟨f, hf, by rw [hk]; simpa using hkr⟩
      rw [if_pos hab] at hv
      exact absurd hv (ZStatus.merge_dirty_ne_valid _)

/-- Witness for C6 at concrete raw definitions. -/
theorem C6_witness :
    (parseRawModel
      { slug := some "post", name := some "Post",
        fields := some [{ key := some "created_at", label := some "Created",
                          ftype := some "date" }] }).1 ≠ .valid
    ∧ (parseRawComponent
      { slug := some "seo", name := some "SEO",
        fields := some [{ key := some "variant_id", label := some "Variant",
                          ftype := some "text" }] }).1 ≠ .valid := by
  constructor
  · exact C6_reserved_keys_rejected.1 _ _
      { key := some "created_at", label := some "Created", ftype := some "date" }
      "created_at" rfl (by decide) rfl (by decide)
  · exact C6_reserved_keys_rejected.2 _ _
      { key := some "variant_id", label := some "Variant", ftype := some "text" }
      "variant_id" rfl (by decide) rfl (by decide)

/-! ## Claim C9: enumeration of validation failures -/

lemma parseRawFieldsAux_mem (path : List PathSeg) (fs : List RawField) :
    ∀ (i0 j : Nat) (f : RawField), fs[j]? = some f →
      ∀ iss ∈ (parseRawField (path ++ [.idx (i0 + j)]) f).2,
        iss ∈ (parseRawFieldsAux path i0 fs).2 := by
  induction fs with
  | nil =>
    intro i0 j f hj
    simp at hj
  | cons g rest ih =>
    intro i0 j f hj iss hiss
    unfold parseRawFieldsAux
    cases j with
    | zero =>
      simp only [List.getElem?_cons_zero, Option.some.injEq] at hj
      subst hj
      rw [Nat.add_zero] at hiss
      exact List.mem_append_left _ hiss
    | succ j2 =>
      simp only [List.getElem?_cons_succ] at hj
      have hidx : i0 + (j2 + 1) = (i0 + 1) + j2 := by omega
      rw [hidx] at hiss
      exact List.mem_append_right _ (ih (i0 + 1) j2 f hj iss hiss)

/-- C9 (amended): per-field issues are all enumerated (every issue of
every field's parse appears in the model's final issue list, so multiple
value-level violations are reported together); the field-key-uniqueness
rule is additionally reported whenever the base parse did not abort; and
every reported error is a path-attributed `path: message` string. -/
theorem C9_issue_enumeration (m : RawModel) :
    ((parseRawModelBase m).1 ≠ .aborted →
      ¬ ((m.fields.getD []).filterMap (fun f => f.key)).Nodup →
      "Field keys must be unique" ∈ (parseRawModel m).2.map Issue.message)
    ∧ (∀ (fs : List RawField) (j : Nat) (f : RawField),
        m.fields = some fs → fs[j]? = some f →
        ∀ iss ∈ (parseRawField [.key "fields", .idx j] f).2,
          iss ∈ (parseRawModel m).2)
    ∧ getValidationErrors (parseRawModel m).2
      = (parseRawModel m).2.map (fun i =>
          String.intercalate "." (i.path.map PathSeg.render) ++ ": " ++ i.message) := by
  refine ⟨fun hab hdup => ?_, fun fs j f hfs hj iss hiss => ?_, rfl⟩
  · simp only [parseRawModel]
    rw [if_neg hab, if_neg hdup]
    simp
  · have hbase : iss ∈ (parseRawModelBase m).2 := by
      have hfieldsm : iss ∈ (parseRawFields [.key "fields"] m.fields).2 := by
        rw [hfs]
        unfold parseRawFields
        refine List.mem_append_right _ ?_
        have := parseRawFieldsAux_mem [.key "fields"] fs 0 j f hj iss
        rw [Nat.zero_add] at this
        exact this hiss
      simp only [parseRawModelBase, mergeResults_issues, List.map_cons, List.map_nil,
        List.flatten_cons, List.flatten_nil, List.append_nil, List.mem_append]
      exact Or.inr (Or.inr hfieldsm)
    simp only [parseRawModel]
    split
    · exact hbase
    · split
      · exact hbase
      · exact List.mem_append_left _ hbase

/-- Counterexample to C9 as stated: `rawModelC9` violates both the
required-label rule and the unique-keys rule, validation fails, yet the
uniqueness violation is not among the reported messages (the refinement
is skipped because the base parse aborted). -/
theorem C9_counterexample :
    ¬ ((rawModelC9.fields.getD []).filterMap (fun f => f.key)).Nodup
    ∧ (parseRawModel rawModelC9).1 = .aborted
    ∧ "Field keys must be unique" ∉ (parseRawModel rawModelC9).2.map Issue.message
    ∧ (parseRawModel rawModelC9).2.map Issue.message = ["Required"] := by
  decide

/-- Witness for C9 at a concrete model exhibiting the claim's own
example: a slug-pattern violation and a duplicate key are both
enumerated (the pattern violation is value-level, so the refinement
still runs). -/
theorem C9_witness :
    "Field keys must be unique" ∈ (parseRawModel
      { slug := some "post", name := some "Post",
        fields := some
          [{ key := some "BAD KEY", label := some "B", ftype := some "text" },
           { key := some "b", label := some "B2", ftype := some "text" },
           { key := some "b", label := some "B3", ftype := some "text" }] }).2.map
      Issue.message
    ∧ Issue.mk [.key "fields", .idx 0, .key "key"] "Invalid" ∈ (parseRawModel
      { slug := some "post", name := some "Post",
        fields := some
          [{ key := some "BAD KEY", label := some "B", ftype := some "text" },
           { key := some "b", label := some "B2", ftype := some "text" },
           { key := some "b", label := some "B3", ftype := some "text" }] }).2 := by
  constructor
  · exact (C9_issue_enumeration _).1 (by decide) (by decide)
  · exact (C9_issue_enumeration _).2.1 _ 0
      { key := some "BAD KEY", label := some "B", ftype := some "text" }
      rfl rfl _ (by decide)

/-! ## Split/token/trim lemmas for the round-trip (claim C7) -/

theorem splitChars_ne_nil (p : Char → Bool) (l : List Char) : splitChars p l ≠ [] := by
  cases l with
  | nil => simp [splitChars]
  | cons c rest =>
    simp only [splitChars]
    split
    · simp
    · split <;> simp

theorem splitChars_cons_pos (p : Char → Bool) (c : Char) (l : List Char) (h : p c = true) :
    splitChars p (c :: l) = [] :: splitChars p l := by
  simp [splitChars, h]

theorem splitChars_cons_neg (p : Char → Bool) (c : Char) (l w : List Char)
    (ws : List (List Char)) (h : p c = false) (hl : splitChars p l = w :: ws) :
    splitChars p (c :: l) = (c :: w) :: ws := by
  simp [splitChars, h, hl]

theorem splitChars_no_sep (p : Char → Bool) (tok : List Char)
    (h : tok.all (fun c => !(p c)) = true) : splitChars p tok = [tok] := by
  induction tok with
  | nil => rfl
  | cons c tok ih =>
    simp only [List.all_cons, Bool.and_eq_true, Bool.not_eq_true'] at h
    exact splitChars_cons_neg p c tok tok [] h.1 (ih (by simpa using h.2))

theorem splitChars_token_sep (p : Char → Bool) (tok : List Char) (s : Char)
    (rest : List Char) (htok : tok.all (fun c => !(p c)) = true) (hs : p s = true) :
    splitChars p (tok ++ s :: rest) = tok :: splitChars p rest := by
  induction tok with
  | nil => simpa using splitChars_cons_pos p s rest hs
  | cons c tok ih =>
    simp only [List.all_cons, Bool.and_eq_true, Bool.not_eq_true'] at htok
    exact splitChars_cons_neg p c _ tok (splitChars p rest) htok.1 (ih (by simpa using htok.2))

theorem wsTokens_nil : wsTokens [] = [] := rfl

theorem wsTokens_ws_cons (c : Char) (l : List Char) (h : isWsChar c = true) :
    wsTokens (c :: l) = wsTokens l := by
  unfold wsTokens
  rw [splitChars_cons_pos _ _ _ h]
  simp

theorem wsTokens_ws_prefix (pre l : List Char) (h : pre.all isWsChar = true) :
    wsTokens (pre ++ l) = wsTokens l := by
  induction pre with
  | nil => rfl
  | cons c pre ih =>
    simp only [List.all_cons, Bool.and_eq_true] at h
    rw [List.cons_append, wsTokens_ws_cons _ _ h.1, ih h.2]

theorem wsTokens_token_only (tok : List Char) (h1 : tok ≠ [])
    (h2 : tok.all (fun c => !isWsChar c) = true) : wsTokens tok = [tok] := by
  unfold wsTokens
  rw [splitChars_no_sep _ _ h2]
  simp [h1]

theorem wsTokens_token_sep (tok sep rest : List Char) (h1 : tok ≠ [])
    (h2 : tok.all (fun c => !isWsChar c) = true) (h3 : sep ≠ [])
    (h4 : sep.all isWsChar = true) :
    wsTokens (tok ++ sep ++ rest) = tok :: wsTokens rest := by
  cases sep with
  | nil => exact absurd rfl h3
  | cons s sep' =>
    simp only [List.all_cons, Bool.and_eq_true] at h4
    rw [List.append_assoc, List.cons_append]
    unfold wsTokens
    rw [splitChars_token_sep _ _ _ _ h2 h4.1, List.filter_cons, if_pos (by simpa using h1)]
    have hws := wsTokens_ws_prefix sep' rest h4.2
    unfold wsTokens at hws
    rw [hws]

theorem trimEndChars_eq_nil_iff (l : List Char) :
    trimEndChars l = [] ↔ l.all isWsChar = true := by
  unfold trimEndChars
  rw [List.reverse_eq_nil_iff, List.dropWhile_eq_nil_iff]
  simp [List.all_eq_true]

theorem trimEndChars_append (a b : List Char) :
    trimEndChars (a ++ b)
      = if trimEndChars b = [] then trimEndChars a else a ++ trimEndChars b := by
  unfold trimEndChars
  rw [List.reverse_append, List.dropWhile_append]
  split
  · next h =>
    rw [if_pos]
    rw [List.reverse_eq_nil_iff]
    exact List.isEmpty_iff.mp h
  · next h =>
    rw [if_neg]
    · simp
    · rw [List.reverse_eq_nil_iff]
      intro hc
      rw [hc] at h
      simp at h

theorem trimEndChars_of_all_nonws (tok : List Char)
    (h : tok.all (fun c => !isWsChar c) = true) : trimEndChars tok = tok := by
  unfold trimEndChars
  cases hrev : tok.reverse with
  | nil =>
    have : tok = [] := by simpa using congrArg List.reverse hrev
    simp [this]
  | cons c tl =>
    have hmem : c ∈ tok := by
      rw [← List.mem_reverse, hrev]
      exact List.mem_cons_self _ _
    have hc : isWsChar c = false := by
      rw [List.all_eq_true] at h
      simpa using h c hmem
    have hd : List.dropWhile isWsChar (c :: tl) = c :: tl := by
      simp [List.dropWhile, hc]
    rw [hd, ← hrev, List.reverse_reverse]

theorem trimEndChars_idem (l : List Char) :
    trimEndChars (trimEndChars l) = trimEndChars l := by
  unfold trimEndChars
  rw [List.reverse_reverse, List.dropWhile_idempotent]

theorem trimEndChars_cons_nonws (c : Char) (l : List Char) (h : isWsChar c = false) :
    trimEndChars (c :: l) = c :: trimEndChars l := by
  have : c :: l = [c] ++ l := rfl
  rw [this, trimEndChars_append]
  split
  · next h2 =>
    rw [h2]
    simp [trimEndChars, h]
  · rfl

theorem trimChars_two_sp_trimEnd (core : List Char) (n0 : Char) (core' : List Char)
    (hcore : core = n0 :: core') (h : isWsChar n0 = false) :
    trimChars (trimEndChars (' ' :: ' ' :: core)) = trimEndChars core := by
  subst hcore
  have hte : trimEndChars (n0 :: core') = n0 :: trimEndChars core' :=
    trimEndChars_cons_nonws n0 core' h
  have h1 : trimEndChars (' ' :: ' ' :: n0 :: core') ≠ [] := by
    rw [Ne, trimEndChars_eq_nil_iff]
    simp [h]
  have h2 : trimEndChars (' ' :: n0 :: core') ≠ [] := by
    rw [Ne, trimEndChars_eq_nil_iff]
    simp [h]
  have e1 : trimEndChars (' ' :: ' ' :: n0 :: core')
      = ' ' :: ' ' :: trimEndChars (n0 :: core') := by
    have a1 : (' ' :: ' ' :: n0 :: core') = [' '] ++ (' ' :: n0 :: core') := rfl
    have a2 : (' ' :: n0 :: core') = [' '] ++ (n0 :: core') := rfl
    rw [a1, trimEndChars_append, if_neg h2, a2, trimEndChars_append, if_neg]
    · rfl
    · rw [hte]; simp
  rw [e1, hte]
  unfold trimChars
  have : List.dropWhile isWsChar (' ' :: ' ' :: n0 :: trimEndChars core')
      = n0 :: trimEndChars core' := by
    simp [List.dropWhile, h, show isWsChar ' ' = true from rfl]
  rw [this, ← hte]
  exact trimEndChars_idem _

theorem trimChars_of_leading_sp (core : List Char) (n0 : Char) (core' : List Char)
    (hcore : core = n0 :: core') (h : isWsChar n0 = false) :
    trimChars (' ' :: ' ' :: core) = trimEndChars core := by
  subst hcore
  unfold trimChars
  congr 1
  simp [List.dropWhile, h, show isWsChar ' ' = true from rfl]

theorem wsTokens_trimEnd_token (tok sep rest : List Char) (h1 : tok ≠ [])
    (h2 : tok.all (fun c => !isWsChar c) = true) (h3 : sep ≠ [])
    (h4 : sep.all isWsChar = true) :
    wsTokens (trimEndChars (tok ++ sep ++ rest))
      = tok :: wsTokens (trimEndChars rest) := by
  rw [List.append_assoc, trimEndChars_append]
  split
  · next hz =>
    rw [trimEndChars_eq_nil_iff] at hz
    simp only [List.all_append, Bool.and_eq_true] at hz
    have hr : trimEndChars rest = [] := (trimEndChars_eq_nil_iff rest).mpr hz.2
    rw [hr, trimEndChars_of_all_nonws tok h2, wsTokens_token_only tok h1 h2, wsTokens_nil]
  · next hz =>
    rw [trimEndChars_append] at hz ⊢
    by_cases hr : trimEndChars rest = []
    · rw [if_pos hr] at hz
      exact absurd ((trimEndChars_eq_nil_iff sep).mpr h4) hz
    · rw [if_neg hr] at hz ⊢
      rw [← List.append_assoc]
      exact wsTokens_token_sep tok sep (trimEndChars rest) h1 h2 h3 h4

theorem dropWhile_append_all (p : Char → Bool) (a b : List Char) (h : a.all p = true) :
    (a ++ b).dropWhile p = b.dropWhile p := by
  rw [List.dropWhile_append]
  have ha : a.dropWhile p = [] := by
    rw [List.dropWhile_eq_nil_iff]
    rw [List.all_eq_true] at h
    exact h
  simp [ha]

theorem takeWhile_append_stop (p : Char → Bool) (a : List Char) (c : Char) (b : List Char)
    (ha : a.all p = true) (hc : p c = false) :
    (a ++ c :: b).takeWhile p = a := by
  rw [List.takeWhile_append_of_pos]
  · have : (c :: b).takeWhile p = [] := by simp [List.takeWhile, hc]
    simp [this]
  · rw [List.all_eq_true] at ha
    exact ha

theorem intercalChars_append (sep : List Char) (A B : List (List Char))
    (hA : A ≠ []) (hB : B ≠ []) :
    intercalChars sep (A ++ B) = intercalChars sep A ++ sep ++ intercalChars sep B := by
  induction A with
  | nil => exact absurd rfl hA
  | cons x A ih =>
    cases A with
    | nil =>
      cases B with
      | nil => exact absurd rfl hB
      | cons y B => simp [intercalChars]
    | cons x2 A2 =>
      have ihh := ih (by simp)
      rw [show (x :: x2 :: A2) ++ B = x :: ((x2 :: A2) ++ B) from rfl]
      rw [show intercalChars sep (x :: ((x2 :: A2) ++ B))
          = x ++ sep ++ intercalChars sep ((x2 :: A2) ++ B) from rfl]
      rw [ihh]
      rw [show intercalChars sep (x :: x2 :: A2)
          = x ++ sep ++ intercalChars sep (x2 :: A2) from rfl]
      simp [List.append_assoc]

theorem intercalChars_snoc_nil (sep : List Char) (A : List (List Char)) (hA : A ≠ []) :
    intercalChars sep (A ++ [[]]) = intercalChars sep A ++ sep := by
  rw [intercalChars_append sep A [[]] hA (by simp)]
  simp [intercalChars]

theorem intercalChars_all (sep : List Char) (pieces : List (List Char)) (q : Char → Bool)
    (hs : sep.all q = true) (hp : ∀ w ∈ pieces, w.all q = true) :
    (intercalChars sep pieces).all q = true := by
  induction pieces with
  | nil => simp [intercalChars]
  | cons x xs ih =>
    cases xs with
    | nil => simpa [intercalChars] using hp x (by simp)
    | cons y ys =>
      rw [show intercalChars sep (x :: y :: ys)
          = x ++ sep ++ intercalChars sep (y :: ys) from rfl]
      simp only [List.all_append, Bool.and_eq_true]
      refine ⟨⟨hp x (by simp), hs⟩, ih ?_⟩
      intro w hw
      exact hp w (by simp [hw])

theorem splitChars_intercal (p : Char → Bool) (s : Char) (pieces : List (List Char))
    (hs : p s = true) (hp : ∀ w ∈ pieces, w.all (fun c => !(p c)) = true)
    (hne : pieces ≠ []) :
    splitChars p (intercalChars [s] pieces) = pieces := by
  induction pieces with
  | nil => exact absurd rfl hne
  | cons x xs ih =>
    cases xs with
    | nil => exact splitChars_no_sep p x (hp x (by simp))
    | cons y ys =>
      rw [show intercalChars [s] (x :: y :: ys) = x ++ [s] ++ intercalChars [s] (y :: ys)
          from rfl]
      rw [List.append_assoc]
      rw [show [s] ++ intercalChars [s] (y :: ys) = s :: intercalChars [s] (y :: ys) from rfl]
      rw [splitChars_token_sep p x s _ (hp x (by simp)) hs]
      rw [ih (fun w hw => hp w (by simp [hw])) (by simp)]

theorem isPrefixOf_append_self (l x : List Char) : l.isPrefixOf (l ++ x) = true := by
  rw [List.isPrefixOf_iff_prefix]
  exact List.prefix_append l x

theorem matchModelAt_not_m (c : Char) (l : List Char) (h : c ≠ 'm') :
    matchModelAt (c :: l) = none := by
  unfold matchModelAt
  rw [if_neg]
  intro hpre
  rw [List.isPrefixOf_iff_prefix] at hpre
  obtain ⟨t, ht⟩ := hpre
  have hm : "model".data = 'm' :: "odel".data := rfl
  rw [hm] at ht
  have : 'm' = c := by
    have h2 := congrArg List.head? ht
    simpa using h2
  exact h this.symm

theorem scanModelsFuel_nil (fuel : Nat) : scanModelsFuel fuel [] = [] := by
  cases fuel <;> rfl

theorem scanModelsFuel_skip (pre s : List Char) (fuel : Nat)
    (hc : ∀ k, k < pre.length → matchModelAt (pre.drop k ++ s) = none)
    (hf : pre.length ≤ fuel) :
    scanModelsFuel fuel (pre ++ s) = scanModelsFuel (fuel - pre.length) s := by
  induction pre generalizing fuel with
  | nil => simp
  | cons c pre ih =>
    cases fuel with
    | zero => simp at hf
    | succ f =>
      rw [show (c :: pre) ++ s = c :: (pre ++ s) from rfl]
      have h0 := hc 0 (by simp)
      simp only [List.drop_zero, List.cons_append] at h0
      have hstep : scanModelsFuel (f + 1) (c :: (pre ++ s)) = scanModelsFuel f (pre ++ s) := by
        simp only [scanModelsFuel]
        rw [h0]
      rw [hstep]
      have hrec := ih f (fun k hk => by
        have := hc (k + 1) (by simpa using Nat.succ_lt_succ hk)
        simpa [List.drop_succ_cons] using this)
        (by simp only [List.length_cons] at hf; omega)
      rw [hrec]
      congr 1
      simp only [List.length_cons]
      omega

theorem nonws_of_word (c : Char) (h : isWordChar c = true) : isWsChar c = false := by
  by_contra hw
  rw [Bool.not_eq_false] at hw
  unfold isWsChar at hw
  simp only [Bool.or_eq_true, decide_eq_true_eq] at hw
  rcases hw with ((h1 | h1) | h1) | h1 <;> subst h1 <;> exact absurd h (by decide)

theorem word_all_nonws (l : List Char) (h : l.all isWordChar = true) :
    l.all (fun c => !isWsChar c) = true := by
  rw [List.all_eq_true] at h ⊢
  intro c hc
  have := nonws_of_word c (h c hc)
  simpa using this

theorem matchModelAt_generic (nrest B t : List Char) (n0 : Char)
    (hword : (n0 :: nrest).all isWordChar = true)
    (hB : B.all (fun c => decide (c ≠ '\x7d')) = true) (hBne : B ≠ []) :
    matchModelAt ("model ".data ++ (n0 :: nrest) ++ [' ', '\x7b'] ++ B ++ ['\x7d'] ++ t)
      = some (n0 :: nrest, B, t) := by
  have hn0 : isWsChar n0 = false := nonws_of_word n0 (by
    rw [List.all_eq_true] at hword
    exact hword n0 (by simp))
  have hs : "model ".data ++ (n0 :: nrest) ++ [' ', '\x7b'] ++ B ++ ['\x7d'] ++ t
      = "model".data ++ (' ' :: n0 :: (nrest ++ (' ' :: '\x7b' :: (B ++ '\x7d' :: t)))) := by
    have h1 : "model ".data = "model".data ++ [' '] := rfl
    rw [h1]
    simp [List.append_assoc]
  rw [hs]
  unfold matchModelAt
  rw [if_pos (isPrefixOf_append_self _ _)]
  have d5 : ("model".data ++ (' ' :: n0 :: (nrest ++ (' ' :: '\x7b' :: (B ++ '\x7d' :: t))))).drop 5
      = ' ' :: n0 :: (nrest ++ (' ' :: '\x7b' :: (B ++ '\x7d' :: t))) := by
    rw [show (5 : Nat) = "model".data.length from rfl]
    exact List.drop_left _ _
  simp only [d5]
  have tw1 : (' ' :: n0 :: (nrest ++ (' ' :: '\x7b' :: (B ++ '\x7d' :: t)))).takeWhile isWsChar
      = [' '] := by
    rw [List.takeWhile_cons_of_pos (by decide), List.takeWhile_cons_of_neg]
    simp [hn0]
  simp only [tw1]
  rw [if_neg (by simp)]
  have d1 : (' ' :: n0 :: (nrest ++ (' ' :: '\x7b' :: (B ++ '\x7d' :: t)))).drop [' '].length
      = n0 :: (nrest ++ (' ' :: '\x7b' :: (B ++ '\x7d' :: t))) := rfl
  simp only [d1]
  have twn : (n0 :: (nrest ++ (' ' :: '\x7b' :: (B ++ '\x7d' :: t)))).takeWhile isWordChar
      = n0 :: nrest := by
    have := takeWhile_append_stop isWordChar (n0 :: nrest) ' '
      ('\x7b' :: (B ++ '\x7d' :: t)) hword (by decide)
    simpa using this
  simp only [twn]
  rw [if_neg (by simp)]
  have dn : (n0 :: (nrest ++ (' ' :: '\x7b' :: (B ++ '\x7d' :: t)))).drop (n0 :: nrest).length
      = ' ' :: '\x7b' :: (B ++ '\x7d' :: t) := by
    have h2 := List.drop_left (n0 :: nrest) (' ' :: '\x7b' :: (B ++ '\x7d' :: t))
    simp only [List.cons_append] at h2
    exact h2
  simp only [dn]
  have dw : (' ' :: '\x7b' :: (B ++ '\x7d' :: t)).dropWhile isWsChar
      = '\x7b' :: (B ++ '\x7d' :: t) := by
    simp [List.dropWhile, show isWsChar ' ' = true from rfl, show isWsChar '\x7b' = false from rfl]
  simp only [dw]
  have twb : (B ++ '\x7d' :: t).takeWhile (fun c => decide (c ≠ '\x7d')) = B :=
    takeWhile_append_stop _ B '\x7d' t hB (by decide)
  simp only [twb]
  rw [if_neg hBne]
  have db : (B ++ '\x7d' :: t).drop B.length = '\x7d' :: t :=
    List.drop_left B ('\x7d' :: t)
  simp only [db]

theorem writeModel_data (m : PrismaModel) (h : writeModelLines m ≠ []) :
    (writeModel m).data
      = "model ".data ++ m.name.data ++ [' ', '\x7b'] ++ bodyChars m ++ ['\x7d'] := by
  have hA : (writeModelLines m).map String.data ≠ [] := by simpa using h
  unfold writeModel joinLines bodyChars
  rw [show (String.mk (intercalChars ['\n']
      ((["model " ++ m.name ++ " \x7b"] ++ writeModelLines m ++ ["\x7d"]).map String.data))).data
      = intercalChars ['\n']
        ((["model " ++ m.name ++ " \x7b"] ++ writeModelLines m ++ ["\x7d"]).map String.data)
      from rfl]
  rw [List.map_append, List.map_append]
  rw [intercalChars_append ['\n'] _ (["\x7d"].map String.data) (by simp) (by simp)]
  rw [intercalChars_append ['\n'] (["model " ++ m.name ++ " \x7b"].map String.data) _ (by simp) hA]
  have h1 : intercalChars ['\n'] (["model " ++ m.name ++ " \x7b"].map String.data)
      = ("model " ++ m.name ++ " \x7b").data := rfl
  have h2 : intercalChars ['\n'] (["\x7d"].map String.data) = ['\x7d'] := rfl
  rw [h1, h2]
  have h3 : ("model " ++ m.name ++ " \x7b").data
      = "model ".data ++ m.name.data ++ [' ', '\x7b'] := by
    simp [String.data_append]
  rw [h3]
  simp [List.append_assoc]

theorem bodyChars_no_rbrace (m : PrismaModel)
    (h : (writeModelLines m).all strOK = true) :
    (bodyChars m).all (fun c => decide (c ≠ '\x7d')) = true := by
  unfold bodyChars
  simp only [List.all_cons, List.all_append, Bool.and_eq_true]
  refine ⟨by decide, ?_, by decide⟩
  apply intercalChars_all
  · decide
  · intro w hw
    rw [List.mem_map] at hw
    obtain ⟨l, hl, rfl⟩ := hw
    rw [List.all_eq_true] at h ⊢
    intro c hcmem
    have hst := h l hl
    unfold strOK at hst
    rw [List.all_eq_true] at hst
    have hok := hst c hcmem
    unfold charOK at hok
    simp only [Bool.and_eq_true, bne_iff_ne, ne_eq] at hok
    simpa using hok.2

theorem bodyChars_ne_nil (m : PrismaModel) : bodyChars m ≠ [] := by
  unfold bodyChars
  simp

theorem matchModelAt_render (m : PrismaModel) (t : List Char)
    (hname : safeWord m.name = true)
    (hlines : writeModelLines m ≠ [])
    (hall : (writeModelLines m).all strOK = true) :
    matchModelAt ((writeModel m).data ++ t) = some (m.name.data, bodyChars m, t) := by
  have hword : (m.name.data).all isWordChar = true := by
    unfold safeWord at hname
    simp only [Bool.and_eq_true] at hname
    exact hname.2
  obtain ⟨n0, nrest, hn⟩ : ∃ n0 nrest, m.name.data = n0 :: nrest := by
    unfold safeWord at hname
    simp only [Bool.and_eq_true] at hname
    cases hd : m.name.data with
    | nil =>
      rw [hd] at hname
      simp at hname
    | cons a b => exact ⟨a, b, rfl⟩
  rw [writeModel_data m hlines, hn]
  have := matchModelAt_generic nrest (bodyChars m) t n0 (by rw [← hn]; exact hword)
    (bodyChars_no_rbrace m hall) (bodyChars_ne_nil m)
  simp only [List.append_assoc] at this ⊢
  exact this

theorem scanModelsFuel_cons_match (fuel : Nat) (c : Char) (l : List Char) :
    scanModelsFuel (fuel + 1) (c :: l)
      = match matchModelAt (c :: l) with
        | some (name, body, next) => (name, body) :: scanModelsFuel fuel next
        | none => scanModelsFuel fuel l := rfl

theorem scanModelsFuel_step_some (fuel : Nat) (l nm bd nx : List Char)
    (hl : l ≠ []) (hm : matchModelAt l = some (nm, bd, nx)) :
    scanModelsFuel (fuel + 1) l = (nm, bd) :: scanModelsFuel fuel nx := by
  cases l with
  | nil => exact absurd rfl hl
  | cons c rest => rw [scanModelsFuel_cons_match, hm]

theorem scanModelsFuel_step_none (fuel : Nat) (c : Char) (l : List Char)
    (hm : matchModelAt (c :: l) = none) :
    scanModelsFuel (fuel + 1) (c :: l) = scanModelsFuel fuel l := by
  rw [scanModelsFuel_cons_match, hm]

theorem writeModel_data_ne_nil (m : PrismaModel) (h : writeModelLines m ≠ []) :
    (writeModel m).data ≠ [] := by
  rw [writeModel_data m h]
  simp

theorem scan_blocks (ms : List PrismaModel) (fuel : Nat)
    (hwf : ∀ m ∈ ms, safeWord m.name = true ∧ writeModelLines m ≠ []
      ∧ (writeModelLines m).all strOK = true)
    (hne : ms ≠ [])
    (hf : (modelsRegion ms).length + 1 ≤ fuel) :
    scanModelsFuel fuel (modelsRegion ms ++ ['\n'])
      = ms.map (fun m => (m.name.data, bodyChars m)) := by
  induction ms generalizing fuel with
  | nil => exact absurd rfl hne
  | cons m ms ih =>
    obtain ⟨h1, h2, h3⟩ := hwf m (by simp)
    have hrne : (writeModel m).data ≠ [] := writeModel_data_ne_nil m h2
    have hrpos : 1 ≤ ((writeModel m).data).length := List.length_pos.mpr hrne
    cases ms with
    | nil =>
      have hr : modelsRegion [m] = (writeModel m).data := rfl
      rw [hr] at hf ⊢
      obtain ⟨f, rfl⟩ : ∃ f, fuel = f + 2 := ⟨fuel - 2, by omega⟩
      rw [show f + 2 = (f + 1) + 1 from rfl]
      rw [scanModelsFuel_step_some (f + 1) _ _ _ _ (by simp [hrne])
        (matchModelAt_render m ['\n'] h1 h2 h3)]
      rw [scanModelsFuel_step_none f '\n' [] (matchModelAt_not_m '\n' [] (by decide))]
      rw [scanModelsFuel_nil]
      simp
    | cons m2 ms2 =>
      have hr : modelsRegion (m :: m2 :: ms2)
          = (writeModel m).data ++ ['\n', '\n'] ++ modelsRegion (m2 :: ms2) := rfl
      have hlen : (modelsRegion (m :: m2 :: ms2)).length
          = ((writeModel m).data).length + 2 + (modelsRegion (m2 :: ms2)).length := by
        rw [hr]
        simp [List.length_append]
        omega
      obtain ⟨f, rfl⟩ : ∃ f, fuel = f + 3 := ⟨fuel - 3, by omega⟩
      rw [hr]
      have hshape : ((writeModel m).data ++ ['\n', '\n'] ++ modelsRegion (m2 :: ms2)) ++ ['\n']
          = (writeModel m).data ++ ('\n' :: '\n' :: (modelsRegion (m2 :: ms2) ++ ['\n'])) := by
        simp
      rw [hshape]
      rw [show f + 3 = (f + 2) + 1 from rfl]
      rw [scanModelsFuel_step_some (f + 2) _ _ _ _ (by simp [hrne])
        (matchModelAt_render m _ h1 h2 h3)]
      rw [show f + 2 = (f + 1) + 1 from rfl]
      rw [scanModelsFuel_step_none (f + 1) '\n' _ (matchModelAt_not_m '\n' _ (by decide))]
      rw [scanModelsFuel_step_none f '\n' _ (matchModelAt_not_m '\n' _ (by decide))]
      have hwf2 : ∀ mm ∈ m2 :: ms2, safeWord mm.name = true ∧ writeModelLines mm ≠ []
          ∧ (writeModelLines mm).all strOK = true :=
        fun mm hm => hwf mm (List.mem_cons_of_mem _ hm)
      have hf2 : (modelsRegion (m2 :: ms2)).length + 1 ≤ f := by omega
      rw [ih f hwf2 (by simp) hf2]
      simp

theorem fieldBlockLines_ne_nil (f : PrismaField) (w1 w2 : Nat) :
    fieldBlockLines f w1 w2 ≠ [] := by
  unfold fieldBlockLines
  cases buildZodComment f.validation <;> simp

theorem writeModelLines_ne_nil (m : PrismaModel) (h : m.fields ≠ []) :
    writeModelLines m ≠ [] := by
  unfold writeModelLines
  cases hf : m.fields with
  | nil => exact absurd hf h
  | cons f fs =>
    simp only [List.flatMap_cons, List.append_assoc]
    intro hcontra
    rw [List.append_eq_nil] at hcontra
    exact fieldBlockLines_ne_nil f _ _ hcontra.1

theorem modelWF_unpack (m : PrismaModel) (h : modelWF m = true) :
    safeWord m.name = true ∧ writeModelLines m ≠ []
      ∧ (writeModelLines m).all strOK = true := by
  unfold modelWF at h
  simp only [Bool.and_eq_true] at h
  refine ⟨h.1.1.1, ?_, h.2⟩
  apply writeModelLines_ne_nil
  have := h.1.1.2
  simpa using this

theorem writeSchemaSync_data (schema : PrismaSchema) (h : schema.models ≠ []) :
    (writeSchemaSync schema).data
      = (renderedPrefix schema ++ ['\n', '\n'])
        ++ (modelsRegion schema.models ++ ['\n']) := by
  unfold writeSchemaSync joinBlocks renderedPrefix modelsRegion
  rw [String.data_append]
  rw [show ("\n".data) = ['\n'] from rfl]
  rw [show (String.mk (intercalChars ['\n', '\n']
      ((([writeDatasource schema.datasource] ++ schema.generators.map writeGenerator)
        ++ schema.models.map writeModel).map String.data))).data
      = intercalChars ['\n', '\n']
        ((([writeDatasource schema.datasource] ++ schema.generators.map writeGenerator)
          ++ schema.models.map writeModel).map String.data) from rfl]
  rw [List.map_append]
  rw [intercalChars_append ['\n', '\n'] _ _ (by simp) (by simpa using h)]
  rw [List.map_map]
  simp only [List.append_assoc, List.cons_append, List.nil_append]
  congr 1

theorem extract_writeSchema (schema : PrismaSchema)
    (hwf : schemaWF schema = true) (hclean : prefixCleanB schema = true) :
    extractModelsFromString (writeSchemaSync schema)
      = schema.models.map (fun m => parseModelBody m.name.data (bodyChars m)) := by
  have hmodels : schema.models ≠ [] := by
    unfold schemaWF at hwf
    simp only [Bool.and_eq_true] at hwf
    simpa using hwf.1
  have hallwf : ∀ m ∈ schema.models, modelWF m = true := by
    unfold schemaWF at hwf
    simp only [Bool.and_eq_true] at hwf
    have := hwf.2
    rw [List.all_eq_true] at this
    exact this
  have hdata := writeSchemaSync_data schema hmodels
  unfold extractModelsFromString
  rw [hdata]
  have hpre : ((renderedPrefix schema ++ ['\n', '\n'])).length
      = (renderedPrefix schema).length + 2 := by
    simp
  have hlenfull : ((renderedPrefix schema ++ ['\n', '\n'])
      ++ (modelsRegion schema.models ++ ['\n'])).length
      = ((renderedPrefix schema ++ ['\n', '\n'])).length
        + ((modelsRegion schema.models).length + 1) := by
    simp
    omega
  rw [scanModelsFuel_skip (renderedPrefix schema ++ ['\n', '\n'])
    (modelsRegion schema.models ++ ['\n']) _
    (fun k hk => by
      unfold prefixCleanB at hclean
      rw [List.all_eq_true] at hclean
      have hk2 : k ∈ List.range ((renderedPrefix schema).length + 2) := by
        rw [List.mem_range]
        rw [hpre] at hk
        exact hk
      have hcl := hclean k hk2
      simp only at hcl
      rw [hdata, List.drop_append_eq_append_drop] at hcl
      have hk3 : k - ((renderedPrefix schema ++ ['\n', '\n'])).length = 0 := by
        omega
      rw [hk3, List.drop_zero] at hcl
      exact Option.isNone_iff_eq_none.mp hcl)
    (by omega)]
  have harith : ((renderedPrefix schema ++ ['\n', '\n'])
        ++ (modelsRegion schema.models ++ ['\n'])).length
      - ((renderedPrefix schema ++ ['\n', '\n'])).length
      = (modelsRegion schema.models).length + 1 := by
    omega
  rw [harith]
  rw [scan_blocks schema.models _
    (fun m hm => modelWF_unpack m (hallwf m hm))
    hmodels (le_refl _)]
  simp [List.map_map]

theorem parseFieldAttrStep_proj (fld : PrismaField) (attr : String) :
    (parseFieldAttrStep fld attr).name = fld.name
      ∧ (parseFieldAttrStep fld attr).list = fld.list
      ∧ (parseFieldAttrStep fld attr).optional = fld.optional := by
  unfold parseFieldAttrStep
  repeat' split
  all_goals simp

theorem parseFold_proj (attrs : List String) (f0 : PrismaField) :
    (attrs.foldl parseFieldAttrStep f0).name = f0.name
      ∧ (attrs.foldl parseFieldAttrStep f0).list = f0.list
      ∧ (attrs.foldl parseFieldAttrStep f0).optional = f0.optional := by
  induction attrs generalizing f0 with
  | nil => exact ⟨rfl, rfl, rfl⟩
  | cons a attrs ih =>
    rw [List.foldl_cons]
    obtain ⟨s1, s2, s3⟩ := parseFieldAttrStep_proj f0 a
    obtain ⟨i1, i2, i3⟩ := ih (parseFieldAttrStep f0 a)
    exact ⟨i1.trans s1, i2.trans s2, i3.trans s3⟩

theorem safeWord_cons (s : String) (h : safeWord s = true) :
    ∃ n0 nr, s.data = n0 :: nr ∧ isWordChar n0 = true
      ∧ s.data.all isWordChar = true ∧ s.data.all (fun c => !isWsChar c) = true := by
  unfold safeWord at h
  simp only [Bool.and_eq_true] at h
  cases hd : s.data with
  | nil =>
    rw [hd] at h
    simp at h
  | cons a b =>
    have h2 : (a :: b).all isWordChar = true := by
      rw [← hd]
      exact h.2
    have ha : isWordChar a = true := by
      simp only [List.all_cons, Bool.and_eq_true] at h2
      exact h2.1
    exact ⟨a, b, rfl, ha, h2, word_all_nonws _ h2⟩

theorem formatFieldType_token (f : PrismaField) (ht : safeWord f.type = true) :
    (formatFieldType f).data ≠ []
      ∧ (formatFieldType f).data.all (fun c => !isWsChar c) = true := by
  obtain ⟨t0, tr, htd, hw0, hall, hnws⟩ := safeWord_cons f.type ht
  unfold formatFieldType
  split
  · constructor
    · rw [String.data_append, htd]
      simp
    · rw [String.data_append]
      simp only [List.all_append, Bool.and_eq_true]
      exact ⟨hnws, by decide⟩
  · split
    · constructor
      · rw [String.data_append, htd]
        simp
      · rw [String.data_append]
        simp only [List.all_append, Bool.and_eq_true]
        exact ⟨hnws, by decide⟩
    · exact ⟨by rw [htd]; simp, hnws⟩

theorem suffix_brackets_false (x : List Char) (h : x.all isWordChar = true) :
    ("[]".data).isSuffixOf x = false := by
  by_contra hc
  rw [Bool.not_eq_false, List.isSuffixOf_iff_suffix] at hc
  obtain ⟨pre, hpre⟩ := hc
  have : ']' ∈ x := by
    rw [← hpre]
    simp [show "[]".data = ['[', ']'] from rfl]
  rw [List.all_eq_true] at h
  exact absurd (h ']' this) (by decide)

theorem parseTypeToken_format (f : PrismaField) (ht : safeWord f.type = true) :
    parseTypeToken (formatFieldType f).data
      = (f.type.data, f.optional && !f.list, f.list) := by
  obtain ⟨t0, tr, htd, hw0, hall, hnws⟩ := safeWord_cons f.type ht
  have hsuffix : ("[]".data).isSuffixOf f.type.data = false := suffix_brackets_false _ hall
  have hlastmem : ∃ c, f.type.data.getLast? = some c ∧ c ∈ f.type.data := by
    refine ⟨f.type.data.getLast (by rw [htd]; simp), ?_, ?_⟩
    · exact List.getLast?_eq_getLast _ _
    · exact List.getLast_mem _
  obtain ⟨lc, hlc, hlcmem⟩ := hlastmem
  have hlcword : isWordChar lc = true := by
    rw [List.all_eq_true] at hall
    exact hall lc hlcmem
  have hlcq : (decide (f.type.data.getLast? = some '?')) = false := by
    rw [hlc]
    simp only [Option.some.injEq, decide_eq_false_iff_not]
    intro hcontra
    subst hcontra
    exact absurd hlcword (by decide)
  unfold parseTypeToken formatFieldType
  cases hl : f.list with
  | true =>
    simp only [if_pos]
    rw [String.data_append, show ("[]" : String).data = ['[', ']'] from rfl]
    have h1 : (decide ((f.type.data ++ ['[', ']']).getLast? = some '?')) = false := by
      simp
    rw [h1]
    simp only [Bool.false_eq_true, if_false]
    have h2 : ("[]".data).isSuffixOf (f.type.data ++ ['[', ']']) = true := by
      rw [List.isSuffixOf_iff_suffix]
      exact ⟨f.type.data, rfl⟩
    rw [h2]
    simp
  | false =>
    simp only [Bool.false_eq_true, if_false]
    cases ho : f.optional with
    | true =>
      simp only [if_pos]
      rw [String.data_append, show ("?" : String).data = ['?'] from rfl]
      have h1 : (decide ((f.type.data ++ ['?']).getLast? = some '?')) = true := by
        simp
      rw [h1]
      simp only [if_true]
      have h2 : (f.type.data ++ ['?']).dropLast = f.type.data := by simp
      rw [h2, hsuffix]
      simp
    | false =>
      simp only [Bool.false_eq_true, if_false]
      rw [hlcq]
      simp only [Bool.false_eq_true, if_false]
      have hs2 : (['[', ']'] : List Char).isSuffixOf f.type.data = false := by
        rw [show (['[', ']'] : List Char) = "[]".data from rfl]
        exact hsuffix
      rw [hs2]
      simp

theorem parseFieldLine_proj (line : List Char) (rest : List (List Char)) (f : PrismaField)
    (ht : safeWord f.type = true)
    (htok : wsTokens line = f.name.data :: (formatFieldType f).data :: rest) :
    ∃ f', parseFieldLine line = some f'
      ∧ f'.name = f.name ∧ f'.list = f.list ∧ f'.optional = (f.optional && !f.list) := by
  unfold parseFieldLine
  rw [htok]
  show ∃ f', parseFieldCore line f.name.data (formatFieldType f).data = some f'
    ∧ f'.name = f.name ∧ f'.list = f.list ∧ f'.optional = (f.optional && !f.list)
  unfold parseFieldCore
  rw [parseTypeToken_format f ht]
  by_cases hattr : extractAttributes line = []
  · rw [if_neg (by simp [hattr])]
    cases hl : f.list <;> cases ho : f.optional <;>
      exact ⟨_, rfl, rfl, by simp [hl], by simp [hl, ho]⟩
  · rw [if_pos (by simpa using hattr)]
    refine ⟨_, rfl, ?_, ?_, ?_⟩
    · rw [(parseFold_proj _ _).1]
      cases f.list <;> cases f.optional <;> simp
    · rw [(parseFold_proj _ _).2.1]
      cases f.list <;> cases f.optional <;> simp
    · rw [(parseFold_proj _ _).2.2]
      cases f.list <;> cases f.optional <;> simp

theorem writeFieldAligned_data (f : PrismaField) (w1 w2 : Nat) :
    ∃ tail : List Char, (writeFieldAligned f w1 w2).data
      = trimEndChars (' ' :: ' ' :: (f.name.data
          ++ (List.replicate (w1 - f.name.data.length) ' ' ++ [' ', ' '])
          ++ ((formatFieldType f).data
          ++ (List.replicate (w2 - (formatFieldType f).data.length) ' ' ++ tail)))) := by
  refine ⟨(if f.attributes = [] then [] else (joinSpace f.attributes).data)
      ++ (match f.relation with | some r => (" " ++ formatRelation r).data | none => [])
      ++ (match f.map with
          | some mm => if mm = "" then [] else (" @map(\"" ++ mm ++ "\")").data
          | none => []), ?_⟩
  unfold writeFieldAligned
  rcases hrel : f.relation with _ | r <;> rcases hmap : f.map with _ | mm <;>
    by_cases ha : f.attributes = [] <;>
    first
    | (by_cases hmm : mm = "" <;>
        simp [hmm, ha, trimEndStr, padEndStr, String.data_append, List.append_assoc])
    | simp [ha, trimEndStr, padEndStr, String.data_append, List.append_assoc]

theorem replicate_sp_ws (k : Nat) : (List.replicate k ' ').all isWsChar = true := by
  rw [List.all_eq_true]
  intro c hc
  rw [List.mem_replicate] at hc
  rw [hc.2]
  decide

theorem replicate_sp_ne_nil (k : Nat) (h : 2 ≤ k) : List.replicate k ' ' ≠ [] := by
  intro hc
  have := congrArg List.length hc
  simp at this
  omega

theorem fieldLine_trim (f : PrismaField) (w1 w2 : Nat)
    (hn : safeWord f.name = true) (ht : safeWord f.type = true)
    (hw2 : (formatFieldType f).data.length + 2 ≤ w2) :
    (∃ t2, trimChars (writeFieldAligned f w1 w2).data = f.name.data ++ t2)
      ∧ ∃ rest, wsTokens (trimChars (writeFieldAligned f w1 w2).data)
          = f.name.data :: (formatFieldType f).data :: rest := by
  obtain ⟨tail, htail⟩ := writeFieldAligned_data f w1 w2
  obtain ⟨n0, nr, hnd, hw0, hnall, hnnws⟩ := safeWord_cons f.name hn
  obtain ⟨hftne, hftnws⟩ := formatFieldType_token f ht
  have hnne : f.name.data ≠ [] := by rw [hnd]; simp
  have hcore : f.name.data ++ (List.replicate (w1 - f.name.data.length) ' ' ++ [' ', ' '])
      ++ ((formatFieldType f).data
        ++ (List.replicate (w2 - (formatFieldType f).data.length) ' ' ++ tail))
      = n0 :: (nr ++ (List.replicate (w1 - f.name.data.length) ' ' ++ [' ', ' '])
        ++ ((formatFieldType f).data
          ++ (List.replicate (w2 - (formatFieldType f).data.length) ' ' ++ tail))) := by
    rw [hnd]
    simp
  have hT : trimChars (writeFieldAligned f w1 w2).data
      = trimEndChars (f.name.data
        ++ (List.replicate (w1 - f.name.data.length) ' ' ++ [' ', ' '])
        ++ ((formatFieldType f).data
          ++ (List.replicate (w2 - (formatFieldType f).data.length) ' ' ++ tail))) := by
    rw [htail, trimChars_two_sp_trimEnd _ n0 _ hcore (nonws_of_word n0 hw0)]
  constructor
  · rw [hT, List.append_assoc, trimEndChars_append]
    split
    · exact ⟨[], by rw [trimEndChars_of_all_nonws _ hnnws]; simp⟩
    · exact ⟨_, rfl⟩
  · rw [hT]
    rw [wsTokens_trimEnd_token _ _ _ hnne hnnws (by simp) (by
      simp only [List.all_append, Bool.and_eq_true]
      exact ⟨replicate_sp_ws _, by decide⟩)]
    rw [show (formatFieldType f).data
        ++ (List.replicate (w2 - (formatFieldType f).data.length) ' ' ++ tail)
        = (formatFieldType f).data
          ++ List.replicate (w2 - (formatFieldType f).data.length) ' ' ++ tail from by
      simp [List.append_assoc]]
    rw [wsTokens_trimEnd_token _ _ _ hftne hftnws
      (replicate_sp_ne_nil _ (by omega)) (replicate_sp_ws _)]
    exact ⟨_, rfl⟩

theorem trimEndChars_of_last (l : List Char) (c : Char) (h : l.getLast? = some c)
    (hc : isWsChar c = false) : trimEndChars l = l := by
  unfold trimEndChars
  rw [← List.head?_reverse] at h
  cases hrev : l.reverse with
  | nil =>
    rw [hrev] at h
    simp at h
  | cons a tl =>
    rw [hrev] at h
    simp only [List.head?_cons, Option.some.injEq] at h
    rw [← h] at hc
    have hd : List.dropWhile isWsChar (a :: tl) = a :: tl := by
      simp [List.dropWhile, hc]
    rw [hd, ← hrev, List.reverse_reverse]

theorem word_head_neq (c0 : Char) (h : isWordChar c0 = true) :
    ('/' == c0) = false ∧ ('@' == c0) = false := by
  constructor <;>
    (rw [beq_eq_false_iff_ne]
     intro he
     rw [← he] at h
     exact absurd h (by decide))

theorem processModelLine_fieldLine (acc : PrismaModel) (f : PrismaField) (w1 w2 : Nat)
    (hn : safeWord f.name = true) (ht : safeWord f.type = true)
    (hw2 : (formatFieldType f).data.length + 2 ≤ w2) :
    ∃ f', parseFieldLine (trimChars (writeFieldAligned f w1 w2).data) = some f'
      ∧ f'.name = f.name ∧ f'.list = f.list ∧ f'.optional = (f.optional && !f.list)
      ∧ processModelLine acc (trimChars (writeFieldAligned f w1 w2).data)
          = { acc with fields := acc.fields ++ [f'] } := by
  obtain ⟨⟨t2, ht2⟩, ⟨rest, hrest⟩⟩ := fieldLine_trim f w1 w2 hn ht hw2
  obtain ⟨f', hp, h1, h2, h3⟩ := parseFieldLine_proj _ rest f ht hrest
  obtain ⟨n0, nr, hnd, hw0, _, _⟩ := safeWord_cons f.name hn
  have hTform : trimChars (writeFieldAligned f w1 w2).data = n0 :: (nr ++ t2) := by
    rw [ht2, hnd]
    simp
  obtain ⟨hslash, hat⟩ := word_head_neq n0 hw0
  refine ⟨f', hp, h1, h2, h3, ?_⟩
  unfold processModelLine
  rw [hTform] at hp ⊢
  have hc1 : ("//".data).isPrefixOf (n0 :: (nr ++ t2)) = false := by
    simp [List.isPrefixOf, hslash]
  have hc2 : ("@@index".data).isPrefixOf (n0 :: (nr ++ t2)) = false := by
    simp [List.isPrefixOf, hat]
  have hc3 : ("@@unique".data).isPrefixOf (n0 :: (nr ++ t2)) = false := by
    simp [List.isPrefixOf, hat]
  have hc4 : ("@@map".data).isPrefixOf (n0 :: (nr ++ t2)) = false := by
    simp [List.isPrefixOf, hat]
  rw [if_neg (by rw [hc1]; simp), if_neg (by rw [hc2]; simp), if_neg (by rw [hc3]; simp),
    if_neg (by rw [hc4]; simp), hp]



theorem processModelLine_slashes (acc : PrismaModel) (w : String) :
    processModelLine acc (trimChars ("  " ++ ("/// @zod." ++ w)).data) = acc := by
  have hdata : ("  " ++ ("/// @zod." ++ w)).data
      = ' ' :: ' ' :: ('/' :: '/' :: '/' :: (" @zod.".data ++ w.data)) := by
    rw [String.data_append, String.data_append]
    rfl
  rw [hdata, trimChars_of_leading_sp _ '/' _ rfl (by decide)]
  rw [trimEndChars_cons_nonws _ _ (by decide), trimEndChars_cons_nonws _ _ (by decide)]
  have hpre : ("//".data).isPrefixOf
      ('/' :: '/' :: trimEndChars ('/' :: (" @zod.".data ++ w.data))) = true := by
    simp [List.isPrefixOf]
  unfold processModelLine
  rw [if_pos hpre]

theorem processModelLine_zodline (acc : PrismaModel) (v : Option FieldValidation) (z : String)
    (h : buildZodComment v = some z) :
    processModelLine acc (trimChars ("  " ++ z).data) = acc := by
  cases v with
  | none => simp [buildZodComment] at h
  | some val =>
    unfold buildZodComment at h
    simp only [] at h
    split at h
    · exact absurd h (by simp)
    · have h2 := Option.some.inj h
      rw [← h2]
      exact processModelLine_slashes acc _



theorem processModelLine_idx_preserve (acc : PrismaModel) (s : String) :
    (processModelLine acc (trimChars ("  @@index([" ++ s ++ "])").data)).name = acc.name
    ∧ (processModelLine acc (trimChars ("  @@index([" ++ s ++ "])").data)).fields
        = acc.fields := by
  have hdata : ("  @@index([" ++ s ++ "])").data
      = ' ' :: ' ' :: ('@' :: '@' :: 'i' :: 'n' :: 'd' :: 'e' :: 'x' :: '(' :: '['
        :: (s.data ++ [']', ')'])) := by
    rw [String.data_append, String.data_append]
    rfl
  rw [hdata, trimChars_of_leading_sp _ '@' _ rfl (by decide)]
  have hend : trimEndChars ('@' :: '@' :: 'i' :: 'n' :: 'd' :: 'e' :: 'x' :: '(' :: '['
        :: (s.data ++ [']', ')']))
      = '@' :: '@' :: 'i' :: 'n' :: 'd' :: 'e' :: 'x' :: '(' :: '['
        :: (s.data ++ [']', ')']) := by
    apply trimEndChars_of_last _ ')'
    · rw [show ('@' :: '@' :: 'i' :: 'n' :: 'd' :: 'e' :: 'x' :: '(' :: '['
          :: (s.data ++ [']', ')']))
          = (('@' :: '@' :: 'i' :: 'n' :: 'd' :: 'e' :: 'x' :: '(' :: '[' :: s.data)
            ++ [']']) ++ [')'] from by simp]
      rw [List.getLast?_concat]
    · decide
  rw [hend]
  unfold processModelLine
  rw [if_neg (by simp [List.isPrefixOf]), if_pos (by simp [List.isPrefixOf])]
  cases parseBracketList ('@' :: '@' :: 'i' :: 'n' :: 'd' :: 'e' :: 'x' :: '(' :: '['
      :: (s.data ++ [']', ')'])) ("@@index([".data) <;> simp

theorem processModelLine_uniq_preserve (acc : PrismaModel) (s : String) :
    (processModelLine acc (trimChars ("  @@unique([" ++ s ++ "])").data)).name = acc.name
    ∧ (processModelLine acc (trimChars ("  @@unique([" ++ s ++ "])").data)).fields
        = acc.fields := by
  have hdata : ("  @@unique([" ++ s ++ "])").data
      = ' ' :: ' ' :: ('@' :: '@' :: 'u' :: 'n' :: 'i' :: 'q' :: 'u' :: 'e' :: '(' :: '['
        :: (s.data ++ [']', ')'])) := by
    rw [String.data_append, String.data_append]
    rfl
  rw [hdata, trimChars_of_leading_sp _ '@' _ rfl (by decide)]
  have hend : trimEndChars ('@' :: '@' :: 'u' :: 'n' :: 'i' :: 'q' :: 'u' :: 'e' :: '(' :: '['
        :: (s.data ++ [']', ')']))
      = '@' :: '@' :: 'u' :: 'n' :: 'i' :: 'q' :: 'u' :: 'e' :: '(' :: '['
        :: (s.data ++ [']', ')']) := by
    apply trimEndChars_of_last _ ')'
    · rw [show ('@' :: '@' :: 'u' :: 'n' :: 'i' :: 'q' :: 'u' :: 'e' :: '(' :: '['
          :: (s.data ++ [']', ')']))
          = (('@' :: '@' :: 'u' :: 'n' :: 'i' :: 'q' :: 'u' :: 'e' :: '(' :: '[' :: s.data)
            ++ [']']) ++ [')'] from by simp]
      rw [List.getLast?_concat]
    · decide
  rw [hend]
  unfold processModelLine
  rw [if_neg (by simp [List.isPrefixOf]), if_neg (by simp [List.isPrefixOf]),
    if_pos (by simp [List.isPrefixOf])]
  cases parseBracketList ('@' :: '@' :: 'u' :: 'n' :: 'i' :: 'q' :: 'u' :: 'e' :: '(' :: '['
      :: (s.data ++ [']', ')'])) ("@@unique([".data) <;> simp

theorem processModelLine_map_preserve (acc : PrismaModel) (s : String) :
    (processModelLine acc (trimChars ("  @@map(\"" ++ s ++ "\")").data)).name = acc.name
    ∧ (processModelLine acc (trimChars ("  @@map(\"" ++ s ++ "\")").data)).fields
        = acc.fields := by
  have hdata : ("  @@map(\"" ++ s ++ "\")").data
      = ' ' :: ' ' :: ('@' :: '@' :: 'm' :: 'a' :: 'p' :: '(' :: '"'
        :: (s.data ++ ['"', ')'])) := by
    rw [String.data_append, String.data_append]
    rfl
  rw [hdata, trimChars_of_leading_sp _ '@' _ rfl (by decide)]
  have hend : trimEndChars ('@' :: '@' :: 'm' :: 'a' :: 'p' :: '(' :: '"'
        :: (s.data ++ ['"', ')']))
      = '@' :: '@' :: 'm' :: 'a' :: 'p' :: '(' :: '"' :: (s.data ++ ['"', ')']) := by
    apply trimEndChars_of_last _ ')'
    · rw [show ('@' :: '@' :: 'm' :: 'a' :: 'p' :: '(' :: '"' :: (s.data ++ ['"', ')']))
          = (('@' :: '@' :: 'm' :: 'a' :: 'p' :: '(' :: '"' :: s.data) ++ ['"']) ++ [')']
          from by simp]
      rw [List.getLast?_concat]
    · decide
  rw [hend]
  unfold processModelLine
  rw [if_neg (by simp [List.isPrefixOf]), if_neg (by simp [List.isPrefixOf]),
    if_neg (by simp [List.isPrefixOf]), if_pos (by simp [List.isPrefixOf])]
  cases parseQuoted ('@' :: '@' :: 'm' :: 'a' :: 'p' :: '(' :: '"' :: (s.data ++ ['"', ')']))
      ("@@map(\"".data) <;> simp

theorem strOK_no_nl (s : String) (h : strOK s = true) :
    s.data.all (fun c => !(c == '\n')) = true := by
  unfold strOK at h
  rw [List.all_eq_true] at h ⊢
  intro c hc
  have := h c hc
  unfold charOK at this
  simp only [Bool.and_eq_true, bne_iff_ne, ne_eq] at this
  simpa using this.1

theorem parseModelBody_lines (m : PrismaModel)
    (hne : writeModelLines m ≠ [])
    (hok : (writeModelLines m).all strOK = true) :
    ((splitChars (fun c => c == '\n') (bodyChars m)).map trimChars).filter (fun l => l ≠ [])
      = (((writeModelLines m).map String.data).map trimChars).filter (fun l => l ≠ []) := by
  have hLd : (writeModelLines m).map String.data ≠ [] := by simpa using hne
  have hmem : ∀ w ∈ ((writeModelLines m).map String.data) ++ [[]],
      w.all (fun c => !((fun c => c == '\n') c)) = true := by
    intro w hw
    rw [List.mem_append] at hw
    rcases hw with hw | hw
    · rw [List.mem_map] at hw
      obtain ⟨l, hl, rfl⟩ := hw
      rw [List.all_eq_true] at hok
      exact strOK_no_nl l (hok l hl)
    · simp at hw
      rw [hw]
      simp
  unfold bodyChars
  rw [show intercalChars ['\n'] ((writeModelLines m).map String.data) ++ ['\n']
      = intercalChars ['\n'] (((writeModelLines m).map String.data) ++ [[]]) from
    (intercalChars_snoc_nil ['\n'] _ hLd).symm]
  rw [splitChars_cons_pos _ _ _ (by decide)]
  rw [splitChars_intercal _ '\n' _ (by decide) hmem (by simp)]
  simp only [List.map_cons, List.map_append, List.filter_cons, List.filter_append]
  rw [show trimChars ([] : List Char) = [] from rfl]
  simp

theorem foldl_pml_preserve (acc : PrismaModel) (ls : List (List Char))
    (h : ∀ l ∈ ls, ∀ a : PrismaModel, (processModelLine a l).name = a.name
      ∧ (processModelLine a l).fields = a.fields) :
    (ls.foldl processModelLine acc).name = acc.name
      ∧ (ls.foldl processModelLine acc).fields = acc.fields := by
  induction ls generalizing acc with
  | nil => exact ⟨rfl, rfl⟩
  | cons l ls ih =>
    rw [List.foldl_cons]
    obtain ⟨h1, h2⟩ := h l (by simp) acc
    obtain ⟨i1, i2⟩ := ih (processModelLine acc l) (fun x hx a => h x (by simp [hx]) a)
    exact ⟨i1.trans h1, i2.trans h2⟩

theorem le_foldl_max (g : PrismaField → Nat) (l : List PrismaField) (init : Nat)
    (x : PrismaField) (hx : x ∈ l) :
    g x ≤ l.foldl (fun a y => max a (g y)) init := by
  have haux : ∀ (l2 : List PrismaField) (i : Nat),
      i ≤ l2.foldl (fun a y => max a (g y)) i := by
    intro l2
    induction l2 with
    | nil => intro i; exact le_refl i
    | cons y ys ih =>
      intro i
      rw [List.foldl_cons]
      exact le_trans (le_max_left i (g y)) (ih (max i (g y)))
  induction l generalizing init with
  | nil => cases hx
  | cons y ys ih =>
    rw [List.foldl_cons]
    rcases List.mem_cons.mp hx with rfl | hmem
    · exact le_trans (le_max_right init (g x)) (haux ys _)
    · exact ih (max init (g y)) hmem

theorem modelNameWidth_ge (m : PrismaModel) (f : PrismaField) (hf : f ∈ m.fields) :
    f.name.data.length + 2 ≤ modelNameWidth m := by
  unfold modelNameWidth
  have := le_foldl_max (fun f => f.name.data.length) m.fields 0 f hf
  simp only [] at this
  omega

theorem modelTypeWidth_ge (m : PrismaModel) (f : PrismaField) (hf : f ∈ m.fields) :
    (formatFieldType f).data.length + 2 ≤ modelTypeWidth m := by
  unfold modelTypeWidth
  have := le_foldl_max (fun f => (formatFieldType f).data.length) m.fields 0 f hf
  simp only [] at this
  omega



theorem mem_ite_list (x : String) (c : Prop) [Decidable c] (A B : List String)
    (h : x ∈ (if c then A else B)) : x ∈ A ∨ x ∈ B := by
  split at h
  · exact Or.inl h
  · exact Or.inr h

theorem mem_modelDirectiveLines (m : PrismaModel) (l : String)
    (hl : l ∈ modelDirectiveLines m) :
    l = "" ∨ (∃ s, l = "  @@index([" ++ joinComma s ++ "])")
      ∨ (∃ s, l = "  @@unique([" ++ joinComma s ++ "])")
      ∨ (∃ s, l = "  @@map(\"" ++ s ++ "\")") := by
  unfold modelDirectiveLines at hl
  simp only [] at hl
  rcases List.mem_append.mp hl with hl | hl
  · rcases List.mem_append.mp hl with hl | hl
    · rcases mem_ite_list _ _ _ _ hl with hl | hl
      · rcases List.mem_append.mp hl with hl | hl
        · left
          simpa using hl
        · right
          left
          obtain ⟨i, _, heq⟩ := List.mem_map.mp hl
          exact ⟨i, heq.symm⟩
      · simp at hl
    · rcases mem_ite_list _ _ _ _ hl with hl | hl
      · rcases List.mem_append.mp hl with hl | hl
        · rcases mem_ite_list _ _ _ _ hl with hl | hl
          · simp at hl
          · left
            simpa using hl
        · right
          right
          left
          obtain ⟨u, _, heq⟩ := List.mem_map.mp hl
          exact ⟨u, heq.symm⟩
      · simp at hl
  · rcases hmh : m.map with _ | mp
    · rw [hmh] at hl
      simp at hl
    · rw [hmh] at hl
      rcases mem_ite_list _ _ _ _ hl with hl | hl
      · simp at hl
      · rcases List.mem_append.mp hl with hl | hl
        · rcases mem_ite_list _ _ _ _ hl with hl | hl
          · left
            simpa using hl
          · simp at hl
        · right
          right
          right
          refine ⟨mp, ?_⟩
          simpa using hl

theorem directive_lines_preserve (m : PrismaModel) :
    ∀ l ∈ (((modelDirectiveLines m).map String.data).map trimChars).filter
        (fun x => x ≠ []),
      ∀ a : PrismaModel, (processModelLine a l).name = a.name
        ∧ (processModelLine a l).fields = a.fields := by
  intro l hl a
  rw [List.mem_filter] at hl
  obtain ⟨hmem, hne⟩ := hl
  rw [List.mem_map] at hmem
  obtain ⟨d, hd, rfl⟩ := hmem
  rw [List.mem_map] at hd
  obtain ⟨str, hstr, rfl⟩ := hd
  rcases mem_modelDirectiveLines m str hstr with rfl | ⟨s, rfl⟩ | ⟨s, rfl⟩ | ⟨s, rfl⟩
  · simp [show trimChars ("" : String).data = [] from rfl] at hne
  · exact processModelLine_idx_preserve a (joinComma s)
  · exact processModelLine_uniq_preserve a (joinComma s)
  · exact processModelLine_map_preserve a s

theorem trim_slashes_ne (w : String) :
    trimChars ("  " ++ ("/// @zod." ++ w)).data ≠ [] := by
  have hdata : ("  " ++ ("/// @zod." ++ w)).data
      = ' ' :: ' ' :: ('/' :: '/' :: '/' :: (" @zod.".data ++ w.data)) := by
    rw [String.data_append, String.data_append]
    rfl
  rw [hdata, trimChars_of_leading_sp _ '/' _ rfl (by decide)]
  rw [trimEndChars_cons_nonws _ _ (by decide)]
  simp

theorem zodline_trim_ne (v : Option FieldValidation) (z : String)
    (h : buildZodComment v = some z) : trimChars ("  " ++ z).data ≠ [] := by
  cases v with
  | none => simp [buildZodComment] at h
  | some val =>
    unfold buildZodComment at h
    simp only [] at h
    split at h
    · exact absurd h (by simp)
    · have h2 := Option.some.inj h
      rw [← h2]
      exact trim_slashes_ne _

theorem modelWF_field_facts (m : PrismaModel) (h : modelWF m = true) (f : PrismaField)
    (hf : f ∈ m.fields) : safeWord f.name = true ∧ safeWord f.type = true := by
  unfold modelWF at h
  simp only [Bool.and_eq_true] at h
  have h2 := h.1.2
  rw [List.all_eq_true] at h2
  have hff := h2 f hf
  simp only [Bool.and_eq_true] at hff
  exact hff



theorem fieldBlocks_fold (m : PrismaModel) (hwfm : modelWF m = true)
    (fields : List PrismaField) :
    ∀ (_hsub : ∀ f ∈ fields, f ∈ m.fields) (acc : PrismaModel),
    (((((fields.flatMap (fun f =>
          fieldBlockLines f (modelNameWidth m) (modelTypeWidth m))).map
        String.data).map trimChars).filter (fun x => x ≠ [])).foldl
      processModelLine acc).name = acc.name
    ∧ (((((fields.flatMap (fun f =>
          fieldBlockLines f (modelNameWidth m) (modelTypeWidth m))).map
        String.data).map trimChars).filter (fun x => x ≠ [])).foldl
      processModelLine acc).fields.map (fun f => (f.name, f.list, f.optional))
      = acc.fields.map (fun f => (f.name, f.list, f.optional))
        ++ fields.map (fun f => (f.name, f.list, f.optional && !f.list)) := by
  induction fields with
  | nil =>
    intro _ acc
    simp
  | cons f fs ih =>
    intro hsub acc
    have hfin : f ∈ m.fields := hsub f (by simp)
    obtain ⟨hn, ht⟩ := modelWF_field_facts m hwfm f hfin
    have hw2 := modelTypeWidth_ge m f hfin
    obtain ⟨f', hp, h1, h2, h3, hstep⟩ :=
      processModelLine_fieldLine acc f (modelNameWidth m) (modelTypeWidth m) hn ht hw2
    obtain ⟨⟨t2, ht2⟩, _⟩ := fieldLine_trim f (modelNameWidth m) (modelTypeWidth m) hn ht hw2
    have halne : trimChars (writeFieldAligned f (modelNameWidth m) (modelTypeWidth m)).data
        ≠ [] := by
      rw [ht2]
      obtain ⟨n0, nr, hnd, _, _, _⟩ := safeWord_cons f.name hn
      rw [hnd]
      simp
    have hinner : ((((fieldBlockLines f (modelNameWidth m) (modelTypeWidth m)).map
          String.data).map trimChars).filter (fun x => x ≠ [])).foldl
        processModelLine acc = { acc with fields := acc.fields ++ [f'] } := by
      unfold fieldBlockLines
      cases hz : buildZodComment f.validation with
      | none =>
        simp only [List.nil_append, List.map_cons, List.map_nil, List.filter_cons,
          List.filter_nil]
        rw [if_pos (by simpa using halne)]
        simp only [List.foldl_cons, List.foldl_nil]
        exact hstep
      | some z =>
        simp only [List.cons_append, List.nil_append, List.map_cons, List.map_nil,
          List.filter_cons, List.filter_nil]
        rw [if_pos (by simpa using zodline_trim_ne f.validation z (by rw [hz]))]
        rw [if_pos (by simpa using halne)]
        simp only [List.foldl_cons, List.foldl_nil]
        rw [processModelLine_zodline acc f.validation z (by rw [hz])]
        exact hstep
    rw [List.flatMap_cons]
    simp only [List.map_append, List.filter_append, List.foldl_append]
    rw [hinner]
    obtain ⟨iname, ifields⟩ := ih (fun g hg => hsub g (by simp [hg]))
      { acc with fields := acc.fields ++ [f'] }
    constructor
    · rw [iname]
    · rw [ifields]
      simp only [List.map_append, List.map_cons, List.map_nil, List.append_assoc,
        List.cons_append, List.nil_append, h1, h2, h3]



theorem parseModelBody_render (m : PrismaModel) (hwfm : modelWF m = true) :
    (parseModelBody m.name.data (bodyChars m)).name = m.name
    ∧ (parseModelBody m.name.data (bodyChars m)).fields.map
        (fun f => (f.name, f.list, f.optional))
      = m.fields.map (fun f => (f.name, f.list, f.optional && !f.list)) := by
  obtain ⟨hnm, hlines_ne, hlines_ok⟩ := modelWF_unpack m hwfm
  unfold parseModelBody
  rw [parseModelBody_lines m hlines_ne hlines_ok]
  rw [show writeModelLines m
      = (m.fields.flatMap (fun f =>
          fieldBlockLines f (modelNameWidth m) (modelTypeWidth m)))
        ++ modelDirectiveLines m from rfl]
  simp only [List.map_append, List.filter_append, List.foldl_append]
  obtain ⟨fname, ffields⟩ := fieldBlocks_fold m hwfm m.fields (fun f hf => hf)
    { name := String.mk m.name.data, fields := [] }
  have hd := foldl_pml_preserve
    (((((m.fields.flatMap (fun f =>
        fieldBlockLines f (modelNameWidth m) (modelTypeWidth m))).map
      String.data).map trimChars).filter (fun x => x ≠ [])).foldl processModelLine
      { name := String.mk m.name.data, fields := [] })
    ((((modelDirectiveLines m).map String.data).map trimChars).filter (fun x => x ≠ []))
    (directive_lines_preserve m)
  refine ⟨?_, ?_⟩
  · rw [hd.1, fname]
  · rw [hd.2, ffields]
    simp


/-! ## Claim C7: serializer/parser round-trip -/

/-- **C7.** For every schema built purely from in-memory direct input
that is well-formed for rendering (`schemaWF`: word-token model and
column names and base types, at least one model and column, body-safe
rendered lines) and whose rendered datasource/generator region the model
regex never fires inside (`prefixCleanB`), re-extracting the text
rendered by `writeSchemaSync` with `extractModelsFromString` recovers
every table name, every column name and every column's list flag
exactly - but the optionality flag only as `optional && !list`: a column
carrying both the list and the optional flag re-extracts as
non-optional, because `formatFieldType` renders `T[]` with no `?` and
`parseFieldLine` only sets `optional` from a trailing `?`.  The
round-trip therefore preserves optionality precisely for non-list
columns, a correction of the claim, which asserted optionality is always
recovered (see `C7_counterexample`). -/
theorem C7_roundtrip (schema : PrismaSchema)
    (hwf : schemaWF schema = true) (hclean : prefixCleanB schema = true) :
    (extractModelsFromString (writeSchemaSync schema)).map
        (fun m => (m.name, m.fields.map (fun f => (f.name, f.list, f.optional))))
      = schema.models.map
        (fun m => (m.name, m.fields.map
          (fun f => (f.name, f.list, f.optional && !f.list)))) := by
  rw [extract_writeSchema schema hwf hclean, List.map_map]
  have hallwf : ∀ m ∈ schema.models, modelWF m = true := by
    unfold schemaWF at hwf
    simp only [Bool.and_eq_true] at hwf
    have h2 := hwf.2
    rw [List.all_eq_true] at h2
    exact h2
  apply List.map_congr_left
  intro m hm
  obtain ⟨h1, h2⟩ := parseModelBody_render m (hallwf m hm)
  simp only [Function.comp_apply, h1, h2]

/-- **C7 (counterexample to the claim as stated).**  The pipeline maps
the `comments` one-to-many relation field of `c7ModelConfig` to a column
with both `list` and `optional` set; the serializer renders it as
`Comment[]` (no `?`), and re-extraction returns it with
`optional = false`: the in-memory schema and the re-extracted one
disagree on that column's optionality, refuting the claim that the
round-trip recovers the optionality flag of every column. -/
theorem C7_counterexample :
    (c7Schema.models.map (fun m => m.fields.map (fun f => (f.name, f.list, f.optional))))
      = [[("id", false, false), ("title", false, false), ("comments", true, true),
          ("created_at", false, false), ("updated_at", false, false)]]
    ∧ ((extractModelsFromString (writeSchemaSync c7Schema)).map
        (fun m => m.fields.map (fun f => (f.name, f.list, f.optional))))
      = [[("id", false, false), ("title", false, false), ("comments", true, false),
          ("created_at", false, false), ("updated_at", false, false)]] := by
  exact ⟨rfl, rfl⟩

/-- Witness for C7: the fixture schema satisfies both hypotheses, and
the theorem applies to it. -/
theorem C7_witness :
    schemaWF c7Schema = true ∧ prefixCleanB c7Schema = true
    ∧ (extractModelsFromString (writeSchemaSync c7Schema)).map
        (fun m => (m.name, m.fields.map (fun f => (f.name, f.list, f.optional))))
      = c7Schema.models.map
        (fun m => (m.name, m.fields.map
          (fun f => (f.name, f.list, f.optional && !f.list)))) :=
  ⟨by decide, by decide, C7_roundtrip c7Schema (by decide) (by decide)⟩

end EavToPrisma
